import Mathlib

/-!
# Ray tracer core (`RayTracer.h`, `RayTracer.cpp`): shallow embedding

Numbers are elements of a linear ordered field `K` (exact arithmetic, no rounding): the
float literals `0.001f`, `1e-6`, `1.5f`, ... are the rationals they denote.  The square root
is a parameter `sqrt : K → K`; theorems that need it assume it is the non-negative root on
non-negative arguments, nothing else.  Every definition is computable, e.g. on `ℚ`.
Division is the total division of the field (`x / 0 = 0`), where the float code would
produce an infinity or a NaN.

The two `static std::mt19937` generators become two tapes of pre-drawn values that are
threaded through the calls; a sampler that finds its tape exhausted returns `none`.
The `int` members `maxDepth`, `sampleCount` and the `depth` argument are integers without
overflow.  An in-out parameter `HitRecord&` is an argument and a component of the result.
-/

namespace RT

/-! ## glm -/

/-- The type glm::vec3 over exact numbers. -/
@[ext] structure Vec3 (K : Type) where
  x : K
  y : K
  z : K

section Defs

variable {K : Type} [LinearOrderedField K]

namespace Vec3

/-- Componentwise sum. -/
def add (u v : Vec3 K) : Vec3 K := ⟨u.x + v.x, u.y + v.y, u.z + v.z⟩
/-- Componentwise difference. -/
def sub (u v : Vec3 K) : Vec3 K := ⟨u.x - v.x, u.y - v.y, u.z - v.z⟩
/-- Unary minus. -/
def neg (v : Vec3 K) : Vec3 K := ⟨-v.x, -v.y, -v.z⟩
/-- Componentwise product `u * v` of two vectors. -/
def mul (u v : Vec3 K) : Vec3 K := ⟨u.x * v.x, u.y * v.y, u.z * v.z⟩
/-- Product `v * a` (and `a * v`) of a vector and a scalar. -/
def scale (v : Vec3 K) (a : K) : Vec3 K := ⟨v.x * a, v.y * a, v.z * a⟩
/-- Quotient `v / a` of a vector by a scalar.  For `a = 0` the quotient is the zero vector
here; the `float` division gives an infinity or a NaN. -/
def divS (v : Vec3 K) (a : K) : Vec3 K := ⟨v.x / a, v.y / a, v.z / a⟩
/-- The vector glm::vec3(a). -/
def splat (a : K) : Vec3 K := ⟨a, a, a⟩

instance : Add (Vec3 K) := ⟨add⟩
instance : Sub (Vec3 K) := ⟨sub⟩
instance : Neg (Vec3 K) := ⟨neg⟩
instance : Mul (Vec3 K) := ⟨mul⟩
instance : Zero (Vec3 K) := ⟨⟨0, 0, 0⟩⟩

end Vec3

/-- Scalar product glm::dot. -/
def dot (u v : Vec3 K) : K := u.x * v.x + u.y * v.y + u.z * v.z

/-- Euclidean norm glm::length, `sqrt(dot(v, v))`. -/
def length (sqrt : K → K) (v : Vec3 K) : K := sqrt (dot v v)

/-- Reciprocal root glm::inversesqrt.  Where `sqrt a = 0` the value is 0 here; the `float`
code gives an infinity. -/
def inversesqrt (sqrt : K → K) (a : K) : K := 1 / sqrt a

/-- Unit vector glm::normalize, `v * inversesqrt(dot(v, v))`.  The zero vector is normalized
to the zero vector here; glm::normalize gives `0 * inf`, a NaN in every component. -/
def normalize (sqrt : K → K) (v : Vec3 K) : Vec3 K := v.scale (inversesqrt sqrt (dot v v))

/-- Mirror direction glm::reflect, `I - N * dot(N, I) * 2`. -/
def reflect (I N : Vec3 K) : Vec3 K := I - (N.scale (dot N I)).scale 2

/-- Refracted direction glm::refract: the zero vector when `k < 0`. -/
def refract (sqrt : K → K) (I N : Vec3 K) (eta : K) : Vec3 K :=
  let dotValue := dot N I
  let k := 1 - eta * eta * (1 - dotValue * dotValue)
  if 0 ≤ k then I.scale eta - N.scale (eta * dotValue + sqrt k) else 0

/-- Linear blend glm::mix, `x * (1 - a) + y * a`. -/
def mix (x y : Vec3 K) (a : K) : Vec3 K := x.scale (1 - a) + y.scale a

/-! ## RayTracer.h -/

/-- The struct Ray. -/
structure Ray (K : Type) where
  origin : Vec3 K
  direction : Vec3 K
  tMin : K
  tMax : K

/-- The constructor `Ray(o, d)`: the direction is normalized, `tMin = 0.001f`,
`tMax = 1000.0f`. -/
def Ray.ctor (sqrt : K → K) (o d : Vec3 K) : Ray K :=
  { origin := o, direction := normalize sqrt d, tMin := 1 / 1000, tMax := 1000 }

/-- The member Ray::at. -/
def Ray.at (ray : Ray K) (t : K) : Vec3 K := ray.origin + ray.direction.scale t

/-- The struct HitRecord. -/
structure HitRecord (K : Type) where
  point : Vec3 K
  normal : Vec3 K
  t : K
  frontFace : Bool
  color : Vec3 K
  reflectance : K
  transparency : K
  objectIndex : Int

/-- A default-constructed `HitRecord`: `reflectance = 0`, `transparency = 0`,
`objectIndex = -1`.  The five members without an initializer are indeterminate in C++; they
are zero here, and every reader of a record reads them only after a successful test wrote
them. -/
def HitRecord.uninit : HitRecord K :=
  { point := 0, normal := 0, t := 0, frontFace := false, color := 0,
    reflectance := 0, transparency := 0, objectIndex := -1 }

/-- The member HitRecord::setFaceNormal. -/
def HitRecord.setFaceNormal (record : HitRecord K) (ray : Ray K) (outwardNormal : Vec3 K) :
    HitRecord K :=
  let frontFace := decide (dot ray.direction outwardNormal < 0)
  { record with
    frontFace := frontFace
    normal := if frontFace then outwardNormal else -outwardNormal }

/-- The struct RayTracingMaterial. -/
structure RayTracingMaterial (K : Type) where
  albedo : Vec3 K
  metallic : K
  roughness : K
  transparency : K
  refractiveIndex : K
  emission : Vec3 K

/-- A default-constructed material. -/
def RayTracingMaterial.default : RayTracingMaterial K :=
  { albedo := Vec3.splat (8 / 10), metallic := 0, roughness := 1 / 2, transparency := 0,
    refractiveIndex := 1, emission := Vec3.splat 0 }

/-- The struct RayTracer::Sphere. -/
structure Sphere (K : Type) where
  center : Vec3 K
  radius : K
  material : RayTracingMaterial K

/-- The struct RayTracer::Plane. -/
structure Plane (K : Type) where
  point : Vec3 K
  normal : Vec3 K
  material : RayTracingMaterial K

/-- The struct RayTracer::Light. -/
structure Light (K : Type) where
  position : Vec3 K
  color : Vec3 K
  intensity : K

/-- The members of MuseumObject that the ray tracer reads. -/
structure MuseumObject (K : Type) where
  position : Vec3 K
  materialDiffuse : Vec3 K

/-- The catalog MuseumObjectManager: a vector of owning pointers, each of which may be
null. -/
structure MuseumObjectManager (K : Type) where
  objects : List (Option (MuseumObject K))

/-- The accessor MuseumObjectManager::getObjectCount. -/
def MuseumObjectManager.getObjectCount (m : MuseumObjectManager K) : Nat := m.objects.length

/-- The accessor MuseumObjectManager::getObject: null when the index is out of range. -/
def MuseumObjectManager.getObject (m : MuseumObjectManager K) (index : Nat) :
    Option (MuseumObject K) :=
  match m.objects.get? index with
  | some p => p
  | none => none

/-- The data members of the class RayTracer; `scene` is a pointer that may be null. -/
structure RayTracer (K : Type) where
  spheres : List (Sphere K)
  planes : List (Plane K)
  lights : List (Light K)
  scene : Option (MuseumObjectManager K)
  maxDepth : Int
  sampleCount : Int
  backgroundColor : Vec3 K
  globalIllumination : Bool

/-- The conversion `static_cast<int>(i)` of a `size_t` to a 32-bit `int`. -/
def castInt (i : Nat) : Int := (((i : Int) + 2 ^ 31) % 2 ^ 32) - 2 ^ 31

/-! ## RayTracer.cpp: scene setup -/

/-- The method RayTracer::setScene. -/
def setScene (tr : RayTracer K) (objectManager : Option (MuseumObjectManager K)) :
    RayTracer K :=
  { tr with scene := objectManager }

/-- The method RayTracer::addSphere. -/
def addSphere (tr : RayTracer K) (center : Vec3 K) (radius : K)
    (material : RayTracingMaterial K) : RayTracer K :=
  { tr with spheres := tr.spheres ++ [⟨center, radius, material⟩] }

/-- The method RayTracer::addPlane: the stored normal is normalized. -/
def addPlane (sqrt : K → K) (tr : RayTracer K) (point normal : Vec3 K)
    (material : RayTracingMaterial K) : RayTracer K :=
  { tr with planes := tr.planes ++ [⟨point, normalize sqrt normal, material⟩] }

/-- The method RayTracer::addLight. -/
def addLight (tr : RayTracer K) (position color : Vec3 K) (intensity : K) : RayTracer K :=
  { tr with lights := tr.lights ++ [⟨position, color, intensity⟩] }

/-- The method RayTracer::clearLights. -/
def clearLights (tr : RayTracer K) : RayTracer K := { tr with lights := [] }

/-- The method RayTracer::setMaxDepth. -/
def setMaxDepth (tr : RayTracer K) (depth : Int) : RayTracer K := { tr with maxDepth := depth }

/-- The method RayTracer::setBackgroundColor. -/
def setBackgroundColor (tr : RayTracer K) (color : Vec3 K) : RayTracer K :=
  { tr with backgroundColor := color }

/-- The method RayTracer::enableGlobalIllumination. -/
def enableGlobalIllumination (tr : RayTracer K) (enable : Bool) : RayTracer K :=
  { tr with globalIllumination := enable }

/-- The method RayTracer::setSampleCount. -/
def setSampleCount (tr : RayTracer K) (samples : Int) : RayTracer K :=
  { tr with sampleCount := samples }

/-! ## RayTracer.cpp: the intersector -/

/-- Lines 207-213 of hitSphere: the members written once a root was accepted.  The source
has no guard on the radius: for `radius = 0` the outward normal is the zero vector here, and
a NaN in every component in the `float` code. -/
def hitSphereWrite (sphere : Sphere K) (ray : Ray K) (record : HitRecord K) (root : K) :
    HitRecord K :=
  let record := { record with t := root }
  let record := { record with point := ray.at record.t }
  let outwardNormal := (record.point - sphere.center).divS sphere.radius
  let record := record.setFaceNormal ray outwardNormal
  { record with
    color := sphere.material.albedo
    reflectance := sphere.material.metallic
    transparency := sphere.material.transparency }

/-- The method RayTracer::hitSphere; `record` is the in-out parameter, returned unchanged
when the test fails. -/
def hitSphere (sqrt : K → K) (sphere : Sphere K) (ray : Ray K) (record : HitRecord K) :
    Bool × HitRecord K :=
  let oc := ray.origin - sphere.center
  let a := dot ray.direction ray.direction
  let b := 2 * dot oc ray.direction
  let c := dot oc oc - sphere.radius * sphere.radius
  let discriminant := b * b - 4 * a * c
  if discriminant < 0 then (false, record)
  else
    let sqrtd := sqrt discriminant
    let root := (-b - sqrtd) / (2 * a)
    if root < ray.tMin ∨ ray.tMax < root then
      let root := (-b + sqrtd) / (2 * a)
      if root < ray.tMin ∨ ray.tMax < root then (false, record)
      else (true, hitSphereWrite sphere ray record root)
    else (true, hitSphereWrite sphere ray record root)

/-- Lines 225-230 of hitPlane: the members written once `t` was accepted. -/
def hitPlaneWrite (plane : Plane K) (ray : Ray K) (record : HitRecord K) (t : K) :
    HitRecord K :=
  let record := { record with t := t }
  let record := { record with point := ray.at t }
  let record := record.setFaceNormal ray plane.normal
  { record with
    color := plane.material.albedo
    reflectance := plane.material.metallic
    transparency := plane.material.transparency }

/-- The method RayTracer::hitPlane; `abs` is the absolute value of a `float`, the literal
`1e-6` the rational it denotes. -/
def hitPlane (plane : Plane K) (ray : Ray K) (record : HitRecord K) : Bool × HitRecord K :=
  let denom := dot plane.normal ray.direction
  if |denom| < 1 / 1000000 then (false, record)
  else
    let t := dot (plane.point - ray.origin) plane.normal / denom
    if t < ray.tMin ∨ t > ray.tMax then (false, record)
    else (true, hitPlaneWrite plane ray record t)

/-- Lines 256-262 of hitMuseumObject: the members written once a root was accepted. -/
def hitMuseumObjectWrite (sqrt : K → K) (obj : MuseumObject K) (ray : Ray K)
    (record : HitRecord K) (root : K) : HitRecord K :=
  let record := { record with t := root }
  let record := { record with point := ray.at record.t }
  let outwardNormal := normalize sqrt (record.point - obj.position)
  let record := record.setFaceNormal ray outwardNormal
  { record with
    color := obj.materialDiffuse
    reflectance := 3 / 10
    transparency := 0 }

/-- The method RayTracer::hitMuseumObject (bounding sphere of radius `1.5f`). -/
def hitMuseumObject (sqrt : K → K) (obj : MuseumObject K) (ray : Ray K)
    (record : HitRecord K) : Bool × HitRecord K :=
  let radius : K := 3 / 2
  let oc := ray.origin - obj.position
  let a := dot ray.direction ray.direction
  let b := 2 * dot oc ray.direction
  let c := dot oc oc - radius * radius
  let discriminant := b * b - 4 * a * c
  if discriminant < 0 then (false, record)
  else
    let sqrtd := sqrt discriminant
    let root := (-b - sqrtd) / (2 * a)
    if root < ray.tMin ∨ ray.tMax < root then
      let root := (-b + sqrtd) / (2 * a)
      if root < ray.tMin ∨ ray.tMax < root then (false, record)
      else (true, hitMuseumObjectWrite sqrt obj ray record root)
    else (true, hitMuseumObjectWrite sqrt obj ray record root)

/-- The local variables of RayTracer::hit together with its in-out parameter `record`. -/
structure HitState (K : Type) where
  hitAnything : Bool
  closestSoFar : K
  tempRecord : HitRecord K
  record : HitRecord K

/-- One iteration of the sphere loop of RayTracer::hit. -/
def hitSphereStep (sqrt : K → K) (ray : Ray K) (st : HitState K) (sphere : Sphere K) :
    HitState K :=
  let r := hitSphere sqrt sphere ray st.tempRecord
  if r.1 && decide (r.2.t < st.closestSoFar) then
    { hitAnything := true, closestSoFar := r.2.t, tempRecord := r.2, record := r.2 }
  else { st with tempRecord := r.2 }

/-- One iteration of the plane loop of RayTracer::hit. -/
def hitPlaneStep (ray : Ray K) (st : HitState K) (plane : Plane K) : HitState K :=
  let r := hitPlane plane ray st.tempRecord
  if r.1 && decide (r.2.t < st.closestSoFar) then
    { hitAnything := true, closestSoFar := r.2.t, tempRecord := r.2, record := r.2 }
  else { st with tempRecord := r.2 }

/-- One iteration of the catalog loop of RayTracer::hit, for index `i`. -/
def hitObjectStep (sqrt : K → K) (scene : MuseumObjectManager K) (ray : Ray K)
    (st : HitState K) (i : Nat) : HitState K :=
  match scene.getObject i with
  | none => st
  | some obj =>
    let r := hitMuseumObject sqrt obj ray st.tempRecord
    if r.1 && decide (r.2.t < st.closestSoFar) then
      { hitAnything := true, closestSoFar := r.2.t, tempRecord := r.2,
        record := { r.2 with objectIndex := castInt i } }
    else { st with tempRecord := r.2 }

/-- The method RayTracer::hit: the returned pair is the result and the in-out `record`. -/
def hit (sqrt : K → K) (tr : RayTracer K) (ray : Ray K) (record : HitRecord K) :
    Bool × HitRecord K :=
  let st : HitState K :=
    { hitAnything := false, closestSoFar := ray.tMax, tempRecord := HitRecord.uninit,
      record := record }
  let st := tr.spheres.foldl (hitSphereStep sqrt ray) st
  let st := tr.planes.foldl (hitPlaneStep ray) st
  let st :=
    match tr.scene with
    | none => st
    | some scene => (List.range scene.getObjectCount).foldl (hitObjectStep sqrt scene ray) st
  (st.hitAnything, st.record)

/-! ## RayTracer.cpp: shading -/

/-- One iteration of the light loop of RayTracer::calculateLighting.  `std::max(x, 0.0f)` is
the maximum of the order here; on a NaN first argument, as `lightDir` is for a light at the
hit point, the `float` code returns that NaN. -/
def lightStep (sqrt : K → K) (tr : RayTracer K) (h : HitRecord K) (color : Vec3 K)
    (light : Light K) : Vec3 K :=
  let lightDir := normalize sqrt (light.position - h.point)
  let distance := length sqrt (light.position - h.point)
  let attenuation := 1 / (1 + 1 / 10 * distance + 1 / 100 * distance * distance)
  let shadowRay : Ray K :=
    { Ray.ctor sqrt (h.point + h.normal.scale (1 / 1000)) lightDir with
      tMax := distance - 1 / 1000 }
  let inShadow := (hit sqrt tr shadowRay HitRecord.uninit).1
  if !inShadow then
    let diff := max (dot h.normal lightDir) 0
    color + (((h.color * light.color).scale light.intensity).scale diff).scale attenuation
  else color

/-- The method RayTracer::calculateLighting. -/
def calculateLighting (sqrt : K → K) (tr : RayTracer K) (h : HitRecord K) : Vec3 K :=
  tr.lights.foldl (lightStep sqrt tr h) (h.color.scale (1 / 10))

/-! ## RayTracer.cpp: sampling -/

/-- The random source: `sphere` holds the values that the generator of randomInUnitSphere
will draw from `[-1, 1)`, `unit` those that the generator of random01 will draw from
`[0, 1)`. -/
structure Rng (K : Type) where
  sphere : List K
  unit : List K

/-- The do-while loop of randomInUnitSphere on the tape of draws: three draws per round,
repeated while the length of the point is at least one.  C++ leaves the order in which the
three arguments of `glm::vec3(dis(gen), dis(gen), dis(gen))` are drawn unspecified; they are
taken from left to right here. -/
def rejectionLoop (sqrt : K → K) : List K → Option (Vec3 K × List K)
  | a :: b :: c :: rest =>
    if length sqrt (⟨a, b, c⟩ : Vec3 K) ≥ 1 then rejectionLoop sqrt rest
    else some (⟨a, b, c⟩, rest)
  | _ => none

/-- The method RayTracer::randomInUnitSphere. -/
def randomInUnitSphere (sqrt : K → K) (g : Rng K) : Option (Vec3 K × Rng K) :=
  match rejectionLoop sqrt g.sphere with
  | none => none
  | some (p, rest) => some (p, { g with sphere := rest })

/-- The method RayTracer::randomUnitVector. -/
def randomUnitVector (sqrt : K → K) (g : Rng K) : Option (Vec3 K × Rng K) :=
  match randomInUnitSphere sqrt g with
  | none => none
  | some (p, g) => some (normalize sqrt p, g)

/-- The method RayTracer::random01. -/
def random01 (g : Rng K) : Option (K × Rng K) :=
  match g.unit with
  | [] => none
  | u :: rest => some (u, { g with unit := rest })

/-- The method RayTracer::sampleHemisphere. -/
def sampleHemisphere (sqrt : K → K) (normal : Vec3 K) (g : Rng K) : Option (Vec3 K × Rng K) :=
  match randomUnitVector sqrt g with
  | none => none
  | some (randomDir, g) =>
    if dot randomDir normal < 0 then some (-randomDir, g) else some (randomDir, g)

/-- The method RayTracer::calculateFresnel. -/
def calculateFresnel (sqrt : K → K) (incident normal : Vec3 K) (n1 n2 : K) : K :=
  let cosI := -dot incident normal
  let sinT2 := (n1 / n2) * (n1 / n2) * (1 - cosI * cosI)
  if sinT2 > 1 then 1
  else
    let cosT := sqrt (1 - sinT2)
    let r0rth := (n1 * cosI - n2 * cosT) / (n1 * cosI + n2 * cosT)
    let rPar := (n2 * cosI - n1 * cosT) / (n2 * cosI + n1 * cosT)
    (r0rth * r0rth + rPar * rPar) / 2

/-! ## RayTracer.cpp: recursive transport

The three helpers call back into traceRay; they take that callee as the argument `trace`,
and traceRay passes itself. -/

/-- The method RayTracer::calculateReflection. -/
def calculateReflection (sqrt : K → K)
    (trace : Ray K → Int → Rng K → Option (Vec3 K × Rng K))
    (ray : Ray K) (h : HitRecord K) (depth : Int) (g : Rng K) : Option (Vec3 K × Rng K) :=
  let reflected := reflect ray.direction h.normal
  if h.reflectance < 1 then
    match randomInUnitSphere sqrt g with
    | none => none
    | some (p, g) =>
      let randomDir := p.scale (1 - h.reflectance)
      let reflected := normalize sqrt (reflected + randomDir)
      trace (Ray.ctor sqrt h.point reflected) (depth + 1) g
  else trace (Ray.ctor sqrt h.point reflected) (depth + 1) g

/-- The method RayTracer::calculateRefraction; random01 is drawn only when `cannotRefract`
is false (short-circuit `||`). -/
def calculateRefraction (sqrt : K → K)
    (trace : Ray K → Int → Rng K → Option (Vec3 K × Rng K))
    (ray : Ray K) (h : HitRecord K) (depth : Int) (g : Rng K) : Option (Vec3 K × Rng K) :=
  let refractiveIndex : K := 3 / 2
  let etaRatio := if h.frontFace then 1 / refractiveIndex else refractiveIndex
  let cosTheta := min (dot (-ray.direction) h.normal) 1
  let sinTheta := sqrt (1 - cosTheta * cosTheta)
  let cannotRefract := decide (etaRatio * sinTheta > 1)
  if cannotRefract then
    trace (Ray.ctor sqrt h.point (reflect ray.direction h.normal)) (depth + 1) g
  else
    match random01 g with
    | none => none
    | some (u, g) =>
      if calculateFresnel sqrt (-ray.direction) h.normal 1 refractiveIndex > u then
        trace (Ray.ctor sqrt h.point (reflect ray.direction h.normal)) (depth + 1) g
      else
        trace (Ray.ctor sqrt h.point (refract sqrt ray.direction h.normal etaRatio))
          (depth + 1) g

/-- One iteration of the sample loop of calculateGlobalIllumination; the accumulator is
the running `color` and the random source. -/
def giStep (sqrt : K → K) (trace : Ray K → Int → Rng K → Option (Vec3 K × Rng K))
    (h : HitRecord K) (depth : Int) (acc : Option (Vec3 K × Rng K)) :
    Option (Vec3 K × Rng K) :=
  match acc with
  | none => none
  | some (color, g) =>
    match sampleHemisphere sqrt h.normal g with
    | none => none
    | some (randomDir, g) =>
      match trace (Ray.ctor sqrt h.point randomDir) (depth + 1) g with
      | none => none
      | some (c, g) => some (color + c.scale (dot h.normal randomDir), g)

/-- The method RayTracer::calculateGlobalIllumination.  The `int` division truncates; at
`depth = -1` the C++ division by zero is undefined, and yields 0 here. -/
def calculateGlobalIllumination (sqrt : K → K) (tr : RayTracer K)
    (trace : Ray K → Int → Rng K → Option (Vec3 K × Rng K))
    (h : HitRecord K) (depth : Int) (g : Rng K) : Option (Vec3 K × Rng K) :=
  if depth ≥ tr.maxDepth - 2 then some (Vec3.splat 0, g)
  else
    let samples : Int := max 1 (Int.tdiv tr.sampleCount (depth + 1))
    match (List.range samples.toNat).foldl (fun acc _ => giStep sqrt trace h depth acc)
        (some (Vec3.splat 0, g)) with
    | none => none
    | some (color, g) => some (color.divS (samples : K), g)

/-- The body of RayTracer::traceRay after a hit (lines 34-54). -/
def shadeHit (sqrt : K → K) (tr : RayTracer K)
    (trace : Ray K → Int → Rng K → Option (Vec3 K × Rng K))
    (ray : Ray K) (record : HitRecord K) (depth : Int) (g : Rng K) :
    Option (Vec3 K × Rng K) :=
  let color := calculateLighting sqrt tr record
  let afterReflection : Option (Vec3 K × Rng K) :=
    if record.reflectance > 0 then
      match calculateReflection sqrt trace ray record depth g with
      | none => none
      | some (reflection, g) => some (mix color reflection record.reflectance, g)
    else some (color, g)
  match afterReflection with
  | none => none
  | some (color, g) =>
    let afterRefraction : Option (Vec3 K × Rng K) :=
      if record.transparency > 0 then
        match calculateRefraction sqrt trace ray record depth g with
        | none => none
        | some (refraction, g) => some (mix color refraction record.transparency, g)
      else some (color, g)
    match afterRefraction with
    | none => none
    | some (color, g) =>
      if tr.globalIllumination then
        match calculateGlobalIllumination sqrt tr trace record depth g with
        | none => none
        | some (gi, g) => some (color + gi.scale (3 / 10), g)
      else some (color, g)

/-- The method RayTracer::traceRay with a bound `fuel` on the nesting of its recursive
calls; `none` when the bound or a tape of the random source is exhausted. -/
def traceRayFuel (sqrt : K → K) (tr : RayTracer K) :
    Nat → Ray K → Int → Rng K → Option (Vec3 K × Rng K)
  | fuel, ray, depth, g =>
    if depth ≥ tr.maxDepth then some (tr.backgroundColor, g)
    else
      match fuel with
      | 0 => none
      | fuel + 1 =>
        let r := hit sqrt tr ray HitRecord.uninit
        if r.1 then shadeHit sqrt tr (traceRayFuel sqrt tr fuel) ray r.2 depth g
        else some (tr.backgroundColor, g)

/-- The method RayTracer::traceRay: every recursive call raises `depth` by one and stops at
`maxDepth`, so `maxDepth - depth` nested calls suffice. -/
def traceRay (sqrt : K → K) (tr : RayTracer K) (ray : Ray K) (depth : Int) (g : Rng K) :
    Option (Vec3 K × Rng K) :=
  traceRayFuel sqrt tr (tr.maxDepth - depth).toNat ray depth g

/-- The constructor RayTracer::RayTracer: a floor plane and two lights. -/
def RayTracer.ctor (sqrt : K → K) : RayTracer K :=
  let tr : RayTracer K :=
    { spheres := [], planes := [], lights := [], scene := none, maxDepth := 10,
      sampleCount := 4, backgroundColor := ⟨1 / 10, 1 / 10, 2 / 10⟩,
      globalIllumination := false }
  let floorMaterial : RayTracingMaterial K :=
    { (RayTracingMaterial.default : RayTracingMaterial K) with
      albedo := ⟨7 / 10, 7 / 10, 7 / 10⟩
      roughness := 8 / 10 }
  let tr := addPlane sqrt tr ⟨0, -(1 / 10), 0⟩ ⟨0, 1, 0⟩ floorMaterial
  let tr := addLight tr ⟨0, 10, 0⟩ ⟨1, 1, 1⟩ 1
  addLight tr ⟨5, 5, 5⟩ ⟨8 / 10, 9 / 10, 1⟩ (7 / 10)

/-! ## Specification-level notions -/

/-- The square-root function is exact: on a non-negative argument it returns the
non-negative root.  Nothing is assumed on negative arguments. -/
def IsSqrt (sqrt : K → K) : Prop := ∀ a : K, 0 ≤ a → 0 ≤ sqrt a ∧ sqrt a * sqrt a = a

/-- The coefficient `a` of the quadratic of hitSphere and hitMuseumObject. -/
def quadA (ray : Ray K) : K := dot ray.direction ray.direction

/-- The coefficient `b` of the quadratic, for a sphere centered at `center`. -/
def quadB (center : Vec3 K) (ray : Ray K) : K := 2 * dot (ray.origin - center) ray.direction

/-- The coefficient `c` of the quadratic, for a sphere of the given center and radius. -/
def quadC (center : Vec3 K) (radius : K) (ray : Ray K) : K :=
  dot (ray.origin - center) (ray.origin - center) - radius * radius

/-- The discriminant `b * b - 4 * a * c` of the quadratic. -/
def quadDisc (center : Vec3 K) (radius : K) (ray : Ray K) : K :=
  quadB center ray * quadB center ray - 4 * quadA ray * quadC center radius ray

/-- The smaller root `(-b - sqrt(disc)) / (2 * a)`. -/
def rootNear (sqrt : K → K) (center : Vec3 K) (radius : K) (ray : Ray K) : K :=
  (-quadB center ray - sqrt (quadDisc center radius ray)) / (2 * quadA ray)

/-- The larger root `(-b + sqrt(disc)) / (2 * a)`. -/
def rootFar (sqrt : K → K) (center : Vec3 K) (radius : K) (ray : Ray K) : K :=
  (-quadB center ray + sqrt (quadDisc center radius ray)) / (2 * quadA ray)

/-- The parameter `t` lies in the closed range `[ray.tMin, ray.tMax]`. -/
def Ray.InRange (ray : Ray K) (t : K) : Prop := ray.tMin ≤ t ∧ t ≤ ray.tMax

instance (ray : Ray K) (t : K) : Decidable (ray.InRange t) :=
  inferInstanceAs (Decidable (ray.tMin ≤ t ∧ t ≤ ray.tMax))

/-- The parameter `dot(plane.point - ray.origin, plane.normal) / dot(plane.normal,
ray.direction)` at which the ray meets the plane. -/
def planeT (plane : Plane K) (ray : Ray K) : K :=
  dot (plane.point - ray.origin) plane.normal / dot plane.normal ray.direction

/-- The record that a test function writes into a default-constructed record, when it
succeeds. -/
def written (test : HitRecord K → Bool × HitRecord K) : Option (HitRecord K) :=
  if (test HitRecord.uninit).1 then some (test HitRecord.uninit).2 else none

/-- A test function that, on a record whose `objectIndex` is `-1`, either leaves the record
alone or returns what it writes into a default-constructed record. -/
def TestLike (test : HitRecord K → Bool × HitRecord K) : Prop :=
  (test HitRecord.uninit).2.objectIndex = -1 ∧
  ∀ r : HitRecord K, r.objectIndex = -1 →
    test r = if (test HitRecord.uninit).1 then test HitRecord.uninit else (false, r)

/-- The records written by the sphere tests that succeed, in insertion order. -/
def sphereCandidates (sqrt : K → K) (tr : RayTracer K) (ray : Ray K) : List (HitRecord K) :=
  tr.spheres.filterMap (fun sphere => written (hitSphere sqrt sphere ray))

/-- The records written by the plane tests that succeed, in insertion order. -/
def planeCandidates (tr : RayTracer K) (ray : Ray K) : List (HitRecord K) :=
  tr.planes.filterMap (fun plane => written (hitPlane plane ray))

/-- The record of catalog entry `i`, carrying its index, when the entry is not null and its
test succeeds. -/
def objectCandidate (sqrt : K → K) (scene : MuseumObjectManager K) (ray : Ray K) (i : Nat) :
    Option (HitRecord K) :=
  match scene.getObject i with
  | none => none
  | some obj =>
    match written (hitMuseumObject sqrt obj ray) with
    | none => none
    | some c => some { c with objectIndex := castInt i }

/-- The records of the catalog entries whose test succeeds, by increasing index. -/
def objectCandidates (sqrt : K → K) (tr : RayTracer K) (ray : Ray K) : List (HitRecord K) :=
  match tr.scene with
  | none => []
  | some scene => (List.range scene.getObjectCount).filterMap (objectCandidate sqrt scene ray)

/-- All candidate records in scan order: spheres, then planes, then catalog entries. -/
def candidates (sqrt : K → K) (tr : RayTracer K) (ray : Ray K) : List (HitRecord K) :=
  sphereCandidates sqrt tr ray ++ planeCandidates tr ray ++ objectCandidates sqrt tr ray

/-- The first candidate of the list, in its order, whose `t` is below `tMax` and not above
the `t` of any candidate: the closest candidate, the first found on ties. -/
def closestCandidate (tMax : K) (cs : List (HitRecord K)) : Option (HitRecord K) :=
  cs.find? (fun c => decide (c.t < tMax) && cs.all (fun c2 => decide (c.t ≤ c2.t)))

/-- The outcome of hit as the specification words it: the closest candidate if there is
one, else no hit and the caller's record unchanged. -/
def hitSpec (sqrt : K → K) (tr : RayTracer K) (ray : Ray K) (record : HitRecord K) :
    Bool × HitRecord K :=
  match closestCandidate ray.tMax (candidates sqrt tr ray) with
  | some c => (true, c)
  | none => (false, record)

/-- The part of the loop state of hit that survives the loops. -/
def HitState.summary (st : HitState K) : Bool × K × HitRecord K :=
  (st.hitAnything, st.closestSoFar, st.record)

/-- The update of hit on a candidate record: it replaces the best so far only when its `t`
is strictly smaller. -/
def pick (acc : Bool × K × HitRecord K) (c : HitRecord K) : Bool × K × HitRecord K :=
  if c.t < acc.2.1 then (true, c.t, c) else acc

/-- The shadow ray of calculateLighting for a light: from the hit point moved by `0.001`
along the normal, toward the light, up to `0.001` before the light.  The sum
`hit.point + hit.normal * 0.001f` is exact here; in `float` it is rounded, and at coordinates
of large magnitude the offset is lost in that rounding. -/
def shadowRay (sqrt : K → K) (h : HitRecord K) (light : Light K) : Ray K :=
  { Ray.ctor sqrt (h.point + h.normal.scale (1 / 1000))
      (normalize sqrt (light.position - h.point)) with
    tMax := length sqrt (light.position - h.point) - 1 / 1000 }

/-- The diffuse term of a light that is not in shadow:
`hit.color * light.color * light.intensity * max(0, dot(normal, lightDir)) /
(1 + 0.1 * distance + 0.01 * distance^2)`. -/
def lightTerm (sqrt : K → K) (h : HitRecord K) (light : Light K) : Vec3 K :=
  (((h.color * light.color).scale light.intensity).scale
      (max 0 (dot h.normal (normalize sqrt (light.position - h.point))))).divS
    (1 + 1 / 10 * length sqrt (light.position - h.point) +
      1 / 100 * length sqrt (light.position - h.point) ^ 2)

/-- The local illumination as the specification words it: the ambient term plus the
diffuse terms of the lights whose shadow ray hit reports as not intersected. -/
def lightingSpec (sqrt : K → K) (tr : RayTracer K) (h : HitRecord K) : Vec3 K :=
  ((tr.lights.filter (fun light => !(hit sqrt tr (shadowRay sqrt h light) HitRecord.uninit).1)).map
    (lightTerm sqrt h)).foldl (fun acc term => acc + term) (h.color.scale (1 / 10))

/-- The tape that draws the given points one after the other, three values per point. -/
def tapeOf : List (Vec3 K) → List K
  | [] => []
  | p :: ps => p.x :: p.y :: p.z :: tapeOf ps

/-- The material with the three members that the scene may vary freely, `roughness`,
`refractiveIndex` and `emission`, set to zero. -/
def RayTracingMaterial.eraseUnused (m : RayTracingMaterial K) : RayTracingMaterial K :=
  { m with roughness := 0, refractiveIndex := 0, emission := 0 }

/-- The sphere with `roughness`, `refractiveIndex` and `emission` of its material erased. -/
def Sphere.eraseUnused (s : Sphere K) : Sphere K :=
  { s with material := s.material.eraseUnused }

/-- The plane with `roughness`, `refractiveIndex` and `emission` of its material erased. -/
def Plane.eraseUnused (p : Plane K) : Plane K :=
  { p with material := p.material.eraseUnused }

/-- The tracer with `roughness`, `refractiveIndex` and `emission` erased in the material of
every sphere and plane.  Two tracers differ only in these members exactly when their
erasures are equal. -/
def RayTracer.eraseUnused (tr : RayTracer K) : RayTracer K :=
  { tr with
    spheres := tr.spheres.map Sphere.eraseUnused
    planes := tr.planes.map Plane.eraseUnused }

/-- The body of RayTracer::traceRay (lines 27-58) in which a recursive call is a call of the
function `trace`. -/
def traceBody (sqrt : K → K) (tr : RayTracer K)
    (trace : Ray K → Int → Rng K → Option (Vec3 K × Rng K))
    (ray : Ray K) (depth : Int) (g : Rng K) : Option (Vec3 K × Rng K) :=
  if depth ≥ tr.maxDepth then some (tr.backgroundColor, g)
  else
    let r := hit sqrt tr ray HitRecord.uninit
    if r.1 then shadeHit sqrt tr trace ray r.2 depth g
    else some (tr.backgroundColor, g)

/-- The body of traceRay nested `n` times, the calls of the innermost body being calls of
an arbitrary function `bottom`. -/
def traceIter (sqrt : K → K) (tr : RayTracer K)
    (bottom : Ray K → Int → Rng K → Option (Vec3 K × Rng K)) :
    Nat → Ray K → Int → Rng K → Option (Vec3 K × Rng K)
  | 0 => bottom
  | n + 1 => traceBody sqrt tr (traceIter sqrt tr bottom n)

/-- Whether `n` calls of randomInUnitSphere in a row terminate on the tape, each with an
accepted point. -/
def supportsDraws (sqrt : K → K) : Nat → List K → Bool
  | 0, _ => true
  | n + 1, tape =>
    match rejectionLoop sqrt tape with
    | none => false
    | some (_, rest) => supportsDraws sqrt n rest

/-- The random source supports `n` more draws of either kind: `n` calls of
randomInUnitSphere terminate and `n` values are left for random01. -/
def Rng.Supports (sqrt : K → K) (n : Nat) (g : Rng K) : Prop :=
  supportsDraws sqrt n g.sphere = true ∧ n ≤ g.unit.length

/-- A bound on the number of hemisphere samples of one call of
calculateGlobalIllumination: `max(1, |sampleCount|)`. -/
def sampleBound (tr : RayTracer K) : Nat := max 1 tr.sampleCount.natAbs

/-- A bound on the number of draws of either kind made by a call of traceRay with
`maxDepth - depth = m`: one draw and one nested call for the reflection, for the refraction
and for each of the hemisphere samples. -/
def drawBound (samples : Nat) : Nat → Nat
  | 0 => 0
  | m + 1 => (samples + 2) * (drawBound samples m + 1)

/-- Every component of the vector is non-negative. -/
def Vec3.NonNeg (v : Vec3 K) : Prop := 0 ≤ v.x ∧ 0 ≤ v.y ∧ 0 ≤ v.z

/-- The material has a non-negative albedo, and `metallic` and `transparency` in
`[0, 1]`. -/
def RayTracingMaterial.InGamut (m : RayTracingMaterial K) : Prop :=
  m.albedo.NonNeg ∧ (0 ≤ m.metallic ∧ m.metallic ≤ 1) ∧
    (0 ≤ m.transparency ∧ m.transparency ≤ 1)

/-- The inputs of the tracer are non-negative: the background color, the albedo of every
sphere and plane material, the diffuse color of every catalog entry, the color and the
intensity of every light; `metallic` and `transparency` of every material lie in `[0, 1]`. -/
def RayTracer.NonNegInputs (tr : RayTracer K) : Prop :=
  tr.backgroundColor.NonNeg ∧
  (∀ s ∈ tr.spheres, s.material.InGamut) ∧
  (∀ p ∈ tr.planes, p.material.InGamut) ∧
  (∀ sc, tr.scene = some sc → ∀ i obj, sc.getObject i = some obj →
    obj.materialDiffuse.NonNeg) ∧
  (∀ l ∈ tr.lights, l.color.NonNeg ∧ 0 ≤ l.intensity)

end Defs

/-! ## Concrete scenes used to instantiate the theorems -/

section Scenes

variable {K : Type} [LinearOrderedField K]

/-- The plane `z = 5` with the default material. -/
def planeAhead : Plane K := ⟨⟨0, 0, 5⟩, ⟨0, 0, 1⟩, RayTracingMaterial.default⟩

/-- A tracer with one plane in front of the camera, default settings otherwise. -/
def sceneOnePlane : RayTracer K :=
  { spheres := [], planes := [planeAhead], lights := [],
    scene := none, maxDepth := 10, sampleCount := 4,
    backgroundColor := ⟨1 / 10, 1 / 10, 2 / 10⟩, globalIllumination := false }

/-- A tracer without any primitive, catalog or light. -/
def sceneEmpty : RayTracer K :=
  { spheres := [], planes := [], lights := [], scene := none, maxDepth := 10,
    sampleCount := 4, backgroundColor := ⟨1 / 10, 1 / 10, 2 / 10⟩,
    globalIllumination := true }

/-- The ray from the origin along the z axis, with the default range. -/
def rayZ : Ray K :=
  { origin := ⟨0, 0, 0⟩, direction := ⟨0, 0, 1⟩, tMin := 1 / 1000, tMax := 1000 }

/-- The unit sphere centered at `(0, 0, 5)` with the default material. -/
def sphereAhead : Sphere K := ⟨⟨0, 0, 5⟩, 1, RayTracingMaterial.default⟩

/-- The plane `z = 1000`, at the default `tMax` of the z axis ray. -/
def planeAtTMax : Plane K := ⟨⟨0, 0, 1000⟩, ⟨0, 0, 1⟩, RayTracingMaterial.default⟩

/-- A tracer whose only primitive is the plane `z = 1000`. -/
def scenePlaneAtTMax : RayTracer K :=
  { spheres := [], planes := [planeAtTMax], lights := [], scene := none, maxDepth := 10,
    sampleCount := 4, backgroundColor := ⟨1 / 10, 1 / 10, 2 / 10⟩,
    globalIllumination := false }

/-- A mirror-like red material. -/
def redMetal : RayTracingMaterial K :=
  { (RayTracingMaterial.default : RayTracingMaterial K) with
    albedo := ⟨1, 0, 0⟩
    metallic := 1 }

/-- The unit sphere centered at `(0, 0, 5)` again, with the red material. -/
def sphereAheadRed : Sphere K := ⟨⟨0, 0, 5⟩, 1, redMetal⟩

/-- A tracer holding the same unit sphere twice: first with the default material, then with
the red one. -/
def sceneTwoSpheres : RayTracer K :=
  { spheres := [sphereAhead, sphereAheadRed], planes := [], lights := [], scene := none,
    maxDepth := 10, sampleCount := 4, backgroundColor := ⟨1 / 10, 1 / 10, 2 / 10⟩,
    globalIllumination := false }

/-- A catalog entry at `(0, 0, 5)` with a green diffuse color. -/
def objAhead : MuseumObject K := ⟨⟨0, 0, 5⟩, ⟨0, 1, 0⟩⟩

/-- The bounding sphere of radius 3/2 around objAhead, with the default material. -/
def boundingSphereAhead : Sphere K := ⟨⟨0, 0, 5⟩, 3 / 2, RayTracingMaterial.default⟩

/-- The plane `z = 5` with the mirror-like red material. -/
def planeMirror : Plane K := ⟨⟨0, 0, 5⟩, ⟨0, 0, 1⟩, redMetal⟩

/-- A tracer whose only primitive is the mirror plane; no light, no global illumination. -/
def sceneMirror : RayTracer K :=
  { spheres := [], planes := [planeMirror], lights := [], scene := none, maxDepth := 10,
    sampleCount := 4, backgroundColor := ⟨1 / 10, 1 / 10, 2 / 10⟩,
    globalIllumination := false }

/-- The record that hitPlane writes for the z axis ray on the mirror plane. -/
def recMirror : HitRecord K :=
  { point := ⟨0, 0, 5⟩, normal := ⟨0, 0, -1⟩, t := 5, frontFace := false, color := ⟨1, 0, 0⟩,
    reflectance := 1, transparency := 0, objectIndex := -1 }

/-- The ray that leaves the mirror plane back toward the origin. -/
def rayBack : Ray K :=
  { origin := ⟨0, 0, 5⟩, direction := ⟨0, 0, -1⟩, tMin := 1 / 1000, tMax := 1000 }

/-- A fully transparent material. -/
def glass : RayTracingMaterial K :=
  { (RayTracingMaterial.default : RayTracingMaterial K) with transparency := 1 }

/-- A transparent unit sphere centered at `(0, 0, 3)`. -/
def sphereOccluder : Sphere K := ⟨⟨0, 0, 3⟩, 1, glass⟩

/-- A white light at `(0, 0, 1)`. -/
def lightBelow : Light K := ⟨⟨0, 0, 1⟩, ⟨1, 1, 1⟩, 1⟩

/-- The mirror plane `z = 5`, the transparent sphere between it and the light, one light. -/
def sceneOccluded : RayTracer K :=
  { spheres := [sphereOccluder], planes := [planeMirror], lights := [lightBelow],
    scene := none, maxDepth := 10, sampleCount := 4,
    backgroundColor := ⟨1 / 10, 1 / 10, 2 / 10⟩, globalIllumination := false }

/-- A back-face record at the origin whose unit normal makes the cosine `3/5` with the
reversed z axis ray; fully transparent. -/
def recSlanted : HitRecord K :=
  { point := ⟨0, 0, 0⟩, normal := ⟨4 / 5, 0, -(3 / 5)⟩, t := 1, frontFace := false,
    color := ⟨1, 1, 1⟩, reflectance := 0, transparency := 1, objectIndex := -1 }

/-- The plane `z = 5` facing the origin, with the transparent material. -/
def planeGlass : Plane K := ⟨⟨0, 0, 5⟩, ⟨0, 0, -1⟩, glass⟩

/-- A tracer whose only primitive is the transparent plane. -/
def sceneGlass : RayTracer K :=
  { spheres := [], planes := [planeGlass], lights := [], scene := none, maxDepth := 10,
    sampleCount := 4, backgroundColor := ⟨1 / 10, 1 / 10, 2 / 10⟩,
    globalIllumination := false }

/-- The record that hitPlane writes for the z axis ray on the transparent plane: a
front-face hit at normal incidence. -/
def recGlass : HitRecord K :=
  { point := ⟨0, 0, 5⟩, normal := ⟨0, 0, -1⟩, t := 5, frontFace := true,
    color := ⟨8 / 10, 8 / 10, 8 / 10⟩, reflectance := 0, transparency := 1,
    objectIndex := -1 }

/-- A catalog entry at `(100, 0, 0)`, far off the z axis. -/
def objFar : MuseumObject K := ⟨⟨100, 0, 0⟩, ⟨0, 0, 1⟩⟩

/-- A catalog of `n` entries far off the z axis followed by the entry at `(0, 0, 5)`, which
so has index `n`. -/
def catalogFarThenAhead (n : Nat) : MuseumObjectManager K :=
  ⟨List.replicate n (some objFar) ++ [some objAhead]⟩

/-- A tracer without primitives whose catalog is catalogFarThenAhead. -/
def sceneCatalog (n : Nat) : RayTracer K :=
  { spheres := [], planes := [], lights := [], scene := some (catalogFarThenAhead n),
    maxDepth := 10, sampleCount := 4, backgroundColor := ⟨1 / 10, 1 / 10, 2 / 10⟩,
    globalIllumination := false }

/-- A sphere of radius 0 centered at `(0, 0, 5)`, on the z axis. -/
def spherePoint : Sphere K := ⟨⟨0, 0, 5⟩, 0, RayTracingMaterial.default⟩

/-- The unit sphere centered at `(1, 0, 5)`, which the z axis touches at `(0, 0, 5)`. -/
def sphereTangent : Sphere K := ⟨⟨1, 0, 5⟩, 1, RayTracingMaterial.default⟩

/-- A white light at the origin, where the z axis ray starts. -/
def lightAtEye : Light K := ⟨⟨0, 0, 0⟩, ⟨1, 1, 1⟩, 1⟩

/-- The record that hitSphere writes for the z axis ray on the unit sphere at `(0, 0, 5)`:
a front-face hit at `t = 4`. -/
def recSphereAhead : HitRecord K :=
  { point := ⟨0, 0, 4⟩, normal := ⟨0, 0, -1⟩, t := 4, frontFace := true,
    color := ⟨8 / 10, 8 / 10, 8 / 10⟩, reflectance := 0, transparency := 0,
    objectIndex := -1 }

/-- A rough, glowing variant of the default material with the refractive index of diamond:
it differs from the default in `roughness`, `refractiveIndex` and `emission` only. -/
def roughGlowing : RayTracingMaterial K :=
  { (RayTracingMaterial.default : RayTracingMaterial K) with
    roughness := 9 / 10
    refractiveIndex := 12 / 5
    emission := ⟨1, 1, 1⟩ }

/-- The one-plane scene with the rough, glowing material on its plane. -/
def sceneOnePlaneRough : RayTracer K :=
  { spheres := [], planes := [⟨⟨0, 0, 5⟩, ⟨0, 0, 1⟩, roughGlowing⟩], lights := [],
    scene := none, maxDepth := 10, sampleCount := 4,
    backgroundColor := ⟨1 / 10, 1 / 10, 2 / 10⟩, globalIllumination := false }

/-- The mirror scene with the recursion cut at `maxDepth = 2`. -/
def sceneMirrorShallow : RayTracer K := setMaxDepth sceneMirror 2

/-- A random source that holds `n` times the point `(0, 0, 1/2)` for randomInUnitSphere and
`n` times the value `1/2` for random01. -/
def rngConstant (n : Nat) : Rng K :=
  ⟨tapeOf (List.replicate n ⟨0, 0, 1 / 2⟩), List.replicate n (1 / 2)⟩

/-- A tracer whose only primitive is the sphere of radius 0 at `(0, 0, 5)`. -/
def scenePointSphere : RayTracer K :=
  { spheres := [spherePoint], planes := [], lights := [], scene := none, maxDepth := 10,
    sampleCount := 4, backgroundColor := ⟨1 / 10, 1 / 10, 2 / 10⟩,
    globalIllumination := false }

/-- A white light at `(0, 0, 5)`, a point of the plane `z = 5`. -/
def lightOnSurface : Light K := ⟨⟨0, 0, 5⟩, ⟨1, 1, 1⟩, 1⟩

/-- The one-plane scene with a light placed on the plane, where the z axis meets it. -/
def sceneLightOnSurface : RayTracer K :=
  { spheres := [], planes := [planeAhead], lights := [lightOnSurface], scene := none,
    maxDepth := 10, sampleCount := 4, backgroundColor := ⟨1 / 10, 1 / 10, 2 / 10⟩,
    globalIllumination := false }

end Scenes

/-! ## Theorems -/

section Basic

variable {K : Type} [LinearOrderedField K]

@[simp] lemma Vec3.add_x (u v : Vec3 K) : (u + v).x = u.x + v.x := rfl
@[simp] lemma Vec3.add_y (u v : Vec3 K) : (u + v).y = u.y + v.y := rfl
@[simp] lemma Vec3.add_z (u v : Vec3 K) : (u + v).z = u.z + v.z := rfl
@[simp] lemma Vec3.sub_x (u v : Vec3 K) : (u - v).x = u.x - v.x := rfl
@[simp] lemma Vec3.sub_y (u v : Vec3 K) : (u - v).y = u.y - v.y := rfl
@[simp] lemma Vec3.sub_z (u v : Vec3 K) : (u - v).z = u.z - v.z := rfl
@[simp] lemma Vec3.neg_x (v : Vec3 K) : (-v).x = -v.x := rfl
@[simp] lemma Vec3.neg_y (v : Vec3 K) : (-v).y = -v.y := rfl
@[simp] lemma Vec3.neg_z (v : Vec3 K) : (-v).z = -v.z := rfl
@[simp] lemma Vec3.zero_x : (0 : Vec3 K).x = 0 := rfl
@[simp] lemma Vec3.zero_y : (0 : Vec3 K).y = 0 := rfl
@[simp] lemma Vec3.zero_z : (0 : Vec3 K).z = 0 := rfl
@[simp] lemma Vec3.scale_x (v : Vec3 K) (a : K) : (v.scale a).x = v.x * a := rfl
@[simp] lemma Vec3.scale_y (v : Vec3 K) (a : K) : (v.scale a).y = v.y * a := rfl
@[simp] lemma Vec3.scale_z (v : Vec3 K) (a : K) : (v.scale a).z = v.z * a := rfl
@[simp] lemma Vec3.divS_x (v : Vec3 K) (a : K) : (v.divS a).x = v.x / a := rfl
@[simp] lemma Vec3.divS_y (v : Vec3 K) (a : K) : (v.divS a).y = v.y / a := rfl
@[simp] lemma Vec3.divS_z (v : Vec3 K) (a : K) : (v.divS a).z = v.z / a := rfl

/-- One unfolding of the recursion of traceRay below the depth cutoff. -/
lemma traceRay_unfold (sqrt : K → K) (tr : RayTracer K) (ray : Ray K) (depth : Int)
    (g : Rng K) (hd : depth < tr.maxDepth) :
    traceRay sqrt tr ray depth g =
      if (hit sqrt tr ray HitRecord.uninit).1 then
        shadeHit sqrt tr (traceRayFuel sqrt tr ((tr.maxDepth - depth).toNat - 1)) ray
          (hit sqrt tr ray HitRecord.uninit).2 depth g
      else some (tr.backgroundColor, g) := by
  obtain ⟨n, hn⟩ : ∃ n, (tr.maxDepth - depth).toNat = n + 1 := by
    refine ⟨(tr.maxDepth - depth).toNat - 1, ?_⟩
    have : 0 < (tr.maxDepth - depth).toNat := by
      rw [Int.lt_toNat]; simpa using hd
    omega
  rw [traceRay, hn, traceRayFuel.eq_def]
  simp [not_le.mpr hd]

/-- C1: at or beyond the depth cutoff (`depth >= maxDepth`, whatever the sign of
`maxDepth`) traceRay returns the configured background color and leaves the random source
untouched; hence two tracers that agree on `maxDepth` and `backgroundColor` return the same
color there, whatever their spheres, planes, catalog, lights and random sources. -/
theorem traceRay_depth_cutoff (sqrt : K → K) (tr : RayTracer K) (ray : Ray K) (depth : Int)
    (g : Rng K) (hd : depth ≥ tr.maxDepth) :
    traceRay sqrt tr ray depth g = some (tr.backgroundColor, g) ∧
    ∀ (tr2 : RayTracer K) (g2 : Rng K), tr2.maxDepth = tr.maxDepth →
      tr2.backgroundColor = tr.backgroundColor →
      (traceRay sqrt tr2 ray depth g2).map Prod.fst = some tr.backgroundColor := by
  have key : ∀ (t : RayTracer K) (g1 : Rng K), depth ≥ t.maxDepth →
      traceRay sqrt t ray depth g1 = some (t.backgroundColor, g1) := by
    intro t g1 h
    rw [traceRay, traceRayFuel.eq_def]
    simp [h]
  refine ⟨key tr g hd, ?_⟩
  intro tr2 g2 h1 h2
  rw [key tr2 g2 (by rw [h1]; exact hd)]
  simp [h2]

/-- Instance of C1: a plane crosses the ray, the depth is preset to `maxDepth = 10`. -/
theorem traceRay_depth_cutoff_witness :
    (10 : Int) ≥ (sceneOnePlane : RayTracer ℚ).maxDepth ∧
    (hit Rat.sqrt sceneOnePlane rayZ HitRecord.uninit).1 = true ∧
    traceRay Rat.sqrt sceneOnePlane rayZ 10 ⟨[], []⟩ =
      some (⟨1 / 10, 1 / 10, 2 / 10⟩, ⟨[], []⟩) :=
  ⟨by decide, by norm_num [hit, hitPlaneStep, hitPlane, hitPlaneWrite, sceneOnePlane, planeAhead, rayZ,
      dot, HitRecord.setFaceNormal],
    (traceRay_depth_cutoff Rat.sqrt sceneOnePlane rayZ 10 ⟨[], []⟩ (by decide)).1⟩

/-- With no sphere, no plane and no catalog entry, hit reports no hit. -/
lemma hit_empty (sqrt : K → K) (tr : RayTracer K) (ray : Ray K) (record : HitRecord K)
    (hs : tr.spheres = []) (hp : tr.planes = [])
    (hc : ∀ sc, tr.scene = some sc → sc.getObjectCount = 0) :
    hit sqrt tr ray record = (false, record) := by
  unfold hit
  rw [hs, hp]
  cases hsc : tr.scene with
  | none => simp
  | some sc => simp [hc sc hsc]

/-- C2: below the depth cutoff, a ray for which hit reports no hit gets exactly the
background color, whatever the lights, the global-illumination flag and the random source
(which is left untouched); this is the case in particular when the sphere list, the plane
list and the catalog are empty. -/
theorem traceRay_miss (sqrt : K → K) (tr : RayTracer K) (ray : Ray K) (depth : Int)
    (g : Rng K) (hd : depth < tr.maxDepth) :
    ((hit sqrt tr ray HitRecord.uninit).1 = false →
      traceRay sqrt tr ray depth g = some (tr.backgroundColor, g)) ∧
    (tr.spheres = [] → tr.planes = [] →
      (∀ sc, tr.scene = some sc → sc.getObjectCount = 0) →
      traceRay sqrt tr ray depth g = some (tr.backgroundColor, g)) := by
  have key : (hit sqrt tr ray HitRecord.uninit).1 = false →
      traceRay sqrt tr ray depth g = some (tr.backgroundColor, g) := by
    intro hmiss
    rw [traceRay_unfold sqrt tr ray depth g hd, hmiss]
    simp
  refine ⟨key, ?_⟩
  intro hs hp hc
  apply key
  rw [hit_empty sqrt tr ray _ hs hp hc]

/-- Instance of C2: the empty scene with global illumination on, at depth 0. -/
theorem traceRay_miss_witness :
    (0 : Int) < (sceneEmpty : RayTracer ℚ).maxDepth ∧
    traceRay Rat.sqrt sceneEmpty rayZ 0 ⟨[1, 1, 1], [1 / 2]⟩ =
      some (⟨1 / 10, 1 / 10, 2 / 10⟩, ⟨[1, 1, 1], [1 / 2]⟩) :=
  ⟨by decide,
    (traceRay_miss Rat.sqrt sceneEmpty rayZ 0 ⟨[1, 1, 1], [1 / 2]⟩ (by decide)).2 rfl rfl
      (by intro sc h; cases h)⟩

/-! ### The sphere test -/

lemma IsSqrt.nonneg {sqrt : K → K} (hs : IsSqrt sqrt) {a : K} (ha : 0 ≤ a) : 0 ≤ sqrt a :=
  (hs a ha).1

lemma IsSqrt.mul_self {sqrt : K → K} (hs : IsSqrt sqrt) {a : K} (ha : 0 ≤ a) :
    sqrt a * sqrt a = a :=
  (hs a ha).2

/-- An exact square root undoes squaring of a non-negative number. -/
lemma IsSqrt.sqrt_mul_self {sqrt : K → K} (hs : IsSqrt sqrt) {r : K} (hr : 0 ≤ r) :
    sqrt (r * r) = r :=
  (mul_self_inj_of_nonneg (hs.nonneg (mul_self_nonneg r)) hr).1
    (hs.mul_self (mul_self_nonneg r))

/-- The nested range tests of hitSphere and hitMuseumObject, as a cascade over the closed
range `[lo, hi]`. -/
lemma root_cascade {α : Type} (d r1 r2 lo hi : K) (x y1 y2 : α) :
    (if d < 0 then x
      else if r1 < lo ∨ hi < r1 then (if r2 < lo ∨ hi < r2 then x else y2) else y1) =
    (if d < 0 then x
      else if lo ≤ r1 ∧ r1 ≤ hi then y1
      else if lo ≤ r2 ∧ r2 ≤ hi then y2 else x) := by
  by_cases hd : d < 0
  · simp [hd]
  · by_cases h1 : r1 < lo ∨ hi < r1
    · have h1n : ¬ (lo ≤ r1 ∧ r1 ≤ hi) := by
        rintro ⟨a, b⟩
        rcases h1 with h | h
        · exact absurd a (not_le.mpr h)
        · exact absurd b (not_le.mpr h)
      by_cases h2 : r2 < lo ∨ hi < r2
      · have h2n : ¬ (lo ≤ r2 ∧ r2 ≤ hi) := by
          rintro ⟨a, b⟩
          rcases h2 with h | h
          · exact absurd a (not_le.mpr h)
          · exact absurd b (not_le.mpr h)
        simp [hd, h1, h2, h1n, h2n]
      · have h2p : lo ≤ r2 ∧ r2 ≤ hi := by
          rw [not_or, not_lt, not_lt] at h2
          exact h2
        simp [hd, h1, h2, h1n, h2p]
    · have h1p : lo ≤ r1 ∧ r1 ≤ hi := by
        rw [not_or, not_lt, not_lt] at h1
        exact h1
      simp [hd, h1, h1p]

/-- The root selection of hitSphere, as a cascade over the closed range `[tMin, tMax]`. -/
lemma hitSphere_cases (sqrt : K → K) (sphere : Sphere K) (ray : Ray K) (record : HitRecord K) :
    hitSphere sqrt sphere ray record =
      (let oc := ray.origin - sphere.center
       let a := dot ray.direction ray.direction
       let b := 2 * dot oc ray.direction
       let c := dot oc oc - sphere.radius * sphere.radius
       let disc := b * b - 4 * a * c
       let r1 := (-b - sqrt disc) / (2 * a)
       let r2 := (-b + sqrt disc) / (2 * a)
       if disc < 0 then (false, record)
       else if ray.tMin ≤ r1 ∧ r1 ≤ ray.tMax then (true, hitSphereWrite sphere ray record r1)
       else if ray.tMin ≤ r2 ∧ r2 ≤ ray.tMax then (true, hitSphereWrite sphere ray record r2)
       else (false, record)) := by
  unfold hitSphere
  exact root_cascade _ _ _ _ _ _ _ _

/-- The root selection of hitMuseumObject, as a cascade over `[tMin, tMax]`. -/
lemma hitMuseumObject_cases (sqrt : K → K) (obj : MuseumObject K) (ray : Ray K)
    (record : HitRecord K) :
    hitMuseumObject sqrt obj ray record =
      (let oc := ray.origin - obj.position
       let a := dot ray.direction ray.direction
       let b := 2 * dot oc ray.direction
       let c := dot oc oc - 3 / 2 * (3 / 2)
       let disc := b * b - 4 * a * c
       let r1 := (-b - sqrt disc) / (2 * a)
       let r2 := (-b + sqrt disc) / (2 * a)
       if disc < 0 then (false, record)
       else if ray.tMin ≤ r1 ∧ r1 ≤ ray.tMax then
         (true, hitMuseumObjectWrite sqrt obj ray record r1)
       else if ray.tMin ≤ r2 ∧ r2 ≤ ray.tMax then
         (true, hitMuseumObjectWrite sqrt obj ray record r2)
       else (false, record)) := by
  unfold hitMuseumObject
  exact root_cascade _ _ _ _ _ _ _ _

/-- The sphere test in terms of the discriminant and the two roots. -/
lemma hitSphere_eq (sqrt : K → K) (sphere : Sphere K) (ray : Ray K) (record : HitRecord K) :
    hitSphere sqrt sphere ray record =
      if quadDisc sphere.center sphere.radius ray < 0 then (false, record)
      else if ray.InRange (rootNear sqrt sphere.center sphere.radius ray) then
        (true, hitSphereWrite sphere ray record (rootNear sqrt sphere.center sphere.radius ray))
      else if ray.InRange (rootFar sqrt sphere.center sphere.radius ray) then
        (true, hitSphereWrite sphere ray record (rootFar sqrt sphere.center sphere.radius ray))
      else (false, record) :=
  hitSphere_cases sqrt sphere ray record

/-- The catalog test in terms of the discriminant and the two roots for radius 3/2. -/
lemma hitMuseumObject_eq (sqrt : K → K) (obj : MuseumObject K) (ray : Ray K)
    (record : HitRecord K) :
    hitMuseumObject sqrt obj ray record =
      if quadDisc obj.position (3 / 2) ray < 0 then (false, record)
      else if ray.InRange (rootNear sqrt obj.position (3 / 2) ray) then
        (true, hitMuseumObjectWrite sqrt obj ray record (rootNear sqrt obj.position (3 / 2) ray))
      else if ray.InRange (rootFar sqrt obj.position (3 / 2) ray) then
        (true, hitMuseumObjectWrite sqrt obj ray record (rootFar sqrt obj.position (3 / 2) ray))
      else (false, record) :=
  hitMuseumObject_cases sqrt obj ray record

/-- Both candidate parameters are roots of the quadratic, and the near one is the smaller,
once the discriminant is non-negative and the direction is not the zero vector. -/
lemma roots_spec {sqrt : K → K} (hs : IsSqrt sqrt) (center : Vec3 K) (radius : K)
    (ray : Ray K) (ha : 0 < quadA ray) (hd : 0 ≤ quadDisc center radius ray) :
    rootNear sqrt center radius ray ≤ rootFar sqrt center radius ray ∧
    ∀ t : K, quadA ray * (t * t) + quadB center ray * t + quadC center radius ray = 0 ↔
      (t = rootFar sqrt center radius ray ∨ t = rootNear sqrt center radius ray) := by
  constructor
  · unfold rootNear rootFar
    have h2 : 0 < 2 * quadA ray := by linarith
    have := hs.nonneg hd
    exact div_le_div_of_nonneg_right (by linarith) h2.le
  · intro t
    have h : discrim (quadA ray) (quadB center ray) (quadC center radius ray) =
        sqrt (quadDisc center radius ray) * sqrt (quadDisc center radius ray) := by
      rw [hs.mul_self hd, discrim, quadDisc, sq]
    exact quadratic_eq_zero_iff ha.ne' h t

/-- The real square root is exact. -/
lemma isSqrt_real : IsSqrt Real.sqrt :=
  fun a ha => ⟨Real.sqrt_nonneg a, Real.mul_self_sqrt ha⟩

@[simp] lemma hitSphereWrite_t (sphere : Sphere K) (ray : Ray K) (record : HitRecord K)
    (root : K) : (hitSphereWrite sphere ray record root).t = root := rfl

@[simp] lemma hitSphereWrite_point (sphere : Sphere K) (ray : Ray K) (record : HitRecord K)
    (root : K) : (hitSphereWrite sphere ray record root).point = ray.at root := rfl

@[simp] lemma hitSphereWrite_color (sphere : Sphere K) (ray : Ray K) (record : HitRecord K)
    (root : K) : (hitSphereWrite sphere ray record root).color = sphere.material.albedo := rfl

@[simp] lemma hitSphereWrite_reflectance (sphere : Sphere K) (ray : Ray K)
    (record : HitRecord K) (root : K) :
    (hitSphereWrite sphere ray record root).reflectance = sphere.material.metallic := rfl

@[simp] lemma hitSphereWrite_transparency (sphere : Sphere K) (ray : Ray K)
    (record : HitRecord K) (root : K) :
    (hitSphereWrite sphere ray record root).transparency = sphere.material.transparency := rfl

@[simp] lemma hitSphereWrite_objectIndex (sphere : Sphere K) (ray : Ray K)
    (record : HitRecord K) (root : K) :
    (hitSphereWrite sphere ray record root).objectIndex = record.objectIndex := rfl

/-- A successful sphere test: the discriminant is non-negative and the written `t` is the
near root when that is in range, the far root otherwise, which is then in range. -/
lemma hitSphere_true (sqrt : K → K) (sphere : Sphere K) (ray : Ray K) (record : HitRecord K)
    (h : (hitSphere sqrt sphere ray record).1 = true) :
    0 ≤ quadDisc sphere.center sphere.radius ray ∧
    ((ray.InRange (rootNear sqrt sphere.center sphere.radius ray) ∧
        hitSphere sqrt sphere ray record =
          (true, hitSphereWrite sphere ray record
            (rootNear sqrt sphere.center sphere.radius ray))) ∨
      (¬ ray.InRange (rootNear sqrt sphere.center sphere.radius ray) ∧
        ray.InRange (rootFar sqrt sphere.center sphere.radius ray) ∧
        hitSphere sqrt sphere ray record =
          (true, hitSphereWrite sphere ray record
            (rootFar sqrt sphere.center sphere.radius ray)))) := by
  rw [hitSphere_eq] at h ⊢
  by_cases hd : quadDisc sphere.center sphere.radius ray < 0
  · simp [hd] at h
  · by_cases h1 : ray.InRange (rootNear sqrt sphere.center sphere.radius ray)
    · exact ⟨not_lt.mp hd, Or.inl ⟨h1, by simp [hd, h1]⟩⟩
    · by_cases h2 : ray.InRange (rootFar sqrt sphere.center sphere.radius ray)
      · exact ⟨not_lt.mp hd, Or.inr ⟨h1, h2, by simp [hd, h1, h2]⟩⟩
      · simp [hd, h1, h2] at h

/-- C7: hitSphere reports no hit when the discriminant `b * b - 4 * a * c` is negative;
otherwise it takes the smaller root `(-b - sqrt(disc)) / (2 * a)` when that lies in
`[tMin, tMax]`, else the larger root when that lies in `[tMin, tMax]`, else it reports no
hit.  On a hit the record holds `point = ray.at(t)`, `color = albedo`,
`reflectance = metallic`, `transparency = material.transparency`; and, the square root being
exact and the direction not the zero vector (so that `2 * a` is not zero), the returned `t` is
the least root of the quadratic in `[tMin, tMax]`. -/
theorem hitSphere_spec (sqrt : K → K) (sphere : Sphere K) (ray : Ray K)
    (record : HitRecord K) :
    (quadDisc sphere.center sphere.radius ray < 0 →
      hitSphere sqrt sphere ray record = (false, record)) ∧
    (0 ≤ quadDisc sphere.center sphere.radius ray →
      ray.InRange (rootNear sqrt sphere.center sphere.radius ray) →
      (hitSphere sqrt sphere ray record).1 = true ∧
      (hitSphere sqrt sphere ray record).2.t = rootNear sqrt sphere.center sphere.radius ray) ∧
    (0 ≤ quadDisc sphere.center sphere.radius ray →
      ¬ ray.InRange (rootNear sqrt sphere.center sphere.radius ray) →
      ray.InRange (rootFar sqrt sphere.center sphere.radius ray) →
      (hitSphere sqrt sphere ray record).1 = true ∧
      (hitSphere sqrt sphere ray record).2.t = rootFar sqrt sphere.center sphere.radius ray) ∧
    (0 ≤ quadDisc sphere.center sphere.radius ray →
      ¬ ray.InRange (rootNear sqrt sphere.center sphere.radius ray) →
      ¬ ray.InRange (rootFar sqrt sphere.center sphere.radius ray) →
      hitSphere sqrt sphere ray record = (false, record)) ∧
    ((hitSphere sqrt sphere ray record).1 = true →
      (hitSphere sqrt sphere ray record).2.point =
        ray.at (hitSphere sqrt sphere ray record).2.t ∧
      (hitSphere sqrt sphere ray record).2.color = sphere.material.albedo ∧
      (hitSphere sqrt sphere ray record).2.reflectance = sphere.material.metallic ∧
      (hitSphere sqrt sphere ray record).2.transparency = sphere.material.transparency) ∧
    (IsSqrt sqrt → 0 < quadA ray → (hitSphere sqrt sphere ray record).1 = true →
      ray.InRange (hitSphere sqrt sphere ray record).2.t ∧
      quadA ray * ((hitSphere sqrt sphere ray record).2.t *
          (hitSphere sqrt sphere ray record).2.t) +
        quadB sphere.center ray * (hitSphere sqrt sphere ray record).2.t +
        quadC sphere.center sphere.radius ray = 0 ∧
      ∀ t : K, ray.InRange t →
        quadA ray * (t * t) + quadB sphere.center ray * t +
          quadC sphere.center sphere.radius ray = 0 →
        (hitSphere sqrt sphere ray record).2.t ≤ t) := by
  refine ⟨?_, ?_, ?_, ?_, ?_, ?_⟩
  · intro hd
    rw [hitSphere_eq]; simp [hd]
  · intro hd h1
    rw [hitSphere_eq]; simp [not_lt.mpr hd, h1]
  · intro hd h1 h2
    rw [hitSphere_eq]; simp [not_lt.mpr hd, h1, h2]
  · intro hd h1 h2
    rw [hitSphere_eq]; simp [not_lt.mpr hd, h1, h2]
  · intro h
    rcases (hitSphere_true sqrt sphere ray record h).2 with ⟨_, e⟩ | ⟨_, _, e⟩ <;>
      rw [e] <;> simp
  · intro hs ha h
    obtain ⟨hd, hc⟩ := hitSphere_true sqrt sphere ray record h
    obtain ⟨hle, hroots⟩ := roots_spec hs sphere.center sphere.radius ray ha hd
    rcases hc with ⟨h1, e⟩ | ⟨h1, h2, e⟩
    · rw [e]
      refine ⟨h1, (hroots _).2 (Or.inr rfl), ?_⟩
      intro t _ ht
      rcases (hroots t).1 ht with rfl | rfl
      · exact hle
      · exact le_refl _
    · rw [e]
      refine ⟨h2, (hroots _).2 (Or.inl rfl), ?_⟩
      intro t hr ht
      rcases (hroots t).1 ht with rfl | rfl
      · exact le_refl _
      · exact absurd hr h1

lemma quadA_rayZ : quadA (rayZ : Ray K) = 1 := by
  simp [quadA, rayZ, dot]

lemma quadDisc_sphereAhead :
    quadDisc (sphereAhead : Sphere K).center (sphereAhead : Sphere K).radius rayZ = 2 * 2 := by
  simp only [quadDisc, quadA, quadB, quadC, sphereAhead, rayZ, dot, Vec3.sub_x, Vec3.sub_y,
    Vec3.sub_z]
  norm_num

lemma rootNear_sphereAhead {sqrt : K → K} (hs : IsSqrt sqrt) :
    rootNear sqrt (sphereAhead : Sphere K).center (sphereAhead : Sphere K).radius rayZ = 4 := by
  rw [rootNear, quadDisc_sphereAhead, hs.sqrt_mul_self (by norm_num), quadA_rayZ]
  simp only [quadB, sphereAhead, rayZ, dot, Vec3.sub_x, Vec3.sub_y, Vec3.sub_z]
  norm_num

lemma hitSphere_sphereAhead {sqrt : K → K} (hs : IsSqrt sqrt) (record : HitRecord K) :
    (hitSphere sqrt sphereAhead rayZ record).1 = true := by
  rw [hitSphere_eq, if_neg, if_pos]
  · rw [rootNear_sphereAhead hs]
    constructor <;> simp only [rayZ] <;> norm_num
  · rw [quadDisc_sphereAhead]; norm_num

/-- Instance of C7 over the reals: the unit sphere at `(0, 0, 5)` and the z axis. -/
theorem hitSphere_spec_witness :
    IsSqrt Real.sqrt ∧ 0 < quadA (rayZ : Ray ℝ) ∧
    (hitSphere Real.sqrt sphereAhead rayZ HitRecord.uninit).1 = true ∧
    (rayZ : Ray ℝ).InRange (hitSphere Real.sqrt sphereAhead rayZ HitRecord.uninit).2.t ∧
    quadA (rayZ : Ray ℝ) * ((hitSphere Real.sqrt sphereAhead rayZ HitRecord.uninit).2.t *
        (hitSphere Real.sqrt sphereAhead rayZ HitRecord.uninit).2.t) +
      quadB (sphereAhead : Sphere ℝ).center rayZ *
        (hitSphere Real.sqrt sphereAhead rayZ HitRecord.uninit).2.t +
      quadC (sphereAhead : Sphere ℝ).center (sphereAhead : Sphere ℝ).radius rayZ = 0 ∧
    ∀ t : ℝ, (rayZ : Ray ℝ).InRange t →
      quadA (rayZ : Ray ℝ) * (t * t) + quadB (sphereAhead : Sphere ℝ).center rayZ * t +
        quadC (sphereAhead : Sphere ℝ).center (sphereAhead : Sphere ℝ).radius rayZ = 0 →
      (hitSphere Real.sqrt sphereAhead rayZ HitRecord.uninit).2.t ≤ t :=
  ⟨isSqrt_real, by rw [quadA_rayZ]; exact one_pos, hitSphere_sphereAhead isSqrt_real _,
    (hitSphere_spec Real.sqrt sphereAhead rayZ HitRecord.uninit).2.2.2.2.2 isSqrt_real
      (by rw [quadA_rayZ]; exact one_pos) (hitSphere_sphereAhead isSqrt_real _)⟩

/-! ### A ray aimed at the center of a sphere -/

/-- Normalizing a vector whose squared length is `D * D`, `D ≥ 0`, divides it by `D`. -/
lemma normalize_eq_scale {sqrt : K → K} (hs : IsSqrt sqrt) (v : Vec3 K) {D : K} (hD : 0 ≤ D)
    (h : dot v v = D * D) : normalize sqrt v = v.scale (1 / D) := by
  rw [normalize, inversesqrt, h, hs.sqrt_mul_self hD]

/-- The length of a vector whose squared length is `D * D`, `D ≥ 0`, is `D`. -/
lemma length_eq_of_dot {sqrt : K → K} (hs : IsSqrt sqrt) (v : Vec3 K) {D : K} (hD : 0 ≤ D)
    (h : dot v v = D * D) : length sqrt v = D := by
  rw [length, h, hs.sqrt_mul_self hD]

lemma dot_self_nonneg (v : Vec3 K) : 0 ≤ dot v v := by
  unfold dot
  nlinarith [mul_self_nonneg v.x, mul_self_nonneg v.y, mul_self_nonneg v.z]

/-- The squared length of a vector is the square of its length. -/
lemma length_mul_self {sqrt : K → K} (hs : IsSqrt sqrt) (v : Vec3 K) :
    length sqrt v * length sqrt v = dot v v :=
  hs.mul_self (dot_self_nonneg v)

/-- The coefficients of the quadratic for a ray from `O` with direction `(C - O) / D`,
where `D` is the distance from `O` to the center `C`. -/
lemma quad_toward_center (C O : Vec3 K) (r D : K) (ray : Ray K) (hD : 0 < D)
    (h : dot (C - O) (C - O) = D * D) (ho : ray.origin = O)
    (hdir : ray.direction = (C - O).scale (1 / D)) :
    quadA ray = 1 ∧ quadB C ray = -(2 * D) ∧ quadC C r ray = D * D - r * r := by
  have hD0 : D ≠ 0 := hD.ne'
  simp only [dot, Vec3.sub_x, Vec3.sub_y, Vec3.sub_z] at h
  refine ⟨?_, ?_, ?_⟩
  · simp only [quadA, hdir, dot, Vec3.scale_x, Vec3.scale_y, Vec3.scale_z, Vec3.sub_x,
      Vec3.sub_y, Vec3.sub_z]
    field_simp
    linear_combination h
  · simp only [quadB, hdir, ho, dot, Vec3.scale_x, Vec3.scale_y, Vec3.scale_z, Vec3.sub_x,
      Vec3.sub_y, Vec3.sub_z]
    field_simp
    linear_combination (-2 : K) * h
  · simp only [quadC, ho, dot, Vec3.sub_x, Vec3.sub_y, Vec3.sub_z]
    linear_combination h

lemma hitSphereWrite_frontFace (sphere : Sphere K) (ray : Ray K) (record : HitRecord K)
    (root : K) :
    (hitSphereWrite sphere ray record root).frontFace =
      decide (dot ray.direction ((ray.at root - sphere.center).divS sphere.radius) < 0) := rfl

lemma hitSphereWrite_normal (sphere : Sphere K) (ray : Ray K) (record : HitRecord K)
    (root : K) :
    (hitSphereWrite sphere ray record root).normal =
      if decide (dot ray.direction ((ray.at root - sphere.center).divS sphere.radius) < 0)
      then (ray.at root - sphere.center).divS sphere.radius
      else -((ray.at root - sphere.center).divS sphere.radius) := rfl

/-- C6: a ray built by `Ray(O, C - O)` from a point `O` outside a sphere of center `C` and
radius `r > 0`, at distance `D > r`, with `tMin <= D - r <= tMax`, is reported as a hit by
hitSphere with `t = D - r`, which is the nearer root; the hit point is at distance exactly
`r` from `C`, the hit is front-facing and the normal is the reversed ray direction. -/
theorem hitSphere_toward_center (sqrt : K → K) (hs : IsSqrt sqrt) (sphere : Sphere K)
    (O : Vec3 K) (lo hi : K) (ray : Ray K) (record : HitRecord K)
    (hray : ray = { Ray.ctor sqrt O (sphere.center - O) with tMin := lo, tMax := hi })
    (hr : 0 < sphere.radius) (hD : sphere.radius < length sqrt (sphere.center - O))
    (hlo : lo ≤ length sqrt (sphere.center - O) - sphere.radius)
    (hhi : length sqrt (sphere.center - O) - sphere.radius ≤ hi) :
    (hitSphere sqrt sphere ray record).1 = true ∧
    (hitSphere sqrt sphere ray record).2.t =
      length sqrt (sphere.center - O) - sphere.radius ∧
    (hitSphere sqrt sphere ray record).2.t = rootNear sqrt sphere.center sphere.radius ray ∧
    rootNear sqrt sphere.center sphere.radius ray ≤
      rootFar sqrt sphere.center sphere.radius ray ∧
    length sqrt ((hitSphere sqrt sphere ray record).2.point - sphere.center) = sphere.radius ∧
    (hitSphere sqrt sphere ray record).2.frontFace = true ∧
    (hitSphere sqrt sphere ray record).2.normal = -ray.direction := by
  obtain ⟨C, r, mat⟩ := sphere
  simp only at hray hr hD hlo hhi ⊢
  have hDD := length_mul_self hs (C - O)
  generalize length sqrt (C - O) = D at hD hlo hhi hDD
  have hD0 : 0 < D := lt_trans hr hD
  have hdir : ray.direction = (C - O).scale (1 / D) := by
    rw [hray]; exact normalize_eq_scale hs _ hD0.le hDD.symm
  have horig : ray.origin = O := by rw [hray]; rfl
  have hmin : ray.tMin = lo := by rw [hray]
  have hmax : ray.tMax = hi := by rw [hray]
  obtain ⟨hA, hB, hC⟩ := quad_toward_center C O r D ray hD0 hDD.symm horig hdir
  have hdisc : quadDisc C r ray = (2 * r) * (2 * r) := by
    rw [quadDisc, hA, hB, hC]; ring
  have hsq : sqrt (quadDisc C r ray) = 2 * r := by
    rw [hdisc]; exact hs.sqrt_mul_self (by linarith)
  have hnear : rootNear sqrt C r ray = D - r := by
    rw [rootNear, hsq, hA, hB]; ring
  have hfar : rootFar sqrt C r ray = D + r := by
    rw [rootFar, hsq, hA, hB]; ring
  have hin : ray.InRange (rootNear sqrt C r ray) := by
    rw [hnear]; exact ⟨by rw [hmin]; exact hlo, by rw [hmax]; exact hhi⟩
  have hres : hitSphere sqrt ⟨C, r, mat⟩ ray record =
      (true, hitSphereWrite ⟨C, r, mat⟩ ray record (D - r)) := by
    rw [hitSphere_eq, if_neg (by rw [hdisc]; nlinarith), if_pos hin, hnear]
  have hout : (ray.at (D - r) - C).divS r = -ray.direction := by
    have hD' : D ≠ 0 := hD0.ne'
    have hr' : r ≠ 0 := hr.ne'
    rw [Ray.at, horig, hdir]
    ext <;> simp <;> field_simp <;> ring
  have hneg : dot ray.direction (-ray.direction) < 0 := by
    have : dot ray.direction (-ray.direction) = -quadA ray := by
      simp only [quadA, dot, Vec3.neg_x, Vec3.neg_y, Vec3.neg_z]; ring
    rw [this, hA]; exact neg_one_lt_zero
  rw [hres]
  refine ⟨rfl, rfl, hnear.symm, by rw [hnear, hfar]; linarith, ?_, ?_, ?_⟩
  · apply length_eq_of_dot hs _ hr.le
    have hp : ray.at (D - r) - C = (-ray.direction).scale r := by
      rw [← hout]; ext <;> simp <;> field_simp
    simp only [hitSphereWrite_point]
    rw [hp]
    have : dot ((-ray.direction).scale r) ((-ray.direction).scale r) = quadA ray * (r * r) := by
      simp only [quadA, dot, Vec3.neg_x, Vec3.neg_y, Vec3.neg_z, Vec3.scale_x, Vec3.scale_y,
        Vec3.scale_z]
      ring
    rw [this, hA, one_mul]
  · rw [hitSphereWrite_frontFace]
    simp only [hout]
    exact decide_eq_true hneg
  · rw [hitSphereWrite_normal]
    simp only [hout]
    rw [if_pos (decide_eq_true hneg)]

lemma length_to_sphereAhead {sqrt : K → K} (hs : IsSqrt sqrt) :
    length sqrt ((sphereAhead : Sphere K).center - ⟨0, 0, 0⟩) = 5 := by
  apply length_eq_of_dot hs _ (by norm_num)
  simp only [sphereAhead, dot, Vec3.sub_x, Vec3.sub_y, Vec3.sub_z]
  norm_num

/-- Instance of C6 over the reals: from the origin toward the unit sphere at `(0, 0, 5)`,
the distance is 5 and the hit is at `t = 5 - 1`. -/
theorem hitSphere_toward_center_witness :
    (0 : ℝ) < (sphereAhead : Sphere ℝ).radius ∧
    (sphereAhead : Sphere ℝ).radius <
      length Real.sqrt ((sphereAhead : Sphere ℝ).center - ⟨0, 0, 0⟩) ∧
    (hitSphere Real.sqrt sphereAhead
      { Ray.ctor Real.sqrt ⟨0, 0, 0⟩ ((sphereAhead : Sphere ℝ).center - ⟨0, 0, 0⟩) with
        tMin := 1 / 1000, tMax := 1000 } HitRecord.uninit).1 = true ∧
    (hitSphere Real.sqrt sphereAhead
      { Ray.ctor Real.sqrt ⟨0, 0, 0⟩ ((sphereAhead : Sphere ℝ).center - ⟨0, 0, 0⟩) with
        tMin := 1 / 1000, tMax := 1000 } HitRecord.uninit).2.t =
      length Real.sqrt ((sphereAhead : Sphere ℝ).center - ⟨0, 0, 0⟩) -
        (sphereAhead : Sphere ℝ).radius :=
  have h := hitSphere_toward_center Real.sqrt isSqrt_real sphereAhead ⟨0, 0, 0⟩ (1 / 1000) 1000
    _ HitRecord.uninit rfl (by simp [sphereAhead])
    (by rw [length_to_sphereAhead isSqrt_real]; norm_num [sphereAhead])
    (by rw [length_to_sphereAhead isSqrt_real]; norm_num [sphereAhead])
    (by rw [length_to_sphereAhead isSqrt_real]; norm_num [sphereAhead])
  ⟨by simp [sphereAhead],
    by rw [length_to_sphereAhead isSqrt_real]; norm_num [sphereAhead], h.1, h.2.1⟩

/-! ### The plane test -/

lemma dot_self_pos {v : Vec3 K} (hv : v ≠ 0) : 0 < dot v v := by
  rcases (dot_self_nonneg v).lt_or_eq with h | h
  · exact h
  · exfalso
    apply hv
    unfold dot at h
    have hx : v.x = 0 := by nlinarith [mul_self_nonneg v.x, mul_self_nonneg v.y, mul_self_nonneg v.z]
    have hy : v.y = 0 := by nlinarith [mul_self_nonneg v.x, mul_self_nonneg v.y, mul_self_nonneg v.z]
    have hz : v.z = 0 := by nlinarith [mul_self_nonneg v.x, mul_self_nonneg v.y, mul_self_nonneg v.z]
    ext <;> simp [hx, hy, hz]

/-- Normalizing a nonzero vector gives a vector of squared length one. -/
lemma dot_normalize {sqrt : K → K} (hs : IsSqrt sqrt) {v : Vec3 K} (hv : v ≠ 0) :
    dot (normalize sqrt v) (normalize sqrt v) = 1 := by
  have hpos := dot_self_pos hv
  have hmul := hs.mul_self hpos.le
  have hne : sqrt (dot v v) ≠ 0 := by
    intro h0
    rw [h0, mul_zero] at hmul
    exact hpos.ne hmul
  have : dot (normalize sqrt v) (normalize sqrt v) =
      dot v v / (sqrt (dot v v) * sqrt (dot v v)) := by
    simp only [normalize, inversesqrt, dot, Vec3.scale_x, Vec3.scale_y, Vec3.scale_z]
    field_simp
  rw [this, hmul, div_self hpos.ne']

lemma dot_neg_neg (u v : Vec3 K) : dot (-u) (-v) = dot u v := by
  simp only [dot, Vec3.neg_x, Vec3.neg_y, Vec3.neg_z]; ring

lemma length_of_dot_one {sqrt : K → K} (hs : IsSqrt sqrt) {v : Vec3 K} (h : dot v v = 1) :
    length sqrt v = 1 :=
  length_eq_of_dot hs v zero_le_one (by rw [h, mul_one])

/-- The two rejections of hitPlane, as one test. -/
lemma plane_cascade {α : Type} (d e t lo hi : K) (x y : α) :
    (if d < e then x else if t < lo ∨ t > hi then x else y) =
    (if e ≤ d ∧ (lo ≤ t ∧ t ≤ hi) then y else x) := by
  by_cases h1 : d < e
  · simp [h1, not_le.mpr h1]
  · by_cases h2 : t < lo ∨ t > hi
    · have h2n : ¬ (lo ≤ t ∧ t ≤ hi) := by
        rintro ⟨a, b⟩
        rcases h2 with h | h
        · exact absurd a (not_le.mpr h)
        · exact absurd b (not_le.mpr h)
      simp [h1, h2, h2n]
    · have h2p : lo ≤ t ∧ t ≤ hi := by
        rw [not_or, not_lt, not_lt] at h2
        exact h2
      simp [h1, h2, h2p, not_lt.mp h1]

/-- The plane test in terms of the denominator and the parameter `planeT`. -/
lemma hitPlane_eq (plane : Plane K) (ray : Ray K) (record : HitRecord K) :
    hitPlane plane ray record =
      if 1 / 1000000 ≤ |dot plane.normal ray.direction| ∧ ray.InRange (planeT plane ray) then
        (true, hitPlaneWrite plane ray record (planeT plane ray))
      else (false, record) := by
  unfold hitPlane
  exact plane_cascade _ _ _ _ _ _ _

@[simp] lemma hitPlaneWrite_t (plane : Plane K) (ray : Ray K) (record : HitRecord K) (t : K) :
    (hitPlaneWrite plane ray record t).t = t := rfl

@[simp] lemma hitPlaneWrite_point (plane : Plane K) (ray : Ray K) (record : HitRecord K)
    (t : K) : (hitPlaneWrite plane ray record t).point = ray.at t := rfl

@[simp] lemma hitPlaneWrite_objectIndex (plane : Plane K) (ray : Ray K) (record : HitRecord K)
    (t : K) : (hitPlaneWrite plane ray record t).objectIndex = record.objectIndex := rfl

lemma hitPlaneWrite_frontFace (plane : Plane K) (ray : Ray K) (record : HitRecord K) (t : K) :
    (hitPlaneWrite plane ray record t).frontFace =
      decide (dot ray.direction plane.normal < 0) := rfl

lemma hitPlaneWrite_normal (plane : Plane K) (ray : Ray K) (record : HitRecord K) (t : K) :
    (hitPlaneWrite plane ray record t).normal =
      if decide (dot ray.direction plane.normal < 0) then plane.normal
      else -plane.normal := rfl

/-- A successful plane test: the denominator is not small, `planeT` is in range and the
record is the one written for `planeT`. -/
lemma hitPlane_true (plane : Plane K) (ray : Ray K) (record : HitRecord K)
    (h : (hitPlane plane ray record).1 = true) :
    (1 / 1000000 ≤ |dot plane.normal ray.direction| ∧ ray.InRange (planeT plane ray)) ∧
    hitPlane plane ray record = (true, hitPlaneWrite plane ray record (planeT plane ray)) := by
  rw [hitPlane_eq] at h ⊢
  by_cases hc : 1 / 1000000 ≤ |dot plane.normal ray.direction| ∧ ray.InRange (planeT plane ray)
  · exact ⟨hc, by rw [if_pos hc]⟩
  · rw [if_neg hc] at h
    exact absurd h (by simp)

/-- C8: hitPlane reports a hit exactly when `|dot(plane.normal, ray.direction)| >= 1e-6`
and `t = dot(plane.point - ray.origin, plane.normal) / dot(plane.normal, ray.direction)`
lies in `[tMin, tMax]`; on a hit `record.t = t`, the point lies on the plane, and the normal
is `plane.normal` or its negation, which for a plane stored by addPlane from a nonzero normal
has length one. -/
theorem hitPlane_spec (plane : Plane K) (ray : Ray K) (record : HitRecord K) :
    ((hitPlane plane ray record).1 = true ↔
      (1 / 1000000 ≤ |dot plane.normal ray.direction| ∧ ray.InRange (planeT plane ray))) ∧
    ((hitPlane plane ray record).1 = true →
      (hitPlane plane ray record).2.t = planeT plane ray ∧
      dot ((hitPlane plane ray record).2.point - plane.point) plane.normal = 0 ∧
      ((hitPlane plane ray record).2.normal = plane.normal ∨
        (hitPlane plane ray record).2.normal = -plane.normal)) ∧
    (∀ (sqrt : K → K) (tr : RayTracer K) (point normal : Vec3 K)
        (material : RayTracingMaterial K), IsSqrt sqrt → normal ≠ 0 →
      plane ∈ (addPlane sqrt tr point normal material).planes → plane ∉ tr.planes →
      (hitPlane plane ray record).1 = true →
      length sqrt (hitPlane plane ray record).2.normal = 1) := by
  have hnormal : (hitPlane plane ray record).1 = true →
      ((hitPlane plane ray record).2.normal = plane.normal ∨
        (hitPlane plane ray record).2.normal = -plane.normal) := by
    intro h
    rw [(hitPlane_true plane ray record h).2]
    simp only [hitPlaneWrite_normal]
    by_cases hf : dot ray.direction plane.normal < 0
    · left; rw [if_pos (decide_eq_true hf)]
    · right; rw [if_neg (by simpa using hf)]
  refine ⟨⟨fun h => (hitPlane_true plane ray record h).1, fun h => ?_⟩, fun h => ⟨?_, ?_, ?_⟩, ?_⟩
  · rw [hitPlane_eq, if_pos h]
  · rw [(hitPlane_true plane ray record h).2]; rfl
  · obtain ⟨⟨hden, _⟩, e⟩ := hitPlane_true plane ray record h
    have hne : dot plane.normal ray.direction ≠ 0 := by
      intro h0
      rw [h0, abs_zero] at hden
      norm_num at hden
    rw [e]
    simp only [hitPlaneWrite_point, Ray.at, planeT]
    simp only [dot, Vec3.sub_x, Vec3.sub_y, Vec3.sub_z, Vec3.add_x, Vec3.add_y, Vec3.add_z,
      Vec3.scale_x, Vec3.scale_y, Vec3.scale_z] at hne ⊢
    field_simp
    ring
  · exact hnormal h
  · intro sqrt tr point normal material hs hn hmem hnot h
    have hpl : plane.normal = normalize sqrt normal := by
      simp only [addPlane, List.mem_append, List.mem_singleton] at hmem
      rcases hmem with hm | hm
      · exact absurd hm hnot
      · rw [hm]
    apply length_of_dot_one hs
    rcases hnormal h with e | e
    · rw [e, hpl]; exact dot_normalize hs hn
    · rw [e, dot_neg_neg, hpl]; exact dot_normalize hs hn

lemma hitPlane_planeAhead (record : HitRecord K) :
    (hitPlane (planeAhead : Plane K) rayZ record).1 = true := by
  rw [hitPlane_eq, if_pos]
  simp only [Ray.InRange, planeT, planeAhead, rayZ, dot, Vec3.sub_x, Vec3.sub_y, Vec3.sub_z]
  norm_num

/-- Instance of C8: the plane `z = 5` is met by the z axis at `t = 5`. -/
theorem hitPlane_spec_witness :
    (hitPlane (planeAhead : Plane ℚ) rayZ HitRecord.uninit).1 = true ∧
    (hitPlane (planeAhead : Plane ℚ) rayZ HitRecord.uninit).2.t = planeT planeAhead rayZ ∧
    dot ((hitPlane (planeAhead : Plane ℚ) rayZ HitRecord.uninit).2.point -
      (planeAhead : Plane ℚ).point) (planeAhead : Plane ℚ).normal = 0 ∧
    ((hitPlane (planeAhead : Plane ℚ) rayZ HitRecord.uninit).2.normal =
        (planeAhead : Plane ℚ).normal ∨
      (hitPlane (planeAhead : Plane ℚ) rayZ HitRecord.uninit).2.normal =
        -(planeAhead : Plane ℚ).normal) :=
  ⟨hitPlane_planeAhead _,
    (hitPlane_spec planeAhead rayZ HitRecord.uninit).2.1 (hitPlane_planeAhead _)⟩

/-! ### The catalog test -/

@[simp] lemma hitMuseumObjectWrite_t (sqrt : K → K) (obj : MuseumObject K) (ray : Ray K)
    (record : HitRecord K) (root : K) :
    (hitMuseumObjectWrite sqrt obj ray record root).t = root := rfl

@[simp] lemma hitMuseumObjectWrite_point (sqrt : K → K) (obj : MuseumObject K) (ray : Ray K)
    (record : HitRecord K) (root : K) :
    (hitMuseumObjectWrite sqrt obj ray record root).point = ray.at root := rfl

@[simp] lemma hitMuseumObjectWrite_color (sqrt : K → K) (obj : MuseumObject K) (ray : Ray K)
    (record : HitRecord K) (root : K) :
    (hitMuseumObjectWrite sqrt obj ray record root).color = obj.materialDiffuse := rfl

@[simp] lemma hitMuseumObjectWrite_reflectance (sqrt : K → K) (obj : MuseumObject K)
    (ray : Ray K) (record : HitRecord K) (root : K) :
    (hitMuseumObjectWrite sqrt obj ray record root).reflectance = 3 / 10 := rfl

@[simp] lemma hitMuseumObjectWrite_transparency (sqrt : K → K) (obj : MuseumObject K)
    (ray : Ray K) (record : HitRecord K) (root : K) :
    (hitMuseumObjectWrite sqrt obj ray record root).transparency = 0 := rfl

@[simp] lemma hitMuseumObjectWrite_objectIndex (sqrt : K → K) (obj : MuseumObject K)
    (ray : Ray K) (record : HitRecord K) (root : K) :
    (hitMuseumObjectWrite sqrt obj ray record root).objectIndex = record.objectIndex := rfl

lemma hitMuseumObjectWrite_frontFace (sqrt : K → K) (obj : MuseumObject K) (ray : Ray K)
    (record : HitRecord K) (root : K) :
    (hitMuseumObjectWrite sqrt obj ray record root).frontFace =
      decide (dot ray.direction (normalize sqrt (ray.at root - obj.position)) < 0) := rfl

lemma hitMuseumObjectWrite_normal (sqrt : K → K) (obj : MuseumObject K) (ray : Ray K)
    (record : HitRecord K) (root : K) :
    (hitMuseumObjectWrite sqrt obj ray record root).normal =
      if decide (dot ray.direction (normalize sqrt (ray.at root - obj.position)) < 0)
      then normalize sqrt (ray.at root - obj.position)
      else -(normalize sqrt (ray.at root - obj.position)) := rfl

/-- A successful catalog test, like hitSphere_true. -/
lemma hitMuseumObject_true (sqrt : K → K) (obj : MuseumObject K) (ray : Ray K)
    (record : HitRecord K) (h : (hitMuseumObject sqrt obj ray record).1 = true) :
    0 ≤ quadDisc obj.position (3 / 2) ray ∧
    ((ray.InRange (rootNear sqrt obj.position (3 / 2) ray) ∧
        hitMuseumObject sqrt obj ray record =
          (true, hitMuseumObjectWrite sqrt obj ray record
            (rootNear sqrt obj.position (3 / 2) ray))) ∨
      (¬ ray.InRange (rootNear sqrt obj.position (3 / 2) ray) ∧
        ray.InRange (rootFar sqrt obj.position (3 / 2) ray) ∧
        hitMuseumObject sqrt obj ray record =
          (true, hitMuseumObjectWrite sqrt obj ray record
            (rootFar sqrt obj.position (3 / 2) ray)))) := by
  rw [hitMuseumObject_eq] at h ⊢
  by_cases hd : quadDisc obj.position (3 / 2) ray < 0
  · simp [hd] at h
  · by_cases h1 : ray.InRange (rootNear sqrt obj.position (3 / 2) ray)
    · exact ⟨not_lt.mp hd, Or.inl ⟨h1, by simp [hd, h1]⟩⟩
    · by_cases h2 : ray.InRange (rootFar sqrt obj.position (3 / 2) ray)
      · exact ⟨not_lt.mp hd, Or.inr ⟨h1, h2, by simp [hd, h1, h2]⟩⟩
      · simp [hd, h1, h2] at h

/-- The quadratic of the sphere test is the implicit sphere equation along the ray. -/
lemma quad_eq_dist (center : Vec3 K) (radius : K) (ray : Ray K) (t : K) :
    quadA ray * (t * t) + quadB center ray * t + quadC center radius ray =
      dot (ray.at t - center) (ray.at t - center) - radius * radius := by
  simp only [quadA, quadB, quadC, Ray.at, dot, Vec3.sub_x, Vec3.sub_y, Vec3.sub_z, Vec3.add_x,
    Vec3.add_y, Vec3.add_z, Vec3.scale_x, Vec3.scale_y, Vec3.scale_z]
  ring

/-- At either root the point of the ray is at squared distance `radius * radius` from the
center. -/
lemma dist_at_root {sqrt : K → K} (hs : IsSqrt sqrt) (center : Vec3 K) (radius : K)
    (ray : Ray K) (ha : 0 < quadA ray) (hd : 0 ≤ quadDisc center radius ray) (t : K)
    (ht : t = rootFar sqrt center radius ray ∨ t = rootNear sqrt center radius ray) :
    dot (ray.at t - center) (ray.at t - center) = radius * radius := by
  have h := ((roots_spec hs center radius ray ha hd).2 t).2 ht
  rw [quad_eq_dist] at h
  linarith

lemma divS_eq_scale (v : Vec3 K) (a : K) : v.divS a = v.scale (1 / a) := by
  ext <;> simp [div_eq_mul_inv]

/-- C9: for a ray of unit direction and an exact square root, hitMuseumObject succeeds
exactly when hitSphere succeeds on a sphere of radius 3/2 centered at the entry position
(whatever its material and whatever records the two tests are given), and then both write
the same `t`, `point`, `frontFace` and `normal`, the normalized outward vector being
`(point - position) / 1.5`; the catalog test writes `color = materialDiffuse`,
`reflectance = 0.3` and `transparency = 0`. -/
theorem hitMuseumObject_refines_hitSphere (sqrt : K → K) (hs : IsSqrt sqrt)
    (obj : MuseumObject K) (sphere : Sphere K) (ray : Ray K) (rec1 rec2 : HitRecord K)
    (hc : sphere.center = obj.position) (hr : sphere.radius = 3 / 2)
    (hunit : dot ray.direction ray.direction = 1) :
    ((hitMuseumObject sqrt obj ray rec1).1 = true ↔ (hitSphere sqrt sphere ray rec2).1 = true) ∧
    ((hitMuseumObject sqrt obj ray rec1).1 = true →
      (hitMuseumObject sqrt obj ray rec1).2.t = (hitSphere sqrt sphere ray rec2).2.t ∧
      (hitMuseumObject sqrt obj ray rec1).2.point = (hitSphere sqrt sphere ray rec2).2.point ∧
      (hitMuseumObject sqrt obj ray rec1).2.frontFace =
        (hitSphere sqrt sphere ray rec2).2.frontFace ∧
      (hitMuseumObject sqrt obj ray rec1).2.normal = (hitSphere sqrt sphere ray rec2).2.normal ∧
      normalize sqrt ((hitMuseumObject sqrt obj ray rec1).2.point - obj.position) =
        ((hitMuseumObject sqrt obj ray rec1).2.point - obj.position).divS (3 / 2) ∧
      (hitMuseumObject sqrt obj ray rec1).2.color = obj.materialDiffuse ∧
      (hitMuseumObject sqrt obj ray rec1).2.reflectance = 3 / 10 ∧
      (hitMuseumObject sqrt obj ray rec1).2.transparency = 0) := by
  obtain ⟨center, radius, mat⟩ := sphere
  obtain ⟨pos, diffuse⟩ := obj
  simp only at hc hr
  subst hc hr
  have ha : 0 < quadA ray := by rw [quadA, hunit]; exact one_pos
  -- at a root the two outward normals coincide
  have hout : ∀ t : K, 0 ≤ quadDisc center (3 / 2) ray →
      (t = rootFar sqrt center (3 / 2) ray ∨ t = rootNear sqrt center (3 / 2) ray) →
      normalize sqrt (ray.at t - center) = (ray.at t - center).divS (3 / 2) := by
    intro t hd ht
    rw [divS_eq_scale]
    exact normalize_eq_scale hs _ (by norm_num) (dist_at_root hs center (3 / 2) ray ha hd t ht)
  have hwrite : ∀ t : K, 0 ≤ quadDisc center (3 / 2) ray →
      (t = rootFar sqrt center (3 / 2) ray ∨ t = rootNear sqrt center (3 / 2) ray) →
      (hitMuseumObjectWrite sqrt ⟨center, diffuse⟩ ray rec1 t).frontFace =
        (hitSphereWrite ⟨center, 3 / 2, mat⟩ ray rec2 t).frontFace ∧
      (hitMuseumObjectWrite sqrt ⟨center, diffuse⟩ ray rec1 t).normal =
        (hitSphereWrite ⟨center, 3 / 2, mat⟩ ray rec2 t).normal := by
    intro t hd ht
    rw [hitMuseumObjectWrite_frontFace, hitSphereWrite_frontFace, hitMuseumObjectWrite_normal,
      hitSphereWrite_normal]
    simp only [hout t hd ht]
    exact ⟨trivial, trivial⟩
  constructor
  · rw [hitMuseumObject_eq, hitSphere_eq]
    by_cases hd : quadDisc center (3 / 2) ray < 0
    · simp [hd]
    · by_cases h1 : ray.InRange (rootNear sqrt center (3 / 2) ray)
      · simp [hd, h1]
      · by_cases h2 : ray.InRange (rootFar sqrt center (3 / 2) ray)
        · simp [hd, h1, h2]
        · simp [hd, h1, h2]
  · intro h
    obtain ⟨hd, hcase⟩ := hitMuseumObject_true sqrt ⟨center, diffuse⟩ ray rec1 h
    rcases hcase with ⟨h1, e⟩ | ⟨h1, h2, e⟩
    · have es : hitSphere sqrt ⟨center, 3 / 2, mat⟩ ray rec2 =
          (true, hitSphereWrite ⟨center, 3 / 2, mat⟩ ray rec2
            (rootNear sqrt center (3 / 2) ray)) := by
        rw [hitSphere_eq, if_neg (not_lt.mpr hd), if_pos h1]
      rw [e, es]
      have hw := hwrite _ hd (Or.inr rfl)
      exact ⟨rfl, rfl, hw.1, hw.2, hout _ hd (Or.inr rfl), rfl, rfl, rfl⟩
    · have es : hitSphere sqrt ⟨center, 3 / 2, mat⟩ ray rec2 =
          (true, hitSphereWrite ⟨center, 3 / 2, mat⟩ ray rec2
            (rootFar sqrt center (3 / 2) ray)) := by
        rw [hitSphere_eq, if_neg (not_lt.mpr hd), if_neg h1, if_pos h2]
      rw [e, es]
      have hw := hwrite _ hd (Or.inl rfl)
      exact ⟨rfl, rfl, hw.1, hw.2, hout _ hd (Or.inl rfl), rfl, rfl, rfl⟩

lemma dot_rayZ : dot (rayZ : Ray K).direction (rayZ : Ray K).direction = 1 := by
  simp [rayZ, dot]

lemma hitMuseumObject_objAhead {sqrt : K → K} (hs : IsSqrt sqrt) (record : HitRecord K) :
    (hitMuseumObject sqrt objAhead rayZ record).1 = true := by
  have hdisc : quadDisc (objAhead : MuseumObject K).position (3 / 2) rayZ = 3 * 3 := by
    simp only [quadDisc, quadA, quadB, quadC, objAhead, rayZ, dot, Vec3.sub_x, Vec3.sub_y,
      Vec3.sub_z]
    norm_num
  have hnear : rootNear sqrt (objAhead : MuseumObject K).position (3 / 2) rayZ = 7 / 2 := by
    rw [rootNear, hdisc, hs.sqrt_mul_self (by norm_num), quadA_rayZ]
    simp only [quadB, objAhead, rayZ, dot, Vec3.sub_x, Vec3.sub_y, Vec3.sub_z]
    norm_num
  rw [hitMuseumObject_eq, if_neg (by rw [hdisc]; norm_num), if_pos]
  rw [hnear]
  constructor <;> simp only [rayZ] <;> norm_num

/-- Instance of C9 over the reals: the entry at `(0, 0, 5)` and the z axis; both tests
succeed and write the same `t`. -/
theorem hitMuseumObject_refines_hitSphere_witness :
    IsSqrt Real.sqrt ∧
    dot (rayZ : Ray ℝ).direction (rayZ : Ray ℝ).direction = 1 ∧
    (hitMuseumObject Real.sqrt objAhead rayZ HitRecord.uninit).1 = true ∧
    (hitSphere Real.sqrt boundingSphereAhead rayZ HitRecord.uninit).1 = true ∧
    (hitMuseumObject Real.sqrt objAhead rayZ HitRecord.uninit).2.t =
      (hitSphere Real.sqrt boundingSphereAhead rayZ HitRecord.uninit).2.t :=
  have h := hitMuseumObject_refines_hitSphere Real.sqrt isSqrt_real objAhead
    boundingSphereAhead rayZ HitRecord.uninit HitRecord.uninit rfl rfl dot_rayZ
  ⟨isSqrt_real, dot_rayZ, hitMuseumObject_objAhead isSqrt_real _,
    h.1.1 (hitMuseumObject_objAhead isSqrt_real _),
    (h.2 (hitMuseumObject_objAhead isSqrt_real _)).1⟩

/-! ### The scan of hit -/

lemma hitSphereWrite_congr (sphere : Sphere K) (ray : Ray K) (r1 r2 : HitRecord K) (root : K)
    (h : r1.objectIndex = r2.objectIndex) :
    hitSphereWrite sphere ray r1 root = hitSphereWrite sphere ray r2 root := by
  simp only [hitSphereWrite, HitRecord.setFaceNormal, h]

lemma hitPlaneWrite_congr (plane : Plane K) (ray : Ray K) (r1 r2 : HitRecord K) (t : K)
    (h : r1.objectIndex = r2.objectIndex) :
    hitPlaneWrite plane ray r1 t = hitPlaneWrite plane ray r2 t := by
  simp only [hitPlaneWrite, HitRecord.setFaceNormal, h]

lemma hitMuseumObjectWrite_congr (sqrt : K → K) (obj : MuseumObject K) (ray : Ray K)
    (r1 r2 : HitRecord K) (root : K) (h : r1.objectIndex = r2.objectIndex) :
    hitMuseumObjectWrite sqrt obj ray r1 root = hitMuseumObjectWrite sqrt obj ray r2 root := by
  simp only [hitMuseumObjectWrite, HitRecord.setFaceNormal, h]

lemma testLike_hitSphere (sqrt : K → K) (sphere : Sphere K) (ray : Ray K) :
    TestLike (hitSphere sqrt sphere ray) := by
  constructor
  · rw [hitSphere_eq]
    split_ifs <;> rfl
  · intro r hr
    have hu : r.objectIndex = (HitRecord.uninit : HitRecord K).objectIndex := hr
    simp only [hitSphere_eq, hitSphereWrite_congr sphere ray r HitRecord.uninit _ hu]
    split_ifs <;> simp_all

lemma testLike_hitPlane (plane : Plane K) (ray : Ray K) : TestLike (hitPlane plane ray) := by
  constructor
  · rw [hitPlane_eq]
    split_ifs <;> rfl
  · intro r hr
    have hu : r.objectIndex = (HitRecord.uninit : HitRecord K).objectIndex := hr
    simp only [hitPlane_eq, hitPlaneWrite_congr plane ray r HitRecord.uninit _ hu]
    split_ifs <;> simp_all

lemma testLike_hitMuseumObject (sqrt : K → K) (obj : MuseumObject K) (ray : Ray K) :
    TestLike (hitMuseumObject sqrt obj ray) := by
  constructor
  · rw [hitMuseumObject_eq]
    split_ifs <;> rfl
  · intro r hr
    have hu : r.objectIndex = (HitRecord.uninit : HitRecord K).objectIndex := hr
    simp only [hitMuseumObject_eq, hitMuseumObjectWrite_congr sqrt obj ray r HitRecord.uninit _ hu]
    split_ifs <;> simp_all

/-- One iteration of a loop of hit, for a test `f` whose accepted record is stored through
`post`: the temporary record keeps `objectIndex = -1`, and the surviving state is updated by
`pick` on the candidate, if there is one. -/
lemma scan_step (f : HitRecord K → Bool × HitRecord K) (post : HitRecord K → HitRecord K)
    (hf : TestLike f) (hpost : ∀ r, (post r).t = r.t) (st : HitState K)
    (hst : st.tempRecord.objectIndex = -1) :
    ((if (f st.tempRecord).1 && decide ((f st.tempRecord).2.t < st.closestSoFar) then
        ({ hitAnything := true, closestSoFar := (f st.tempRecord).2.t,
           tempRecord := (f st.tempRecord).2, record := post (f st.tempRecord).2 } : HitState K)
      else { st with tempRecord := (f st.tempRecord).2 }).tempRecord.objectIndex = -1) ∧
    (if (f st.tempRecord).1 && decide ((f st.tempRecord).2.t < st.closestSoFar) then
        ({ hitAnything := true, closestSoFar := (f st.tempRecord).2.t,
           tempRecord := (f st.tempRecord).2, record := post (f st.tempRecord).2 } : HitState K)
      else { st with tempRecord := (f st.tempRecord).2 }).summary =
      (match (written f).map post with
       | some c => pick st.summary c
       | none => st.summary) := by
  have h := hf.2 st.tempRecord hst
  by_cases hok : (f HitRecord.uninit).1 = true
  · rw [if_pos hok] at h
    rw [h]
    have hw : written f = some (f HitRecord.uninit).2 := by rw [written, if_pos hok]
    rw [hw]
    by_cases hlt : (f HitRecord.uninit).2.t < st.closestSoFar
    · simp [hok, hlt, hf.1, pick, HitState.summary, hpost]
    · simp [hok, hlt, hf.1, pick, HitState.summary, hpost]
  · rw [if_neg hok] at h
    rw [h]
    have hw : written f = none := by rw [written, if_neg hok]
    rw [hw]
    simp [hst, HitState.summary]

lemma hitSphereStep_spec (sqrt : K → K) (ray : Ray K) (st : HitState K) (sphere : Sphere K)
    (hst : st.tempRecord.objectIndex = -1) :
    (hitSphereStep sqrt ray st sphere).tempRecord.objectIndex = -1 ∧
    (hitSphereStep sqrt ray st sphere).summary =
      (match written (hitSphere sqrt sphere ray) with
       | some c => pick st.summary c
       | none => st.summary) := by
  have h := scan_step (hitSphere sqrt sphere ray) id (testLike_hitSphere sqrt sphere ray)
    (fun _ => rfl) st hst
  rw [Option.map_id] at h
  exact h

lemma hitPlaneStep_spec (ray : Ray K) (st : HitState K) (plane : Plane K)
    (hst : st.tempRecord.objectIndex = -1) :
    (hitPlaneStep ray st plane).tempRecord.objectIndex = -1 ∧
    (hitPlaneStep ray st plane).summary =
      (match written (hitPlane plane ray) with
       | some c => pick st.summary c
       | none => st.summary) := by
  have h := scan_step (hitPlane plane ray) id (testLike_hitPlane plane ray)
    (fun _ => rfl) st hst
  rw [Option.map_id] at h
  exact h

lemma hitObjectStep_spec (sqrt : K → K) (scene : MuseumObjectManager K) (ray : Ray K)
    (st : HitState K) (i : Nat) (hst : st.tempRecord.objectIndex = -1) :
    (hitObjectStep sqrt scene ray st i).tempRecord.objectIndex = -1 ∧
    (hitObjectStep sqrt scene ray st i).summary =
      (match objectCandidate sqrt scene ray i with
       | some c => pick st.summary c
       | none => st.summary) := by
  unfold hitObjectStep objectCandidate
  cases hobj : scene.getObject i with
  | none => exact ⟨hst, rfl⟩
  | some obj =>
    have h := scan_step (hitMuseumObject sqrt obj ray)
      (fun r => { r with objectIndex := castInt i }) (testLike_hitMuseumObject sqrt obj ray)
      (fun _ => rfl) st hst
    refine ⟨h.1, ?_⟩
    refine h.2.trans ?_
    dsimp only
    cases written (hitMuseumObject sqrt obj ray) <;> rfl

/-- A loop of hit whose steps behave like `pick` on the candidates computes the fold of
`pick` over the candidates. -/
lemma scan_fold {α : Type} (step : HitState K → α → HitState K)
    (cand : α → Option (HitRecord K))
    (hstep : ∀ (st : HitState K) (a : α), st.tempRecord.objectIndex = -1 →
      (step st a).tempRecord.objectIndex = -1 ∧
      (step st a).summary =
        (match cand a with
         | some c => pick st.summary c
         | none => st.summary)) :
    ∀ (l : List α) (st : HitState K), st.tempRecord.objectIndex = -1 →
      (l.foldl step st).tempRecord.objectIndex = -1 ∧
      (l.foldl step st).summary = (l.filterMap cand).foldl pick st.summary := by
  intro l
  induction l with
  | nil => intro st hst; exact ⟨hst, rfl⟩
  | cons a l ih =>
    intro st hst
    obtain ⟨h1, h2⟩ := hstep st a hst
    obtain ⟨i1, i2⟩ := ih (step st a) h1
    refine ⟨i1, ?_⟩
    rw [List.foldl_cons, i2, h2, List.filterMap_cons]
    cases cand a <;> rfl

/-- The three loops of hit compute the fold of `pick` over the candidates in scan order,
starting from `tMax`. -/
lemma hit_eq_fold (sqrt : K → K) (tr : RayTracer K) (ray : Ray K) (record : HitRecord K) :
    hit sqrt tr ray record =
      (((candidates sqrt tr ray).foldl pick (false, ray.tMax, record)).1,
        ((candidates sqrt tr ray).foldl pick (false, ray.tMax, record)).2.2) := by
  have h0 : (⟨false, ray.tMax, HitRecord.uninit, record⟩ : HitState K).tempRecord.objectIndex
        = -1 := rfl
  obtain ⟨s1, s2⟩ := scan_fold (hitSphereStep sqrt ray)
    (fun sphere => written (hitSphere sqrt sphere ray))
    (fun st a h => hitSphereStep_spec sqrt ray st a h) tr.spheres _ h0
  obtain ⟨p1, p2⟩ := scan_fold (hitPlaneStep ray) (fun plane => written (hitPlane plane ray))
    (fun st a h => hitPlaneStep_spec ray st a h) tr.planes _ s1
  unfold hit candidates sphereCandidates planeCandidates objectCandidates
  rw [List.foldl_append, List.foldl_append]
  cases hsc : tr.scene with
  | none =>
    simp only [List.foldl_nil]
    rw [← show (⟨false, ray.tMax, HitRecord.uninit, record⟩ : HitState K).summary =
        (false, ray.tMax, record) from rfl, ← s2, ← p2]
    rfl
  | some scene =>
    obtain ⟨_, o2⟩ := scan_fold (hitObjectStep sqrt scene ray) (objectCandidate sqrt scene ray)
      (fun st a h => hitObjectStep_spec sqrt scene ray st a h)
      (List.range scene.getObjectCount) _ p1
    simp only []
    rw [← show (⟨false, ray.tMax, HitRecord.uninit, record⟩ : HitState K).summary =
        (false, ray.tMax, record) from rfl, ← s2, ← p2, ← o2]
    rfl

/-- No candidate below the bound: the fold of `pick` changes nothing. -/
lemma foldl_pick_none (cs : List (HitRecord K)) (acc : Bool × K × HitRecord K)
    (h : ∀ c ∈ cs, acc.2.1 ≤ c.t) : cs.foldl pick acc = acc := by
  induction cs with
  | nil => rfl
  | cons c cs ih =>
    have hc : ¬ c.t < acc.2.1 := not_lt.mpr (h c (List.mem_cons_self _ _))
    rw [List.foldl_cons, pick, if_neg hc]
    exact ih (fun c2 h2 => h c2 (List.mem_cons_of_mem _ h2))

/-- A candidate below the bound, strictly below every earlier candidate and not above any
later one, is what the fold of `pick` ends with. -/
lemma foldl_pick_some (pre post : List (HitRecord K)) (c : HitRecord K) :
    ∀ (acc : Bool × K × HitRecord K), c.t < acc.2.1 → (∀ a ∈ pre, c.t < a.t) →
      (∀ b ∈ post, c.t ≤ b.t) → (pre ++ c :: post).foldl pick acc = (true, c.t, c) := by
  induction pre with
  | nil =>
    intro acc hlt _ hpost
    rw [List.nil_append, List.foldl_cons, pick, if_pos hlt]
    exact foldl_pick_none post _ hpost
  | cons a pre ih =>
    intro acc hlt hpre hpost
    rw [List.cons_append, List.foldl_cons]
    apply ih _ _ (fun x hx => hpre x (List.mem_cons_of_mem _ hx)) hpost
    unfold pick
    split_ifs
    · exact hpre a (List.mem_cons_self _ _)
    · exact hlt

/-- A non-empty list of records has an element of least `t`. -/
lemma exists_least_t (cs : List (HitRecord K)) (h : cs ≠ []) :
    ∃ c ∈ cs, ∀ c2 ∈ cs, c.t ≤ c2.t := by
  induction cs with
  | nil => exact absurd rfl h
  | cons a cs ih =>
    by_cases hcs : cs = []
    · subst hcs
      exact ⟨a, List.mem_cons_self _ _, fun c2 h2 => by
        rw [List.mem_singleton] at h2; rw [h2]⟩
    · obtain ⟨m, hm, hmin⟩ := ih hcs
      by_cases ham : a.t ≤ m.t
      · refine ⟨a, List.mem_cons_self _ _, fun c2 h2 => ?_⟩
        rcases List.mem_cons.1 h2 with e | h3
        · rw [e]
        · exact le_trans ham (hmin c2 h3)
      · refine ⟨m, List.mem_cons_of_mem _ hm, fun c2 h2 => ?_⟩
        rcases List.mem_cons.1 h2 with e | h3
        · rw [e]; exact (not_le.mp ham).le
        · exact hmin c2 h3

/-- What closestCandidate returns: a candidate below `tMax`, of least `t`, strictly closer
than every candidate before it in the list. -/
lemma closestCandidate_some {tMax : K} {cs : List (HitRecord K)} {c : HitRecord K}
    (h : closestCandidate tMax cs = some c) :
    c.t < tMax ∧ (∀ c2 ∈ cs, c.t ≤ c2.t) ∧
    ∃ pre post, cs = pre ++ c :: post ∧ ∀ a ∈ pre, c.t < a.t := by
  unfold closestCandidate at h
  rw [List.find?_eq_some] at h
  obtain ⟨hp, pre, post, hsplit, hpre⟩ := h
  simp only [Bool.and_eq_true, decide_eq_true_eq, List.all_eq_true] at hp
  refine ⟨hp.1, hp.2, pre, post, hsplit, ?_⟩
  intro a ha
  by_contra hnot
  have hle : a.t ≤ c.t := not_lt.mp hnot
  have hmem : a ∈ cs := by rw [hsplit]; exact List.mem_append_left _ ha
  have heq : a.t = c.t := le_antisymm hle (hp.2 a hmem)
  have := hpre a ha
  simp only [Bool.not_eq_true', Bool.and_eq_false_iff, decide_eq_false_iff_not,
    List.all_eq_false] at this
  rcases this with h1 | ⟨x, hx, h2⟩
  · exact h1 (by rw [heq]; exact hp.1)
  · apply h2
    simp only [decide_eq_true_eq]
    rw [heq]; exact hp.2 x hx

/-- When closestCandidate returns nothing, no candidate is below `tMax`. -/
lemma closestCandidate_none {tMax : K} {cs : List (HitRecord K)}
    (h : closestCandidate tMax cs = none) : ∀ c ∈ cs, tMax ≤ c.t := by
  intro c hc
  by_contra hnot
  have hlt : c.t < tMax := not_le.mp hnot
  obtain ⟨m, hm, hmin⟩ := exists_least_t cs (List.ne_nil_of_mem hc)
  unfold closestCandidate at h
  rw [List.find?_eq_none] at h
  apply h m hm
  simp only [Bool.and_eq_true, decide_eq_true_eq, List.all_eq_true]
  exact ⟨lt_of_le_of_lt (hmin c hc) hlt, hmin⟩

/-- The loops of hit compute what the specification says. -/
lemma hit_eq_hitSpec (sqrt : K → K) (tr : RayTracer K) (ray : Ray K) (record : HitRecord K) :
    hit sqrt tr ray record = hitSpec sqrt tr ray record := by
  rw [hit_eq_fold, hitSpec]
  cases h : closestCandidate ray.tMax (candidates sqrt tr ray) with
  | none =>
    rw [foldl_pick_none _ _ (closestCandidate_none h)]
  | some c =>
    obtain ⟨hlt, hmin, pre, post, hsplit, hpre⟩ := closestCandidate_some h
    have hpost : ∀ b ∈ post, c.t ≤ b.t := fun b hb =>
      hmin b (by rw [hsplit]; exact List.mem_append_right _ (List.mem_cons_of_mem _ hb))
    rw [hsplit, foldl_pick_some pre post c _ hlt hpre hpost]

lemma written_eq_some (f : HitRecord K → Bool × HitRecord K) (c : HitRecord K) :
    written f = some c ↔ f HitRecord.uninit = (true, c) := by
  unfold written
  constructor
  · intro h
    by_cases hok : (f HitRecord.uninit).1 = true
    · rw [if_pos hok] at h
      exact Prod.ext hok (Option.some.inj h)
    · rw [if_neg hok] at h
      exact absurd h (by simp)
  · intro h
    rw [h]; rfl

omit [LinearOrderedField K] in
lemma getObject_lt (scene : MuseumObjectManager K) (i : Nat) (obj : MuseumObject K)
    (h : scene.getObject i = some obj) : i < scene.getObjectCount := by
  unfold MuseumObjectManager.getObject at h
  unfold MuseumObjectManager.getObjectCount
  by_contra hge
  rw [List.get?_eq_none.2 (not_lt.mp hge)] at h
  exact absurd h (by simp)

lemma objectCandidate_eq_some (sqrt : K → K) (scene : MuseumObjectManager K) (ray : Ray K)
    (i : Nat) (c : HitRecord K) :
    objectCandidate sqrt scene ray i = some c ↔
      ∃ obj c0, scene.getObject i = some obj ∧
        hitMuseumObject sqrt obj ray HitRecord.uninit = (true, c0) ∧
        c = { c0 with objectIndex := castInt i } := by
  unfold objectCandidate
  cases hobj : scene.getObject i with
  | none => simp
  | some obj =>
    dsimp only
    cases hw : written (hitMuseumObject sqrt obj ray) with
    | none =>
      dsimp only
      constructor
      · intro h
        exact absurd h (by simp)
      · rintro ⟨obj2, c0, ho, hh, _⟩
        rw [← Option.some.inj ho, ← written_eq_some, hw] at hh
        exact absurd hh (by simp)
    | some c0 =>
      dsimp only
      constructor
      · intro h
        exact ⟨obj, c0, rfl, (written_eq_some _ _).1 hw, (Option.some.inj h).symm⟩
      · rintro ⟨obj2, c1, ho, hh, hc⟩
        rw [← Option.some.inj ho, ← written_eq_some, hw] at hh
        rw [hc, Option.some.inj hh]

/-- The candidates are the records written by the individual tests that succeed, a catalog
record carrying the index of its entry. -/
lemma mem_candidates (sqrt : K → K) (tr : RayTracer K) (ray : Ray K) (c : HitRecord K) :
    c ∈ candidates sqrt tr ray ↔
      (∃ sphere ∈ tr.spheres, hitSphere sqrt sphere ray HitRecord.uninit = (true, c)) ∨
      (∃ plane ∈ tr.planes, hitPlane plane ray HitRecord.uninit = (true, c)) ∨
      (∃ scene i obj c0, tr.scene = some scene ∧ scene.getObject i = some obj ∧
        hitMuseumObject sqrt obj ray HitRecord.uninit = (true, c0) ∧
        c = { c0 with objectIndex := castInt i }) := by
  unfold candidates sphereCandidates planeCandidates objectCandidates
  rw [List.mem_append, List.mem_append, or_assoc]
  refine or_congr ?_ (or_congr ?_ ?_)
  · simp only [List.mem_filterMap, written_eq_some]
  · simp only [List.mem_filterMap, written_eq_some]
  · cases hsc : tr.scene with
    | none => simp
    | some scene =>
      simp only [List.mem_filterMap, List.mem_range, objectCandidate_eq_some,
        Option.some.injEq]
      constructor
      · rintro ⟨i, _, obj, c0, h1, h2, h3⟩
        exact ⟨scene, i, obj, c0, rfl, h1, h2, h3⟩
      · rintro ⟨scene2, i, obj, c0, h0, h1, h2, h3⟩
        subst h0
        exact ⟨i, getObject_lt _ i obj h1, obj, c0, h1, h2, h3⟩

/-- The two outcomes of hit. -/
lemma hit_cases (sqrt : K → K) (tr : RayTracer K) (ray : Ray K) (record : HitRecord K) :
    (hit sqrt tr ray record = (false, record) ∧
      ∀ c ∈ candidates sqrt tr ray, ray.tMax ≤ c.t) ∨
    (∃ c, hit sqrt tr ray record = (true, c) ∧ c.t < ray.tMax ∧
      (∀ c2 ∈ candidates sqrt tr ray, c.t ≤ c2.t) ∧
      ∃ pre post, candidates sqrt tr ray = pre ++ c :: post ∧ ∀ a ∈ pre, c.t < a.t) := by
  rw [hit_eq_hitSpec, hitSpec]
  cases h : closestCandidate ray.tMax (candidates sqrt tr ray) with
  | none => exact Or.inl ⟨rfl, closestCandidate_none h⟩
  | some c => exact Or.inr ⟨c, rfl, closestCandidate_some h⟩

lemma dot_comm (u v : Vec3 K) : dot u v = dot v u := by
  simp only [dot]; ring

lemma dot_neg_left (u v : Vec3 K) : dot (-u) v = -dot u v := by
  simp only [dot, Vec3.neg_x, Vec3.neg_y, Vec3.neg_z]; ring

/-- What setFaceNormal leaves in a record, for the outward normal `n` and direction `d`. -/
lemma faceNormal_spec (d n : Vec3 K) (r : HitRecord K)
    (hf : r.frontFace = decide (dot d n < 0))
    (hn : r.normal = if decide (dot d n < 0) then n else -n) :
    dot r.normal d ≤ 0 ∧ (r.frontFace = true ↔ dot n d < 0) ∧
    r.normal = (if r.frontFace then n else -n) := by
  refine ⟨?_, ?_, ?_⟩
  · rw [hn]
    by_cases h : dot d n < 0
    · rw [if_pos (decide_eq_true h), dot_comm]; exact h.le
    · rw [if_neg (by simpa using h), dot_neg_left, dot_comm]
      linarith [not_lt.mp h]
  · rw [hf, decide_eq_true_iff, dot_comm]
  · rw [hn, hf]

/-- Every record written by a successful sphere test has its `t` in the range of the ray
and is independent of the record passed in, up to `objectIndex`. -/
lemma hitSphere_any (sqrt : K → K) (sphere : Sphere K) (ray : Ray K) (r0 : HitRecord K)
    (h : (hitSphere sqrt sphere ray r0).1 = true) :
    ray.InRange (hitSphere sqrt sphere ray r0).2.t ∧
    (hitSphere sqrt sphere ray HitRecord.uninit).1 = true ∧
    (hitSphere sqrt sphere ray HitRecord.uninit).2.t = (hitSphere sqrt sphere ray r0).2.t := by
  rw [hitSphere_eq] at h
  simp only [hitSphere_eq]
  split_ifs at h ⊢ <;> simp_all

lemma hitPlane_any (plane : Plane K) (ray : Ray K) (r0 : HitRecord K)
    (h : (hitPlane plane ray r0).1 = true) :
    ray.InRange (hitPlane plane ray r0).2.t ∧
    (hitPlane plane ray HitRecord.uninit).1 = true ∧
    (hitPlane plane ray HitRecord.uninit).2.t = (hitPlane plane ray r0).2.t := by
  rw [hitPlane_eq] at h
  simp only [hitPlane_eq]
  split_ifs at h ⊢
  simp_all

lemma hitMuseumObject_any (sqrt : K → K) (obj : MuseumObject K) (ray : Ray K)
    (r0 : HitRecord K) (h : (hitMuseumObject sqrt obj ray r0).1 = true) :
    ray.InRange (hitMuseumObject sqrt obj ray r0).2.t ∧
    (hitMuseumObject sqrt obj ray HitRecord.uninit).1 = true ∧
    (hitMuseumObject sqrt obj ray HitRecord.uninit).2.t =
      (hitMuseumObject sqrt obj ray r0).2.t := by
  rw [hitMuseumObject_eq] at h
  simp only [hitMuseumObject_eq]
  split_ifs at h ⊢ <;> simp_all

/-- Every candidate has its `t` in the range of the ray. -/
lemma candidates_inRange (sqrt : K → K) (tr : RayTracer K) (ray : Ray K) (c : HitRecord K)
    (h : c ∈ candidates sqrt tr ray) : ray.InRange c.t := by
  rcases (mem_candidates sqrt tr ray c).1 h with ⟨s, _, e⟩ | ⟨p, _, e⟩ | ⟨sc, i, obj, c0, _, _, e, hc⟩
  · have := (hitSphere_any sqrt s ray HitRecord.uninit (by rw [e])).1
    rwa [e] at this
  · have := (hitPlane_any p ray HitRecord.uninit (by rw [e])).1
    rwa [e] at this
  · have := (hitMuseumObject_any sqrt obj ray HitRecord.uninit (by rw [e])).1
    rw [e] at this
    rw [hc]; exact this

/-! ### Claims about hit -/

/-- C3: when hit reports a hit, the `t` of the returned record is not above the `t` of any
sphere, plane or catalog entry whose individual test succeeds for the ray (whatever record
that test is given), it is at least `ray.tMin`, and the record is the one written by one of
those tests into a default-constructed record (with `objectIndex` set to the index for a
catalog entry). -/
theorem hit_closest (sqrt : K → K) (tr : RayTracer K) (ray : Ray K) (record rec : HitRecord K)
    (h : hit sqrt tr ray record = (true, rec)) :
    (∀ sphere ∈ tr.spheres, ∀ r0, (hitSphere sqrt sphere ray r0).1 = true →
      rec.t ≤ (hitSphere sqrt sphere ray r0).2.t) ∧
    (∀ plane ∈ tr.planes, ∀ r0, (hitPlane plane ray r0).1 = true →
      rec.t ≤ (hitPlane plane ray r0).2.t) ∧
    (∀ scene i obj, tr.scene = some scene → scene.getObject i = some obj →
      ∀ r0, (hitMuseumObject sqrt obj ray r0).1 = true →
        rec.t ≤ (hitMuseumObject sqrt obj ray r0).2.t) ∧
    ray.tMin ≤ rec.t ∧
    ((∃ sphere ∈ tr.spheres, hitSphere sqrt sphere ray HitRecord.uninit = (true, rec)) ∨
      (∃ plane ∈ tr.planes, hitPlane plane ray HitRecord.uninit = (true, rec)) ∨
      (∃ scene i obj c0, tr.scene = some scene ∧ scene.getObject i = some obj ∧
        hitMuseumObject sqrt obj ray HitRecord.uninit = (true, c0) ∧
        rec = { c0 with objectIndex := castInt i })) := by
  rcases hit_cases sqrt tr ray record with ⟨e, _⟩ | ⟨c, e, _, hmin, pre, post, hsplit, _⟩
  · rw [e] at h
    exact absurd (congrArg Prod.fst h) (by simp)
  · rw [e] at h
    have hc : c = rec := congrArg Prod.snd h
    subst hc
    have hmem : c ∈ candidates sqrt tr ray := by
      rw [hsplit]; exact List.mem_append_right _ (List.mem_cons_self _ _)
    refine ⟨?_, ?_, ?_, (candidates_inRange sqrt tr ray c hmem).1,
      (mem_candidates sqrt tr ray c).1 hmem⟩
    · intro sphere hs r0 hr0
      obtain ⟨_, hok, ht⟩ := hitSphere_any sqrt sphere ray r0 hr0
      rw [← ht]
      exact hmin _ ((mem_candidates sqrt tr ray _).2 (Or.inl ⟨sphere, hs, Prod.ext hok rfl⟩))
    · intro plane hp r0 hr0
      obtain ⟨_, hok, ht⟩ := hitPlane_any plane ray r0 hr0
      rw [← ht]
      exact hmin _ ((mem_candidates sqrt tr ray _).2
        (Or.inr (Or.inl ⟨plane, hp, Prod.ext hok rfl⟩)))
    · intro scene i obj hsc hobj r0 hr0
      obtain ⟨_, hok, ht⟩ := hitMuseumObject_any sqrt obj ray r0 hr0
      rw [← ht]
      exact hmin { (hitMuseumObject sqrt obj ray HitRecord.uninit).2 with
          objectIndex := castInt i }
        ((mem_candidates sqrt tr ray _).2
          (Or.inr (Or.inr ⟨scene, i, obj, _, hsc, hobj, Prod.ext hok rfl, rfl⟩)))

lemma hit_sceneOnePlane (sqrt : K → K) :
    hit sqrt (sceneOnePlane : RayTracer K) rayZ HitRecord.uninit =
      (true, (hitPlane planeAhead rayZ HitRecord.uninit).2) := by
  have h := hitPlane_planeAhead (HitRecord.uninit : HitRecord K)
  have ht : (hitPlane (planeAhead : Plane K) rayZ HitRecord.uninit).2.t < 1000 := by
    rw [(hitPlane_true _ _ _ h).2]
    simp only [hitPlaneWrite_t, planeT, planeAhead, rayZ, dot, Vec3.sub_x, Vec3.sub_y,
      Vec3.sub_z]
    norm_num
  simp only [hit, sceneOnePlane, List.foldl_nil, List.foldl_cons, hitPlaneStep, h,
    Bool.true_and]
  rw [if_pos (by simpa [rayZ] using ht)]

/-- Instance of C3: the z axis meets the plane `z = 5` of the one-plane scene. -/
theorem hit_closest_witness :
    hit Rat.sqrt (sceneOnePlane : RayTracer ℚ) rayZ HitRecord.uninit =
      (true, (hitPlane planeAhead rayZ HitRecord.uninit).2) ∧
    (rayZ : Ray ℚ).tMin ≤ (hitPlane (planeAhead : Plane ℚ) rayZ HitRecord.uninit).2.t :=
  ⟨hit_sceneOnePlane Rat.sqrt,
    (hit_closest Rat.sqrt sceneOnePlane rayZ HitRecord.uninit _
      (hit_sceneOnePlane Rat.sqrt)).2.2.2.1⟩

/-- C4 fails as stated: on the z axis ray with the default range `[0.001, 1000]`, the plane
`z = 1000` passes hitPlane with `t = 1000 = tMax`, inside the closed range, yet hit on the
scene holding that plane reports no hit. -/
theorem hit_misses_candidate_at_tMax :
    (planeAtTMax : Plane ℚ) ∈ (scenePlaneAtTMax : RayTracer ℚ).planes ∧
    (hitPlane (planeAtTMax : Plane ℚ) rayZ HitRecord.uninit).1 = true ∧
    (rayZ : Ray ℚ).InRange (hitPlane (planeAtTMax : Plane ℚ) rayZ HitRecord.uninit).2.t ∧
    (hit Rat.sqrt (scenePlaneAtTMax : RayTracer ℚ) rayZ HitRecord.uninit).1 = false := by
  have hin : (rayZ : Ray ℚ).InRange (planeT planeAtTMax rayZ) := by
    simp only [Ray.InRange, planeT, planeAtTMax, rayZ, dot, Vec3.sub_x, Vec3.sub_y, Vec3.sub_z]
    norm_num
  have hden : (1 : ℚ) / 1000000 ≤ |dot (planeAtTMax : Plane ℚ).normal (rayZ : Ray ℚ).direction| := by
    simp only [planeAtTMax, rayZ, dot]
    norm_num
  have e : hitPlane (planeAtTMax : Plane ℚ) rayZ HitRecord.uninit =
      (true, hitPlaneWrite planeAtTMax rayZ HitRecord.uninit (planeT planeAtTMax rayZ)) := by
    rw [hitPlane_eq, if_pos ⟨hden, hin⟩]
  have ht : planeT (planeAtTMax : Plane ℚ) rayZ = 1000 := by
    simp only [planeT, planeAtTMax, rayZ, dot, Vec3.sub_x, Vec3.sub_y, Vec3.sub_z]
    norm_num
  refine ⟨by simp [scenePlaneAtTMax], by rw [e], by rw [e]; exact hin, ?_⟩
  simp only [hit, scenePlaneAtTMax, List.foldl_nil, List.foldl_cons, hitPlaneStep, e,
    Bool.true_and, hitPlaneWrite_t, ht]
  simp [rayZ]

/-- C4, amended: hit reports a hit exactly when some sphere, plane or catalog entry passes
its individual test with a `t` strictly below `ray.tMax`. -/
theorem hit_iff_candidate_below_tMax (sqrt : K → K) (tr : RayTracer K) (ray : Ray K)
    (record : HitRecord K) :
    (hit sqrt tr ray record).1 = true ↔
      ((∃ sphere ∈ tr.spheres, (hitSphere sqrt sphere ray HitRecord.uninit).1 = true ∧
          (hitSphere sqrt sphere ray HitRecord.uninit).2.t < ray.tMax) ∨
        (∃ plane ∈ tr.planes, (hitPlane plane ray HitRecord.uninit).1 = true ∧
          (hitPlane plane ray HitRecord.uninit).2.t < ray.tMax) ∨
        (∃ scene i obj, tr.scene = some scene ∧ scene.getObject i = some obj ∧
          (hitMuseumObject sqrt obj ray HitRecord.uninit).1 = true ∧
          (hitMuseumObject sqrt obj ray HitRecord.uninit).2.t < ray.tMax)) := by
  have key : (hit sqrt tr ray record).1 = true ↔
      ∃ c ∈ candidates sqrt tr ray, c.t < ray.tMax := by
    rcases hit_cases sqrt tr ray record with ⟨e, hall⟩ | ⟨c, e, hlt, _, pre, post, hsplit, _⟩
    · rw [e]
      constructor
      · intro h; exact absurd h (by simp)
      · rintro ⟨c, hc, hlt⟩
        exact absurd hlt (not_lt.mpr (hall c hc))
    · rw [e]
      refine ⟨fun _ => ⟨c, ?_, hlt⟩, fun _ => rfl⟩
      rw [hsplit]; exact List.mem_append_right _ (List.mem_cons_self _ _)
  rw [key]
  constructor
  · rintro ⟨c, hc, hlt⟩
    rcases (mem_candidates sqrt tr ray c).1 hc with
      ⟨s, hs, e⟩ | ⟨p, hp, e⟩ | ⟨sc, i, obj, c0, hsc, hobj, e, hc0⟩
    · exact Or.inl ⟨s, hs, by rw [e], by rw [e]; exact hlt⟩
    · exact Or.inr (Or.inl ⟨p, hp, by rw [e], by rw [e]; exact hlt⟩)
    · refine Or.inr (Or.inr ⟨sc, i, obj, hsc, hobj, by rw [e], ?_⟩)
      rw [e]; rw [hc0] at hlt; exact hlt
  · rintro (⟨s, hs, hok, hlt⟩ | ⟨p, hp, hok, hlt⟩ | ⟨sc, i, obj, hsc, hobj, hok, hlt⟩)
    · exact ⟨_, (mem_candidates sqrt tr ray _).2 (Or.inl ⟨s, hs, Prod.ext hok rfl⟩), hlt⟩
    · exact ⟨_, (mem_candidates sqrt tr ray _).2
        (Or.inr (Or.inl ⟨p, hp, Prod.ext hok rfl⟩)), hlt⟩
    · exact ⟨{ (hitMuseumObject sqrt obj ray HitRecord.uninit).2 with
          objectIndex := castInt i },
        (mem_candidates sqrt tr ray _).2
          (Or.inr (Or.inr ⟨sc, i, obj, _, hsc, hobj, Prod.ext hok rfl, rfl⟩)), hlt⟩

/-- A successful catalog test by a ray of nonzero direction writes a point at distance `3/2`
from the position of the entry (exact square root). -/
lemma hitMuseumObject_on_sphere {sqrt : K → K} (hs : IsSqrt sqrt) (obj : MuseumObject K)
    (ray : Ray K) (record : HitRecord K) (ha : 0 < quadA ray)
    (h : (hitMuseumObject sqrt obj ray record).1 = true) :
    dot ((hitMuseumObject sqrt obj ray record).2.point - obj.position)
        ((hitMuseumObject sqrt obj ray record).2.point - obj.position) = 3 / 2 * (3 / 2) := by
  obtain ⟨hd, hc⟩ := hitMuseumObject_true sqrt obj ray record h
  rcases hc with ⟨_, e⟩ | ⟨_, _, e⟩
  · rw [e]
    exact dist_at_root hs _ _ ray ha hd _ (Or.inr rfl)
  · rw [e]
    exact dist_at_root hs _ _ ray ha hd _ (Or.inl rfl)

/-- The orientation of the normal where no divisor is zero: for a ray of nonzero direction,
an exact square root and a scene whose spheres have a nonzero radius, the normal of the
record that hit returns opposes the ray, `dot(record.normal, ray.direction) <= 0`, whether the
closest surface is a sphere, a plane or a catalog bounding sphere; `frontFace` is true exactly
when the unflipped geometric normal `n` of that surface (`(point - center) / radius` with
`radius` not zero, `plane.normal`, `normalize(point - position)` with `point - position` of
length `3/2`) has a strictly negative dot product with `ray.direction`, and the returned
normal is `n` then and `-n` otherwise. -/
theorem hit_normal_opposes_ray (sqrt : K → K) (hs : IsSqrt sqrt) (tr : RayTracer K)
    (ray : Ray K) (record rec : HitRecord K) (ha : 0 < quadA ray)
    (hr : ∀ s ∈ tr.spheres, s.radius ≠ 0)
    (h : hit sqrt tr ray record = (true, rec)) :
    dot rec.normal ray.direction ≤ 0 ∧
    ∃ n : Vec3 K,
      ((∃ sphere ∈ tr.spheres, hitSphere sqrt sphere ray HitRecord.uninit = (true, rec) ∧
          sphere.radius ≠ 0 ∧ n = (rec.point - sphere.center).divS sphere.radius) ∨
        (∃ plane ∈ tr.planes, hitPlane plane ray HitRecord.uninit = (true, rec) ∧
          n = plane.normal) ∨
        (∃ scene i obj c0, tr.scene = some scene ∧ scene.getObject i = some obj ∧
          hitMuseumObject sqrt obj ray HitRecord.uninit = (true, c0) ∧
          rec = { c0 with objectIndex := castInt i } ∧
          dot (rec.point - obj.position) (rec.point - obj.position) = 3 / 2 * (3 / 2) ∧
          n = normalize sqrt (rec.point - obj.position))) ∧
      (rec.frontFace = true ↔ dot n ray.direction < 0) ∧
      rec.normal = (if rec.frontFace then n else -n) := by
  have hmem : rec ∈ candidates sqrt tr ray := by
    rcases hit_cases sqrt tr ray record with ⟨e, _⟩ | ⟨c, e, _, _, pre, post, hsplit, _⟩
    · rw [e] at h
      exact absurd (congrArg Prod.fst h) (by simp)
    · rw [e] at h
      have hc : c = rec := congrArg Prod.snd h
      rw [← hc, hsplit]
      exact List.mem_append_right _ (List.mem_cons_self _ _)
  rcases (mem_candidates sqrt tr ray rec).1 hmem with
    ⟨s, hs1, e⟩ | ⟨p, hp, e⟩ | ⟨sc, i, obj, c0, hsc, hobj, e, hc0⟩
  · have hw : rec = hitSphereWrite s ray HitRecord.uninit rec.t := by
      rcases (hitSphere_true sqrt s ray HitRecord.uninit (by rw [e])).2 with
        ⟨_, e2⟩ | ⟨_, _, e2⟩ <;>
      · rw [e] at e2
        have := congrArg Prod.snd e2
        simp only at this
        rw [this, hitSphereWrite_t]
    have hf := hitSphereWrite_frontFace s ray HitRecord.uninit rec.t
    have hn := hitSphereWrite_normal s ray HitRecord.uninit rec.t
    have hp := hitSphereWrite_point s ray HitRecord.uninit rec.t
    rw [← hw] at hf hn hp
    rw [← hp] at hf hn
    obtain ⟨a, b, c⟩ := faceNormal_spec ray.direction _ rec hf hn
    exact ⟨a, _, Or.inl ⟨s, hs1, e, hr s hs1, rfl⟩, b, c⟩
  · have hw : rec = hitPlaneWrite p ray HitRecord.uninit rec.t := by
      have e2 := (hitPlane_true p ray HitRecord.uninit (by rw [e])).2
      rw [e] at e2
      have := congrArg Prod.snd e2
      simp only at this
      rw [this, hitPlaneWrite_t]
    have hf := hitPlaneWrite_frontFace p ray HitRecord.uninit rec.t
    have hn := hitPlaneWrite_normal p ray HitRecord.uninit rec.t
    rw [← hw] at hf hn
    obtain ⟨a, b, c⟩ := faceNormal_spec ray.direction _ rec hf hn
    exact ⟨a, _, Or.inr (Or.inl ⟨p, hp, e, rfl⟩), b, c⟩
  · have hw : c0 = hitMuseumObjectWrite sqrt obj ray HitRecord.uninit c0.t := by
      rcases (hitMuseumObject_true sqrt obj ray HitRecord.uninit (by rw [e])).2 with
        ⟨_, e2⟩ | ⟨_, _, e2⟩ <;>
      · rw [e] at e2
        have := congrArg Prod.snd e2
        simp only at this
        rw [this, hitMuseumObjectWrite_t]
    have hf := hitMuseumObjectWrite_frontFace sqrt obj ray HitRecord.uninit c0.t
    have hn := hitMuseumObjectWrite_normal sqrt obj ray HitRecord.uninit c0.t
    have hp := hitMuseumObjectWrite_point sqrt obj ray HitRecord.uninit c0.t
    rw [← hw] at hf hn hp
    rw [← hp] at hf hn
    have hf2 : rec.frontFace = c0.frontFace := by rw [hc0]
    have hn2 : rec.normal = c0.normal := by rw [hc0]
    have hp2 : rec.point = c0.point := by rw [hc0]
    have hdist := hitMuseumObject_on_sphere hs obj ray HitRecord.uninit ha (by rw [e])
    rw [e] at hdist
    simp only at hdist
    rw [← hp2] at hdist
    rw [← hf2, ← hp2] at hf
    rw [← hn2, ← hp2] at hn
    obtain ⟨a, b, c⟩ := faceNormal_spec ray.direction _ rec hf hn
    exact ⟨a, _, Or.inr (Or.inr ⟨sc, i, obj, c0, hsc, hobj, e, hc0, hdist, rfl⟩), b, c⟩

/-- Instance over the reals: the hit of the z axis ray on the plane `z = 5` of the one-plane
scene. -/
theorem hit_normal_opposes_ray_witness :
    IsSqrt Real.sqrt ∧ 0 < quadA (rayZ : Ray ℝ) ∧
    (∀ s ∈ (sceneOnePlane : RayTracer ℝ).spheres, s.radius ≠ 0) ∧
    hit Real.sqrt (sceneOnePlane : RayTracer ℝ) rayZ HitRecord.uninit =
      (true, (hitPlane planeAhead rayZ HitRecord.uninit).2) ∧
    dot (hitPlane (planeAhead : Plane ℝ) rayZ HitRecord.uninit).2.normal
      (rayZ : Ray ℝ).direction ≤ 0 :=
  have ha : 0 < quadA (rayZ : Ray ℝ) := by rw [quadA_rayZ]; exact one_pos
  have hr : ∀ s ∈ (sceneOnePlane : RayTracer ℝ).spheres, s.radius ≠ 0 := by
    intro s hs
    simp [sceneOnePlane] at hs
  ⟨isSqrt_real, ha, hr, hit_sceneOnePlane Real.sqrt,
    (hit_normal_opposes_ray Real.sqrt isSqrt_real sceneOnePlane rayZ HitRecord.uninit _ ha hr
      (hit_sceneOnePlane Real.sqrt)).1⟩

/-- C10: hit returns the closest candidate and, among candidates of equal `t`, the first
one in scan order (spheres in insertion order, then planes, then catalog entries by index):
it agrees with hitSpec; a candidate below `tMax` that is strictly closer than every candidate
scanned before it and at least as close as every candidate scanned after it is the one
returned; the returned record is strictly closer than every candidate scanned before it; and
when a sphere or plane candidate is as close as the returned record, the returned record is a
sphere or plane record, not a catalog one. -/
theorem hit_first_found_wins (sqrt : K → K) (tr : RayTracer K) (ray : Ray K)
    (record : HitRecord K) :
    hit sqrt tr ray record = hitSpec sqrt tr ray record ∧
    (∀ pre c post, candidates sqrt tr ray = pre ++ c :: post → c.t < ray.tMax →
      (∀ a ∈ pre, c.t < a.t) → (∀ b ∈ post, c.t ≤ b.t) →
      hit sqrt tr ray record = (true, c)) ∧
    (∀ rec, hit sqrt tr ray record = (true, rec) →
      ∃ pre post, candidates sqrt tr ray = pre ++ rec :: post ∧ ∀ a ∈ pre, rec.t < a.t) ∧
    (∀ rec, hit sqrt tr ray record = (true, rec) →
      (∃ c1 ∈ sphereCandidates sqrt tr ray ++ planeCandidates tr ray, c1.t ≤ rec.t) →
      rec ∈ sphereCandidates sqrt tr ray ++ planeCandidates tr ray) := by
  have hwin : ∀ rec, hit sqrt tr ray record = (true, rec) →
      ∃ pre post, candidates sqrt tr ray = pre ++ rec :: post ∧ ∀ a ∈ pre, rec.t < a.t := by
    intro rec h
    rcases hit_cases sqrt tr ray record with ⟨e, _⟩ | ⟨c, e, _, _, pre, post, hsplit, hpre⟩
    · rw [e] at h
      exact absurd (congrArg Prod.fst h) (by simp)
    · rw [e] at h
      have hc : c = rec := congrArg Prod.snd h
      subst hc
      exact ⟨pre, post, hsplit, hpre⟩
  refine ⟨hit_eq_hitSpec sqrt tr ray record, ?_, hwin, ?_⟩
  · intro pre c post hsplit hlt hpre hpost
    rw [hit_eq_fold, hsplit, foldl_pick_some pre post c _ hlt hpre hpost]
  · rintro rec h ⟨c1, hc1, hle⟩
    obtain ⟨pre, post, hsplit, hpre⟩ := hwin rec h
    unfold candidates at hsplit
    rcases List.append_eq_append_iff.1 hsplit with ⟨a', h1, _⟩ | ⟨c', h1, h2⟩
    · exfalso
      have : c1 ∈ pre := by rw [h1]; exact List.mem_append_left _ hc1
      exact absurd (hpre c1 this) (not_lt.mpr hle)
    · cases c' with
      | nil =>
        exfalso
        rw [List.append_nil] at h1
        rw [h1] at hc1
        exact absurd (hpre c1 hc1) (not_lt.mpr hle)
      | cons x xs =>
        rw [List.cons_append] at h2
        have hx : rec = x := (List.cons.inj h2).1
        rw [h1, hx]
        exact List.mem_append_right _ (List.mem_cons_self _ _)

lemma hitSphere_sphereAheadRed {sqrt : K → K} (hs : IsSqrt sqrt) (record : HitRecord K) :
    (hitSphere sqrt sphereAheadRed rayZ record).1 = true ∧
    (hitSphere sqrt sphereAheadRed rayZ record).2.t = 4 := by
  have hd : ¬ quadDisc (sphereAheadRed : Sphere K).center (sphereAheadRed : Sphere K).radius
      rayZ < 0 := by
    rw [show quadDisc (sphereAheadRed : Sphere K).center (sphereAheadRed : Sphere K).radius
      rayZ = 2 * 2 from quadDisc_sphereAhead]
    norm_num
  have hn : rootNear sqrt (sphereAheadRed : Sphere K).center (sphereAheadRed : Sphere K).radius
      rayZ = 4 := rootNear_sphereAhead hs
  have hin : (rayZ : Ray K).InRange (rootNear sqrt (sphereAheadRed : Sphere K).center
      (sphereAheadRed : Sphere K).radius rayZ) := by
    rw [hn]
    constructor <;> simp only [rayZ] <;> norm_num
  rw [hitSphere_eq, if_neg hd, if_pos hin]
  exact ⟨rfl, hn⟩

lemma hitSphere_sphereAhead_t {sqrt : K → K} (hs : IsSqrt sqrt) (record : HitRecord K) :
    (hitSphere sqrt sphereAhead rayZ record).2.t = 4 := by
  have h := hitSphere_sphereAhead hs record
  rcases (hitSphere_true sqrt sphereAhead rayZ record h).2 with ⟨_, e⟩ | ⟨h1, _, _⟩
  · rw [e]; exact rootNear_sphereAhead hs
  · exfalso
    apply h1
    rw [rootNear_sphereAhead hs]
    constructor <;> simp only [rayZ] <;> norm_num

lemma candidates_sceneTwoSpheres {sqrt : K → K} (hs : IsSqrt sqrt) :
    candidates sqrt (sceneTwoSpheres : RayTracer K) rayZ =
      [] ++ (hitSphere sqrt sphereAhead rayZ HitRecord.uninit).2 ::
        [(hitSphere sqrt sphereAheadRed rayZ HitRecord.uninit).2] := by
  simp [candidates, sphereCandidates, planeCandidates, objectCandidates, sceneTwoSpheres,
    written, hitSphere_sphereAhead hs, (hitSphere_sphereAheadRed hs _).1]

/-- Instance of C10 over the reals: two spheres of identical geometry tie at `t = 4`; hit
returns the record of the one added first, with its albedo and metallic value. -/
theorem hit_first_found_wins_witness :
    (hitSphere Real.sqrt sphereAhead rayZ HitRecord.uninit).2.t =
      (hitSphere Real.sqrt sphereAheadRed rayZ HitRecord.uninit).2.t ∧
    hit Real.sqrt sceneTwoSpheres rayZ HitRecord.uninit =
      (true, (hitSphere Real.sqrt sphereAhead rayZ HitRecord.uninit).2) ∧
    (hit Real.sqrt sceneTwoSpheres rayZ HitRecord.uninit).2.color =
      (RayTracingMaterial.default : RayTracingMaterial ℝ).albedo :=
  have ht1 := hitSphere_sphereAhead_t isSqrt_real (HitRecord.uninit : HitRecord ℝ)
  have ht2 := (hitSphere_sphereAheadRed isSqrt_real (HitRecord.uninit : HitRecord ℝ)).2
  have h := (hit_first_found_wins Real.sqrt sceneTwoSpheres rayZ HitRecord.uninit).2.1 []
    (hitSphere Real.sqrt sphereAhead rayZ HitRecord.uninit).2
    [(hitSphere Real.sqrt sphereAheadRed rayZ HitRecord.uninit).2]
    (candidates_sceneTwoSpheres isSqrt_real)
    (by rw [ht1]; norm_num [rayZ])
    (by simp)
    (by simp [ht1, ht2])
  ⟨by rw [ht1, ht2], h, by
    rw [h]
    rcases (hitSphere_true Real.sqrt sphereAhead rayZ HitRecord.uninit
      (hitSphere_sphereAhead isSqrt_real _)).2 with ⟨_, e⟩ | ⟨_, _, e⟩ <;>
    · rw [e]; rfl⟩

/-! ### The recursion of traceRay -/

lemma calculateReflection_congr (sqrt : K → K)
    (trace1 trace2 : Ray K → Int → Rng K → Option (Vec3 K × Rng K)) (ray : Ray K)
    (h : HitRecord K) (depth : Int) (g : Rng K)
    (ht : ∀ r g1, trace1 r (depth + 1) g1 = trace2 r (depth + 1) g1) :
    calculateReflection sqrt trace1 ray h depth g =
      calculateReflection sqrt trace2 ray h depth g := by
  unfold calculateReflection
  simp only [ht]

lemma calculateRefraction_congr (sqrt : K → K)
    (trace1 trace2 : Ray K → Int → Rng K → Option (Vec3 K × Rng K)) (ray : Ray K)
    (h : HitRecord K) (depth : Int) (g : Rng K)
    (ht : ∀ r g1, trace1 r (depth + 1) g1 = trace2 r (depth + 1) g1) :
    calculateRefraction sqrt trace1 ray h depth g =
      calculateRefraction sqrt trace2 ray h depth g := by
  unfold calculateRefraction
  simp only [ht]

lemma giStep_congr (sqrt : K → K)
    (trace1 trace2 : Ray K → Int → Rng K → Option (Vec3 K × Rng K))
    (h : HitRecord K) (depth : Int)
    (ht : ∀ r g1, trace1 r (depth + 1) g1 = trace2 r (depth + 1) g1) :
    giStep sqrt trace1 h depth = giStep sqrt trace2 h depth := by
  funext acc
  unfold giStep
  simp only [ht]

lemma calculateGlobalIllumination_congr (sqrt : K → K) (tr : RayTracer K)
    (trace1 trace2 : Ray K → Int → Rng K → Option (Vec3 K × Rng K))
    (h : HitRecord K) (depth : Int) (g : Rng K)
    (ht : ∀ r g1, trace1 r (depth + 1) g1 = trace2 r (depth + 1) g1) :
    calculateGlobalIllumination sqrt tr trace1 h depth g =
      calculateGlobalIllumination sqrt tr trace2 h depth g := by
  unfold calculateGlobalIllumination
  rw [giStep_congr sqrt trace1 trace2 h depth ht]

lemma shadeHit_congr (sqrt : K → K) (tr : RayTracer K)
    (trace1 trace2 : Ray K → Int → Rng K → Option (Vec3 K × Rng K)) (ray : Ray K)
    (record : HitRecord K) (depth : Int) (g : Rng K)
    (ht : ∀ r g1, trace1 r (depth + 1) g1 = trace2 r (depth + 1) g1) :
    shadeHit sqrt tr trace1 ray record depth g = shadeHit sqrt tr trace2 ray record depth g := by
  unfold shadeHit
  simp only [calculateReflection_congr sqrt trace1 trace2 ray record depth _ ht,
    calculateRefraction_congr sqrt trace1 trace2 ray record depth _ ht,
    calculateGlobalIllumination_congr sqrt tr trace1 trace2 record depth _ ht]

/-- Below the depth cutoff, on a hit, traceRay is the body `shadeHit` whose recursive calls
are calls of traceRay itself. -/
lemma traceRay_hit (sqrt : K → K) (tr : RayTracer K) (ray : Ray K) (depth : Int) (g : Rng K)
    (rec : HitRecord K) (hd : depth < tr.maxDepth)
    (hh : hit sqrt tr ray HitRecord.uninit = (true, rec)) :
    traceRay sqrt tr ray depth g = shadeHit sqrt tr (traceRay sqrt tr) ray rec depth g := by
  rw [traceRay_unfold sqrt tr ray depth g hd, hh]
  simp only [if_true]
  apply shadeHit_congr
  intro r g1
  unfold traceRay
  congr 1
  omega

@[simp] lemma hitPlaneWrite_color (plane : Plane K) (ray : Ray K) (record : HitRecord K)
    (t : K) : (hitPlaneWrite plane ray record t).color = plane.material.albedo := rfl

@[simp] lemma hitPlaneWrite_reflectance (plane : Plane K) (ray : Ray K) (record : HitRecord K)
    (t : K) : (hitPlaneWrite plane ray record t).reflectance = plane.material.metallic := rfl

@[simp] lemma hitPlaneWrite_transparency (plane : Plane K) (ray : Ray K)
    (record : HitRecord K) (t : K) :
    (hitPlaneWrite plane ray record t).transparency = plane.material.transparency := rfl

/-- The shading of a hit that has neither reflectance nor transparency, without global
illumination: the local illumination, and no draw from the random source. -/
lemma shadeHit_local (sqrt : K → K) (tr : RayTracer K)
    (trace : Ray K → Int → Rng K → Option (Vec3 K × Rng K)) (ray : Ray K)
    (record : HitRecord K) (depth : Int) (g : Rng K)
    (hgi : tr.globalIllumination = false) (hr : record.reflectance ≤ 0)
    (ht : record.transparency ≤ 0) :
    shadeHit sqrt tr trace ray record depth g = some (calculateLighting sqrt tr record, g) := by
  unfold shadeHit
  simp [hgi, not_lt.mpr hr, not_lt.mpr ht]

/-- C14: with an empty light list, global illumination disabled and `depth < maxDepth`, a
ray whose closest hit has reflectance 0 and transparency 0 is traced to exactly
`hit.color * 0.1`, the random source being left untouched. -/
theorem traceRay_ambient_only (sqrt : K → K) (tr : RayTracer K) (ray : Ray K) (depth : Int)
    (g : Rng K) (rec : HitRecord K) (hd : depth < tr.maxDepth) (hl : tr.lights = [])
    (hgi : tr.globalIllumination = false)
    (hh : hit sqrt tr ray HitRecord.uninit = (true, rec))
    (hr : rec.reflectance = 0) (ht : rec.transparency = 0) :
    traceRay sqrt tr ray depth g = some (rec.color.scale (1 / 10), g) := by
  rw [traceRay_hit sqrt tr ray depth g rec hd hh,
    shadeHit_local sqrt tr _ ray rec depth g hgi hr.le ht.le, calculateLighting, hl]
  rfl

lemma hit_sceneOnePlane_fields (record : HitRecord K) :
    (hitPlane (planeAhead : Plane K) rayZ record).2.reflectance = 0 ∧
    (hitPlane (planeAhead : Plane K) rayZ record).2.transparency = 0 ∧
    (hitPlane (planeAhead : Plane K) rayZ record).2.color = ⟨8 / 10, 8 / 10, 8 / 10⟩ := by
  rw [(hitPlane_true _ _ _ (hitPlane_planeAhead record)).2]
  exact ⟨rfl, rfl, rfl⟩

/-- Instance of C14: the one-plane scene has no light; the z axis ray gets a tenth of the
default albedo `0.8`. -/
theorem traceRay_ambient_only_witness :
    (0 : Int) < (sceneOnePlane : RayTracer ℚ).maxDepth ∧
    (sceneOnePlane : RayTracer ℚ).lights = [] ∧
    (sceneOnePlane : RayTracer ℚ).globalIllumination = false ∧
    hit Rat.sqrt (sceneOnePlane : RayTracer ℚ) rayZ HitRecord.uninit =
      (true, (hitPlane planeAhead rayZ HitRecord.uninit).2) ∧
    traceRay Rat.sqrt (sceneOnePlane : RayTracer ℚ) rayZ 0 ⟨[], []⟩ =
      some ((hitPlane (planeAhead : Plane ℚ) rayZ HitRecord.uninit).2.color.scale (1 / 10),
        ⟨[], []⟩) :=
  ⟨by decide, rfl, rfl, hit_sceneOnePlane Rat.sqrt,
    traceRay_ambient_only Rat.sqrt sceneOnePlane rayZ 0 ⟨[], []⟩ _ (by decide) rfl rfl
      (hit_sceneOnePlane Rat.sqrt) (hit_sceneOnePlane_fields _).1
      (hit_sceneOnePlane_fields _).2.1⟩

/-- The stages of the body of traceRay, each one given by its outcome: the color and the
random source after the reflection stage, after the refraction stage and after the
global-illumination stage. -/
lemma shadeHit_stages (sqrt : K → K) (tr : RayTracer K)
    (trace : Ray K → Int → Rng K → Option (Vec3 K × Rng K)) (ray : Ray K)
    (rec : HitRecord K) (depth : Int) (g g1 g2 g3 : Rng K) (c1 c2 c3 : Vec3 K)
    (h1 : if rec.reflectance > 0 then
        ∃ R, calculateReflection sqrt trace ray rec depth g = some (R, g1) ∧
          c1 = mix (calculateLighting sqrt tr rec) R rec.reflectance
      else c1 = calculateLighting sqrt tr rec ∧ g1 = g)
    (h2 : if rec.transparency > 0 then
        ∃ T, calculateRefraction sqrt trace ray rec depth g1 = some (T, g2) ∧
          c2 = mix c1 T rec.transparency
      else c2 = c1 ∧ g2 = g1)
    (h3 : if tr.globalIllumination = true then
        ∃ G, calculateGlobalIllumination sqrt tr trace rec depth g2 = some (G, g3) ∧
          c3 = c2 + G.scale (3 / 10)
      else c3 = c2 ∧ g3 = g2) :
    shadeHit sqrt tr trace ray rec depth g = some (c3, g3) := by
  unfold shadeHit
  by_cases hr : rec.reflectance > 0
  · rw [if_pos hr] at h1
    obtain ⟨R, e1, rfl⟩ := h1
    simp only [hr, if_true, e1]
    by_cases ht : rec.transparency > 0
    · rw [if_pos ht] at h2
      obtain ⟨T, e2, rfl⟩ := h2
      simp only [ht, if_true, e2]
      by_cases hg : tr.globalIllumination = true
      · rw [if_pos hg] at h3
        obtain ⟨G, e3, rfl⟩ := h3
        simp only [hg, if_true, e3]
      · rw [if_neg hg] at h3
        obtain ⟨rfl, rfl⟩ := h3
        simp only [hg, if_false, Bool.false_eq_true]
    · rw [if_neg ht] at h2
      obtain ⟨rfl, rfl⟩ := h2
      simp only [ht, if_false]
      by_cases hg : tr.globalIllumination = true
      · rw [if_pos hg] at h3
        obtain ⟨G, e3, rfl⟩ := h3
        simp only [hg, if_true, e3]
      · rw [if_neg hg] at h3
        obtain ⟨rfl, rfl⟩ := h3
        simp only [hg, if_false, Bool.false_eq_true]
  · rw [if_neg hr] at h1
    obtain ⟨rfl, rfl⟩ := h1
    simp only [hr, if_false]
    by_cases ht : rec.transparency > 0
    · rw [if_pos ht] at h2
      obtain ⟨T, e2, rfl⟩ := h2
      simp only [ht, if_true, e2]
      by_cases hg : tr.globalIllumination = true
      · rw [if_pos hg] at h3
        obtain ⟨G, e3, rfl⟩ := h3
        simp only [hg, if_true, e3]
      · rw [if_neg hg] at h3
        obtain ⟨rfl, rfl⟩ := h3
        simp only [hg, if_false, Bool.false_eq_true]
    · rw [if_neg ht] at h2
      obtain ⟨rfl, rfl⟩ := h2
      simp only [ht, if_false]
      by_cases hg : tr.globalIllumination = true
      · rw [if_pos hg] at h3
        obtain ⟨G, e3, rfl⟩ := h3
        simp only [hg, if_true, e3]
      · rw [if_neg hg] at h3
        obtain ⟨rfl, rfl⟩ := h3
        simp only [hg, if_false, Bool.false_eq_true]

/-- C16: on a hit at `depth < maxDepth`, traceRay composes local shading, reflection,
refraction and global illumination in that order, each stage blending against the color
accumulated so far and drawing from the random source left by the stage before:
with `L = calculateLighting(hit)`, `R`, `T`, `G` the values of calculateReflection,
calculateRefraction and calculateGlobalIllumination (whose recursive calls are calls of
traceRay), the result is `mix(mix(L, R, reflectance), T, transparency) + 0.3 * G`; a stage
is skipped, leaving color and random source as they are, when `reflectance <= 0`,
`transparency <= 0` or global illumination is disabled. -/
theorem traceRay_composition (sqrt : K → K) (tr : RayTracer K) (ray : Ray K) (depth : Int)
    (g : Rng K) (rec : HitRecord K) (hd : depth < tr.maxDepth)
    (hh : hit sqrt tr ray HitRecord.uninit = (true, rec)) :
    (∀ (g1 g2 g3 : Rng K) (c1 c2 c3 : Vec3 K),
      (if rec.reflectance > 0 then
        ∃ R, calculateReflection sqrt (traceRay sqrt tr) ray rec depth g = some (R, g1) ∧
          c1 = mix (calculateLighting sqrt tr rec) R rec.reflectance
       else c1 = calculateLighting sqrt tr rec ∧ g1 = g) →
      (if rec.transparency > 0 then
        ∃ T, calculateRefraction sqrt (traceRay sqrt tr) ray rec depth g1 = some (T, g2) ∧
          c2 = mix c1 T rec.transparency
       else c2 = c1 ∧ g2 = g1) →
      (if tr.globalIllumination = true then
        ∃ G, calculateGlobalIllumination sqrt tr (traceRay sqrt tr) rec depth g2 =
            some (G, g3) ∧
          c3 = c2 + G.scale (3 / 10)
       else c3 = c2 ∧ g3 = g2) →
      traceRay sqrt tr ray depth g = some (c3, g3)) ∧
    (∀ (g1 g2 g3 : Rng K) (R T G : Vec3 K),
      rec.reflectance > 0 → rec.transparency > 0 → tr.globalIllumination = true →
      calculateReflection sqrt (traceRay sqrt tr) ray rec depth g = some (R, g1) →
      calculateRefraction sqrt (traceRay sqrt tr) ray rec depth g1 = some (T, g2) →
      calculateGlobalIllumination sqrt tr (traceRay sqrt tr) rec depth g2 = some (G, g3) →
      traceRay sqrt tr ray depth g =
        some (mix (mix (calculateLighting sqrt tr rec) R rec.reflectance) T rec.transparency +
          G.scale (3 / 10), g3)) := by
  have key : ∀ (g1 g2 g3 : Rng K) (c1 c2 c3 : Vec3 K),
      (if rec.reflectance > 0 then
        ∃ R, calculateReflection sqrt (traceRay sqrt tr) ray rec depth g = some (R, g1) ∧
          c1 = mix (calculateLighting sqrt tr rec) R rec.reflectance
       else c1 = calculateLighting sqrt tr rec ∧ g1 = g) →
      (if rec.transparency > 0 then
        ∃ T, calculateRefraction sqrt (traceRay sqrt tr) ray rec depth g1 = some (T, g2) ∧
          c2 = mix c1 T rec.transparency
       else c2 = c1 ∧ g2 = g1) →
      (if tr.globalIllumination = true then
        ∃ G, calculateGlobalIllumination sqrt tr (traceRay sqrt tr) rec depth g2 =
            some (G, g3) ∧
          c3 = c2 + G.scale (3 / 10)
       else c3 = c2 ∧ g3 = g2) →
      traceRay sqrt tr ray depth g = some (c3, g3) := by
    intro g1 g2 g3 c1 c2 c3 h1 h2 h3
    rw [traceRay_hit sqrt tr ray depth g rec hd hh]
    exact shadeHit_stages sqrt tr _ ray rec depth g g1 g2 g3 c1 c2 c3 h1 h2 h3
  refine ⟨key, ?_⟩
  intro g1 g2 g3 R T G hr ht hg e1 e2 e3
  apply key g1 g2 g3 _ _ _
  · rw [if_pos hr]; exact ⟨R, e1, rfl⟩
  · rw [if_pos ht]; exact ⟨T, e2, rfl⟩
  · rw [if_pos hg]; exact ⟨G, e3, rfl⟩

/-- C15: with global illumination disabled and `depth < maxDepth`, a ray whose closest hit
has transparency 0 and reflectance `r >= 0` is traced to
`localShade * (1 - r) + reflectionColor * r`, where `localShade = calculateLighting(hit)`
and `reflectionColor` is the value of calculateReflection, a recursive call of traceRay at
`depth + 1` from the hit point along the reflection direction; for `r = 0` no reflection is
traced and the result is `localShade`, which is what the formula gives for any
`reflectionColor`. -/
theorem traceRay_energy_weighting (sqrt : K → K) (tr : RayTracer K) (ray : Ray K)
    (depth : Int) (g : Rng K) (rec : HitRecord K) (hd : depth < tr.maxDepth)
    (hgi : tr.globalIllumination = false)
    (hh : hit sqrt tr ray HitRecord.uninit = (true, rec))
    (ht : rec.transparency = 0) :
    (0 < rec.reflectance → ∀ (R : Vec3 K) (g1 : Rng K),
      calculateReflection sqrt (traceRay sqrt tr) ray rec depth g = some (R, g1) →
      traceRay sqrt tr ray depth g =
        some ((calculateLighting sqrt tr rec).scale (1 - rec.reflectance) +
          R.scale rec.reflectance, g1)) ∧
    (rec.reflectance = 0 →
      traceRay sqrt tr ray depth g = some (calculateLighting sqrt tr rec, g) ∧
      ∀ R : Vec3 K, (calculateLighting sqrt tr rec).scale (1 - rec.reflectance) +
        R.scale rec.reflectance = calculateLighting sqrt tr rec) ∧
    (1 ≤ rec.reflectance →
      calculateReflection sqrt (traceRay sqrt tr) ray rec depth g =
        traceRay sqrt tr (Ray.ctor sqrt rec.point (reflect ray.direction rec.normal))
          (depth + 1) g) ∧
    (rec.reflectance < 1 → ∀ (p : Vec3 K) (g1 : Rng K),
      randomInUnitSphere sqrt g = some (p, g1) →
      calculateReflection sqrt (traceRay sqrt tr) ray rec depth g =
        traceRay sqrt tr (Ray.ctor sqrt rec.point
          (normalize sqrt (reflect ray.direction rec.normal +
            p.scale (1 - rec.reflectance)))) (depth + 1) g1) := by
  have hgi2 : ¬ tr.globalIllumination = true := by rw [hgi]; simp
  have ht2 : ¬ rec.transparency > 0 := by rw [ht]; exact lt_irrefl _
  refine ⟨?_, ?_, ?_, ?_⟩
  · intro hpos R g1 e
    rw [traceRay_hit sqrt tr ray depth g rec hd hh]
    apply shadeHit_stages sqrt tr _ ray rec depth g g1 g1 g1 _ _ _
    · rw [if_pos hpos]; exact ⟨R, e, rfl⟩
    · rw [if_neg ht2]; exact ⟨rfl, rfl⟩
    · rw [if_neg hgi2]; exact ⟨rfl, rfl⟩
  · intro h0
    constructor
    · rw [traceRay_hit sqrt tr ray depth g rec hd hh]
      exact shadeHit_local sqrt tr _ ray rec depth g hgi h0.le ht.le
    · intro R
      rw [h0]
      ext <;> simp
  · intro h1
    unfold calculateReflection
    rw [if_neg (not_lt.mpr h1)]
  · intro h1 p g1 e
    unfold calculateReflection
    rw [if_pos h1, e]

lemma hitPlane_planeMirror :
    hitPlane (planeMirror : Plane K) rayZ HitRecord.uninit = (true, recMirror) := by
  have ht : planeT (planeMirror : Plane K) rayZ = 5 := by
    simp only [planeT, planeMirror, rayZ, dot, Vec3.sub_x, Vec3.sub_y, Vec3.sub_z]
    norm_num
  rw [hitPlane_eq, if_pos, ht]
  · simp only [hitPlaneWrite, HitRecord.setFaceNormal, HitRecord.uninit, planeMirror, rayZ,
      redMetal, RayTracingMaterial.default, recMirror, Ray.at, dot, Prod.mk.injEq, true_and,
      HitRecord.mk.injEq]
    norm_num
    refine ⟨?_, ?_⟩ <;> ext <;> simp
  · rw [ht]
    simp only [Ray.InRange, planeMirror, rayZ, dot]
    norm_num

lemma hit_sceneMirror (sqrt : K → K) :
    hit sqrt (sceneMirror : RayTracer K) rayZ HitRecord.uninit = (true, recMirror) := by
  simp only [hit, sceneMirror, List.foldl_nil, List.foldl_cons, hitPlaneStep,
    hitPlane_planeMirror, Bool.true_and]
  rw [if_pos (by simp only [recMirror, rayZ]; norm_num)]

lemma hit_sceneMirror_back (sqrt : K → K) :
    (hit sqrt (sceneMirror : RayTracer K) rayBack HitRecord.uninit).1 = false := by
  have hm : hitPlane (planeMirror : Plane K) rayBack HitRecord.uninit =
      (false, HitRecord.uninit) := by
    rw [hitPlane_eq, if_neg]
    simp only [Ray.InRange, planeT, planeMirror, rayBack, dot, Vec3.sub_x, Vec3.sub_y,
      Vec3.sub_z]
    norm_num
  simp [hit, sceneMirror, hitPlaneStep, hm]

lemma ctor_rayBack {sqrt : K → K} (hs : IsSqrt sqrt) :
    Ray.ctor sqrt (recMirror : HitRecord K).point
      (reflect (rayZ : Ray K).direction (recMirror : HitRecord K).normal) = rayBack := by
  have hr : reflect (rayZ : Ray K).direction (recMirror : HitRecord K).normal = ⟨0, 0, -1⟩ := by
    simp only [reflect, rayZ, recMirror, dot]
    ext <;> simp
    norm_num
  rw [hr, Ray.ctor, normalize_eq_scale hs _ zero_le_one (by simp [dot])]
  simp only [rayBack, recMirror, Ray.mk.injEq, true_and, and_true]
  ext <;> simp

/-- The value of the reflection stage for the z axis ray on the mirror plane: the
background color, with no draw from the random source. -/
lemma calculateReflection_mirror {sqrt : K → K} (hs : IsSqrt sqrt) (g : Rng K) :
    calculateReflection sqrt (traceRay sqrt sceneMirror) rayZ recMirror 0 g =
      some (⟨1 / 10, 1 / 10, 2 / 10⟩, g) := by
  have h1 : ¬ (recMirror : HitRecord K).reflectance < 1 := by simp [recMirror]
  unfold calculateReflection
  rw [if_neg h1, ctor_rayBack hs,
    traceRay_unfold sqrt sceneMirror rayBack (0 + 1) g
      (show (0 + 1 : Int) < (sceneMirror : RayTracer K).maxDepth by
        simp only [sceneMirror]; norm_num),
    hit_sceneMirror_back]
  simp [sceneMirror]

/-- Instance of C16 over the reals: on the mirror plane only the reflection stage runs, and
the result is `mix(L, background, 1)`. -/
theorem traceRay_composition_witness :
    (0 : Int) < (sceneMirror : RayTracer ℝ).maxDepth ∧
    hit Real.sqrt (sceneMirror : RayTracer ℝ) rayZ HitRecord.uninit = (true, recMirror) ∧
    traceRay Real.sqrt (sceneMirror : RayTracer ℝ) rayZ 0 ⟨[], []⟩ =
      some (mix (calculateLighting Real.sqrt sceneMirror recMirror) ⟨1 / 10, 1 / 10, 2 / 10⟩ 1,
        ⟨[], []⟩) :=
  ⟨by simp [sceneMirror], hit_sceneMirror Real.sqrt,
    (traceRay_composition Real.sqrt sceneMirror rayZ 0 ⟨[], []⟩ recMirror
      (by simp [sceneMirror]) (hit_sceneMirror Real.sqrt)).1 ⟨[], []⟩ ⟨[], []⟩ ⟨[], []⟩
      _ _ _
      (by
        rw [if_pos (by simp [recMirror])]
        exact ⟨_, calculateReflection_mirror isSqrt_real _, rfl⟩)
      (by
        rw [if_neg (by simp [recMirror])]
        exact ⟨rfl, rfl⟩)
      (by
        rw [if_neg (by simp [sceneMirror])]
        exact ⟨rfl, rfl⟩)⟩

/-- Instance of C15 over the reals: the mirror plane has reflectance 1, the reflected ray
misses everything, and the result is `L * (1 - 1) + background * 1`. -/
theorem traceRay_energy_weighting_witness :
    (0 : Int) < (sceneMirror : RayTracer ℝ).maxDepth ∧
    (sceneMirror : RayTracer ℝ).globalIllumination = false ∧
    hit Real.sqrt (sceneMirror : RayTracer ℝ) rayZ HitRecord.uninit = (true, recMirror) ∧
    (recMirror : HitRecord ℝ).transparency = 0 ∧
    0 < (recMirror : HitRecord ℝ).reflectance ∧
    calculateReflection Real.sqrt (traceRay Real.sqrt sceneMirror) rayZ recMirror 0 ⟨[], []⟩ =
      some (⟨1 / 10, 1 / 10, 2 / 10⟩, ⟨[], []⟩) ∧
    traceRay Real.sqrt (sceneMirror : RayTracer ℝ) rayZ 0 ⟨[], []⟩ =
      some ((calculateLighting Real.sqrt sceneMirror recMirror).scale
          (1 - (recMirror : HitRecord ℝ).reflectance) +
        (⟨1 / 10, 1 / 10, 2 / 10⟩ : Vec3 ℝ).scale (recMirror : HitRecord ℝ).reflectance,
        ⟨[], []⟩) :=
  ⟨by simp [sceneMirror], rfl, hit_sceneMirror Real.sqrt, rfl, by simp [recMirror],
    calculateReflection_mirror isSqrt_real _,
    (traceRay_energy_weighting Real.sqrt sceneMirror rayZ 0 ⟨[], []⟩ recMirror
      (by simp [sceneMirror]) rfl (hit_sceneMirror Real.sqrt) rfl).1 (by simp [recMirror])
      _ _ (calculateReflection_mirror isSqrt_real _)⟩

/-! ### Local illumination -/

/-- One iteration of the light loop: nothing for a light in shadow, the diffuse term
otherwise. -/
lemma lightStep_eq (sqrt : K → K) (tr : RayTracer K) (h : HitRecord K) (color : Vec3 K)
    (light : Light K) :
    lightStep sqrt tr h color light =
      if (hit sqrt tr (shadowRay sqrt h light) HitRecord.uninit).1 = true then color
      else color + lightTerm sqrt h light := by
  unfold lightStep
  by_cases hsh : (hit sqrt tr (shadowRay sqrt h light) HitRecord.uninit).1 = true
  · have hsh2 : (hit sqrt tr
        { Ray.ctor sqrt (h.point + h.normal.scale (1 / 1000))
            (normalize sqrt (light.position - h.point)) with
          tMax := length sqrt (light.position - h.point) - 1 / 1000 }
        HitRecord.uninit).1 = true := hsh
    simp only [hsh2, hsh, Bool.not_true, if_true]
    rfl
  · have hsh2 : (hit sqrt tr
        { Ray.ctor sqrt (h.point + h.normal.scale (1 / 1000))
            (normalize sqrt (light.position - h.point)) with
          tMax := length sqrt (light.position - h.point) - 1 / 1000 }
        HitRecord.uninit).1 = false := by simpa [shadowRay] using hsh
    simp only [hsh2, hsh, Bool.not_false, if_true, if_false]
    have hD : (1 : K) + 1 / 10 * length sqrt (light.position - h.point) +
        1 / 100 * length sqrt (light.position - h.point) ^ 2 =
        1 + 1 / 10 * length sqrt (light.position - h.point) +
          1 / 100 * length sqrt (light.position - h.point) *
            length sqrt (light.position - h.point) := by ring
    rw [lightTerm, divS_eq_scale, max_comm 0, hD]
    simp

lemma lighting_fold (sqrt : K → K) (tr : RayTracer K) (h : HitRecord K) :
    ∀ (lights : List (Light K)) (acc : Vec3 K),
      lights.foldl (lightStep sqrt tr h) acc =
        ((lights.filter (fun light =>
            !(hit sqrt tr (shadowRay sqrt h light) HitRecord.uninit).1)).map
          (lightTerm sqrt h)).foldl (fun acc term => acc + term) acc := by
  intro lights
  induction lights with
  | nil => intro acc; rfl
  | cons l ls ih =>
    intro acc
    rw [List.foldl_cons, ih, lightStep_eq]
    by_cases hsh : (hit sqrt tr (shadowRay sqrt h l) HitRecord.uninit).1 = true
    · simp [hsh]
    · simp [hsh]

/-- Normalizing twice is normalizing once, for an exact square root. -/
lemma normalize_normalize {sqrt : K → K} (hs : IsSqrt sqrt) (v : Vec3 K) :
    normalize sqrt (normalize sqrt v) = normalize sqrt v := by
  by_cases hv : v = 0
  · subst hv
    have h0 : normalize sqrt (0 : Vec3 K) = 0 := by
      ext <;> simp [normalize]
    rw [h0, h0]
  · rw [normalize_eq_scale hs (normalize sqrt v) zero_le_one
      (by rw [dot_normalize hs hv, mul_one])]
    ext <;> simp

/-- C12: calculateLighting is `hit.color * 0.1` plus the sum, over exactly the lights whose
shadow ray is not intersected according to hit, of
`hit.color * light.color * light.intensity * max(0, dot(normal, lightDir)) /
(1 + 0.1 * distance + 0.01 * distance^2)`; a light whose shadow ray is intersected adds
nothing.  The shadow ray starts at `hit.point + 0.001 * hit.normal`, has `tMin = 0.001`,
`tMax = distance - 0.001` and, for an exact square root, the direction
`normalize(light.position - hit.point)`. -/
theorem calculateLighting_spec (sqrt : K → K) (tr : RayTracer K) (h : HitRecord K) :
    calculateLighting sqrt tr h = lightingSpec sqrt tr h ∧
    (∀ (light : Light K) (color : Vec3 K),
      (hit sqrt tr (shadowRay sqrt h light) HitRecord.uninit).1 = true →
      lightStep sqrt tr h color light = color) ∧
    (∀ (light : Light K) (color : Vec3 K),
      (hit sqrt tr (shadowRay sqrt h light) HitRecord.uninit).1 = false →
      lightStep sqrt tr h color light = color + lightTerm sqrt h light) ∧
    (∀ light : Light K,
      (shadowRay sqrt h light).origin = h.point + h.normal.scale (1 / 1000) ∧
      (shadowRay sqrt h light).tMin = 1 / 1000 ∧
      (shadowRay sqrt h light).tMax = length sqrt (light.position - h.point) - 1 / 1000 ∧
      (IsSqrt sqrt →
        (shadowRay sqrt h light).direction = normalize sqrt (light.position - h.point))) := by
  refine ⟨?_, ?_, ?_, ?_⟩
  · rw [calculateLighting, lightingSpec]
    exact lighting_fold sqrt tr h tr.lights _
  · intro light color hsh
    rw [lightStep_eq, if_pos hsh]
  · intro light color hsh
    rw [lightStep_eq, if_neg (by rw [hsh]; simp)]
  · intro light
    exact ⟨rfl, rfl, rfl, fun hs => normalize_normalize hs _⟩

/-- Instance of C12: without lights the local illumination is the ambient term. -/
theorem calculateLighting_spec_witness :
    calculateLighting Rat.sqrt (sceneOnePlane : RayTracer ℚ)
        (hitPlane planeAhead rayZ HitRecord.uninit).2 =
      lightingSpec Rat.sqrt (sceneOnePlane : RayTracer ℚ)
        (hitPlane planeAhead rayZ HitRecord.uninit).2 ∧
    lightingSpec Rat.sqrt (sceneOnePlane : RayTracer ℚ)
        (hitPlane planeAhead rayZ HitRecord.uninit).2 =
      (hitPlane (planeAhead : Plane ℚ) rayZ HitRecord.uninit).2.color.scale (1 / 10) :=
  ⟨(calculateLighting_spec Rat.sqrt sceneOnePlane _).1, rfl⟩

/-- A sphere of the scene whose test succeeds below `tMax` makes hit report a hit. -/
lemma hit_true_of_sphere (sqrt : K → K) (tr : RayTracer K) (ray : Ray K)
    (record : HitRecord K) (sphere : Sphere K) (hmem : sphere ∈ tr.spheres)
    (hok : (hitSphere sqrt sphere ray HitRecord.uninit).1 = true)
    (hlt : (hitSphere sqrt sphere ray HitRecord.uninit).2.t < ray.tMax) :
    (hit sqrt tr ray record).1 = true := by
  rcases hit_cases sqrt tr ray record with ⟨_, hall⟩ | ⟨c, e, _⟩
  · exfalso
    have hc := hall _ ((mem_candidates sqrt tr ray _).2
      (Or.inl ⟨sphere, hmem, Prod.ext hok rfl⟩))
    exact absurd hlt (not_lt.mpr hc)
  · rw [e]

/-- An exact square root of a square is the absolute value. -/
lemma IsSqrt.sqrt_mul_self_abs {sqrt : K → K} (hs : IsSqrt sqrt) (a : K) :
    sqrt (a * a) = |a| := by
  rw [← abs_mul_abs_self a]
  exact hs.sqrt_mul_self (abs_nonneg a)

/-- The shadow ray toward a light placed on the normal line at height `hgt > 0` above the
hit point: it runs along the normal. -/
lemma shadowRay_along_normal {sqrt : K → K} (hs : IsSqrt sqrt) (h : HitRecord K)
    (light : Light K) (hgt : K) (hN : dot h.normal h.normal = 1) (hh : 0 < hgt)
    (hl : light.position = h.point + h.normal.scale hgt) :
    shadowRay sqrt h light =
      { origin := h.point + h.normal.scale (1 / 1000), direction := h.normal,
        tMin := 1 / 1000, tMax := hgt - 1 / 1000 } := by
  have hv : light.position - h.point = h.normal.scale hgt := by
    rw [hl]; ext <;> simp
  have hdot : dot (h.normal.scale hgt) (h.normal.scale hgt) = hgt * hgt := by
    have : dot (h.normal.scale hgt) (h.normal.scale hgt) =
        dot h.normal h.normal * (hgt * hgt) := by
      simp only [dot, Vec3.scale_x, Vec3.scale_y, Vec3.scale_z]; ring
    rw [this, hN, one_mul]
  have hn1 : normalize sqrt (h.normal.scale hgt) = h.normal := by
    rw [normalize_eq_scale hs _ hh.le hdot]
    have := hh.ne'
    ext <;> simp <;> field_simp
  have hn2 : normalize sqrt h.normal = h.normal := by
    rw [normalize_eq_scale hs _ zero_le_one (by rw [hN, mul_one])]
    ext <;> simp
  rw [shadowRay, hv, hn1, length_eq_of_dot hs _ hh.le hdot, Ray.ctor, hn2]

/-- A sphere centered on the line `origin + t * direction` of a ray with unit direction, at
parameter `w`: the discriminant is `(2 r)^2` and the roots are `w - |r|` and `w + |r|`. -/
lemma roots_on_axis {sqrt : K → K} (hs : IsSqrt sqrt) (ray : Ray K) (center : Vec3 K)
    (r w : K) (hunit : dot ray.direction ray.direction = 1)
    (hc : center = ray.origin + ray.direction.scale w) :
    quadDisc center r ray = (2 * r) * (2 * r) ∧
    rootNear sqrt center r ray = w - |r| ∧ rootFar sqrt center r ray = w + |r| := by
  have hA : quadA ray = 1 := hunit
  have hB : quadB center ray = -(2 * w) := by
    have : quadB center ray = -(2 * w) * dot ray.direction ray.direction := by
      rw [hc]
      simp only [quadB, dot, Vec3.sub_x, Vec3.sub_y, Vec3.sub_z, Vec3.add_x, Vec3.add_y,
        Vec3.add_z, Vec3.scale_x, Vec3.scale_y, Vec3.scale_z]
      ring
    rw [this, hunit, mul_one]
  have hC : quadC center r ray = w * w - r * r := by
    have : quadC center r ray = w * w * dot ray.direction ray.direction - r * r := by
      rw [hc]
      simp only [quadC, dot, Vec3.sub_x, Vec3.sub_y, Vec3.sub_z, Vec3.add_x, Vec3.add_y,
        Vec3.add_z, Vec3.scale_x, Vec3.scale_y, Vec3.scale_z]
      ring
    rw [this, hunit, mul_one]
  have hdisc : quadDisc center r ray = (2 * r) * (2 * r) := by
    rw [quadDisc, hA, hB, hC]; ring
  have hsq : sqrt (quadDisc center r ray) = 2 * |r| := by
    rw [hdisc, hs.sqrt_mul_self_abs, abs_mul, abs_two]
  refine ⟨hdisc, ?_, ?_⟩
  · rw [rootNear, hsq, hA, hB]; ring
  · rw [rootFar, hsq, hA, hB]; ring

/-- C13: for a hit point `P` with unit normal `N`, a light at `P + h * N` with `h > 0` and a
sphere of the scene centered at `P + s * N` with radius `r`, `s - r >= 0.002` and
`s - r < h`, the shadow ray of that light is intersected according to hit, so the light adds
nothing to calculateLighting, whatever the material of the sphere; with this light as the
only one the result is `hit.color * 0.1`. -/
theorem occluder_shadows_light (sqrt : K → K) (hs : IsSqrt sqrt) (tr : RayTracer K)
    (h : HitRecord K) (light : Light K) (sphere : Sphere K) (hgt s : K)
    (hN : dot h.normal h.normal = 1) (hh : 0 < hgt)
    (hl : light.position = h.point + h.normal.scale hgt)
    (hmem : sphere ∈ tr.spheres) (hc : sphere.center = h.point + h.normal.scale s)
    (h1 : 2 / 1000 ≤ s - sphere.radius) (h2 : s - sphere.radius < hgt) :
    (hit sqrt tr (shadowRay sqrt h light) HitRecord.uninit).1 = true ∧
    (∀ color : Vec3 K, lightStep sqrt tr h color light = color) ∧
    (tr.lights = [light] → calculateLighting sqrt tr h = h.color.scale (1 / 10)) := by
  have hray := shadowRay_along_normal hs h light hgt hN hh hl
  have hcen : sphere.center =
      (shadowRay sqrt h light).origin +
        (shadowRay sqrt h light).direction.scale (s - 1 / 1000) := by
    rw [hray, hc]
    ext <;> simp <;> ring
  have hunit : dot (shadowRay sqrt h light).direction (shadowRay sqrt h light).direction = 1 := by
    rw [hray]; exact hN
  obtain ⟨hdisc, hnear, hfar⟩ :=
    roots_on_axis hs (shadowRay sqrt h light) sphere.center sphere.radius (s - 1 / 1000)
      hunit hcen
  have hmin : (shadowRay sqrt h light).tMin = 1 / 1000 := by rw [hray]
  have hmax : (shadowRay sqrt h light).tMax = hgt - 1 / 1000 := by rw [hray]
  have hd : ¬ quadDisc sphere.center sphere.radius (shadowRay sqrt h light) < 0 := by
    rw [hdisc]; exact not_lt.mpr (mul_self_nonneg _)
  have hshadow : (hit sqrt tr (shadowRay sqrt h light) HitRecord.uninit).1 = true := by
    by_cases hin : (shadowRay sqrt h light).InRange
        (rootNear sqrt sphere.center sphere.radius (shadowRay sqrt h light))
    · have e : hitSphere sqrt sphere (shadowRay sqrt h light) HitRecord.uninit =
          (true, hitSphereWrite sphere (shadowRay sqrt h light) HitRecord.uninit
            (rootNear sqrt sphere.center sphere.radius (shadowRay sqrt h light))) := by
        rw [hitSphere_eq, if_neg hd, if_pos hin]
      apply hit_true_of_sphere sqrt tr _ _ sphere hmem (by rw [e])
      rw [e, hitSphereWrite_t, hnear, hmax]
      have := le_abs_self sphere.radius
      linarith
    · have hneg : sphere.radius < 0 := by
        by_contra hge
        apply hin
        rw [hnear, abs_of_nonneg (not_lt.mp hge)]
        exact ⟨by rw [hmin]; linarith, by rw [hmax]; linarith⟩
      have hin2 : (shadowRay sqrt h light).InRange
          (rootFar sqrt sphere.center sphere.radius (shadowRay sqrt h light)) := by
        rw [hfar, abs_of_neg hneg]
        exact ⟨by rw [hmin]; linarith, by rw [hmax]; linarith⟩
      have e : hitSphere sqrt sphere (shadowRay sqrt h light) HitRecord.uninit =
          (true, hitSphereWrite sphere (shadowRay sqrt h light) HitRecord.uninit
            (rootFar sqrt sphere.center sphere.radius (shadowRay sqrt h light))) := by
        rw [hitSphere_eq, if_neg hd, if_neg hin, if_pos hin2]
      apply hit_true_of_sphere sqrt tr _ _ sphere hmem (by rw [e])
      rw [e, hitSphereWrite_t, hfar, hmax, abs_of_neg hneg]
      linarith
  refine ⟨hshadow, fun color => ?_, fun hlights => ?_⟩
  · rw [lightStep_eq, if_pos hshadow]
  · rw [calculateLighting, hlights, List.foldl_cons, List.foldl_nil, lightStep_eq,
      if_pos hshadow]

/-- Instance of C13 over the reals: the point `(0, 0, 5)` of the mirror plane with normal
`(0, 0, -1)`, the light 4 units along the normal and the transparent unit sphere 2 units
along it. -/
theorem occluder_shadows_light_witness :
    dot (recMirror : HitRecord ℝ).normal (recMirror : HitRecord ℝ).normal = 1 ∧
    (lightBelow : Light ℝ).position =
      (recMirror : HitRecord ℝ).point + (recMirror : HitRecord ℝ).normal.scale 4 ∧
    (sphereOccluder : Sphere ℝ).center =
      (recMirror : HitRecord ℝ).point + (recMirror : HitRecord ℝ).normal.scale 2 ∧
    (2 : ℝ) / 1000 ≤ 2 - (sphereOccluder : Sphere ℝ).radius ∧
    (2 : ℝ) - (sphereOccluder : Sphere ℝ).radius < 4 ∧
    calculateLighting Real.sqrt sceneOccluded recMirror =
      (recMirror : HitRecord ℝ).color.scale (1 / 10) :=
  have hN : dot (recMirror : HitRecord ℝ).normal (recMirror : HitRecord ℝ).normal = 1 := by
    simp [recMirror, dot]
  have hl : (lightBelow : Light ℝ).position =
      (recMirror : HitRecord ℝ).point + (recMirror : HitRecord ℝ).normal.scale 4 := by
    ext <;> norm_num [lightBelow, recMirror]
  have hc : (sphereOccluder : Sphere ℝ).center =
      (recMirror : HitRecord ℝ).point + (recMirror : HitRecord ℝ).normal.scale 2 := by
    ext <;> norm_num [sphereOccluder, recMirror]
  have h1 : (2 : ℝ) / 1000 ≤ 2 - (sphereOccluder : Sphere ℝ).radius := by
    simp only [sphereOccluder]; norm_num
  have h2 : (2 : ℝ) - (sphereOccluder : Sphere ℝ).radius < 4 := by
    simp only [sphereOccluder]; norm_num
  ⟨hN, hl, hc, h1, h2,
    (occluder_shadows_light Real.sqrt isSqrt_real sceneOccluded recMirror lightBelow
      sphereOccluder 4 2 hN (by norm_num) hl (by simp [sceneOccluded]) hc h1 h2).2.2 rfl⟩

/-! ### Refraction -/

/-- Cauchy-Schwarz for glm::dot. -/
lemma dot_sq_le (u v : Vec3 K) : dot u v ^ 2 ≤ dot u u * dot v v := by
  have h : dot u u * dot v v - dot u v ^ 2 =
      (u.y * v.z - u.z * v.y) ^ 2 + (u.z * v.x - u.x * v.z) ^ 2 +
        (u.x * v.y - u.y * v.x) ^ 2 := by
    simp only [dot]; ring
  have h2 : 0 ≤ dot u u * dot v v - dot u v ^ 2 := by
    rw [h]; positivity
  linarith

/-- The scalar product of two unit vectors is at most one. -/
lemma dot_le_one_of_unit (u v : Vec3 K) (hu : dot u u = 1) (hv : dot v v = 1) :
    dot u v ≤ 1 := by
  have h := dot_sq_le u v
  rw [hu, hv, mul_one] at h
  by_contra hgt
  have : 1 < dot u v := not_le.mp hgt
  nlinarith

/-- C19: for a back-face hit (eta ratio 1.5) on a ray of unit direction with unit normal,
beyond the critical angle, i.e. `1.5 * sqrt(1 - dot(-direction, normal)^2) > 1`,
calculateRefraction traces the mirror reflection `reflect(direction, normal)` from the hit
point at `depth + 1`, for every random source and without drawing from it; the refraction
formula is not used, and its square-root argument `1 - 1.5^2 * (1 - dot(normal,
direction)^2)` is negative there when the square root is exact. -/
theorem calculateRefraction_total_internal_reflection (sqrt : K → K)
    (trace : Ray K → Int → Rng K → Option (Vec3 K × Rng K)) (ray : Ray K) (h : HitRecord K)
    (depth : Int) (g : Rng K) (hback : h.frontFace = false)
    (hd : dot ray.direction ray.direction = 1) (hn : dot h.normal h.normal = 1)
    (hcrit : 3 / 2 * sqrt (1 - dot (-ray.direction) h.normal ^ 2) > 1) :
    calculateRefraction sqrt trace ray h depth g =
      trace (Ray.ctor sqrt h.point (reflect ray.direction h.normal)) (depth + 1) g ∧
    (IsSqrt sqrt →
      1 - (3 / 2 : K) * (3 / 2) *
        (1 - dot h.normal ray.direction * dot h.normal ray.direction) < 0) := by
  have hd' : dot (-ray.direction) (-ray.direction) = 1 := by rw [dot_neg_neg]; exact hd
  have hle : dot (-ray.direction) h.normal ≤ 1 := dot_le_one_of_unit _ _ hd' hn
  constructor
  · unfold calculateRefraction
    simp only [hback, Bool.false_eq_true, if_false, min_eq_left hle]
    have hc : (3 / 2 : K) * sqrt (1 - dot (-ray.direction) h.normal *
        dot (-ray.direction) h.normal) > 1 := by
      rw [← pow_two]; exact hcrit
    simp only [hc, decide_True, if_true]
  · intro hs
    have hx : 0 ≤ 1 - dot (-ray.direction) h.normal ^ 2 := by
      have := dot_sq_le (-ray.direction) h.normal
      rw [hd', hn, mul_one] at this
      linarith
    have hsq := hs.mul_self hx
    have hnn := hs.nonneg hx
    have hdot : dot h.normal ray.direction = -dot (-ray.direction) h.normal := by
      rw [dot_neg_left, dot_comm]; ring
    rw [hdot]
    nlinarith

/-- Instance of C19 over the reals: the cosine is `3/5`, so `1.5 * sqrt(1 - 9/25) = 1.2`. -/
theorem calculateRefraction_total_internal_reflection_witness :
    (recSlanted : HitRecord ℝ).frontFace = false ∧
    dot (rayZ : Ray ℝ).direction (rayZ : Ray ℝ).direction = 1 ∧
    dot (recSlanted : HitRecord ℝ).normal (recSlanted : HitRecord ℝ).normal = 1 ∧
    3 / 2 * Real.sqrt (1 - dot (-(rayZ : Ray ℝ).direction)
      (recSlanted : HitRecord ℝ).normal ^ 2) > 1 ∧
    calculateRefraction Real.sqrt (traceRay Real.sqrt sceneEmpty) rayZ recSlanted 0
        ⟨[], [1 / 2]⟩ =
      traceRay Real.sqrt sceneEmpty (Ray.ctor Real.sqrt (recSlanted : HitRecord ℝ).point
        (reflect (rayZ : Ray ℝ).direction (recSlanted : HitRecord ℝ).normal)) (0 + 1)
        ⟨[], [1 / 2]⟩ :=
  have hn : dot (recSlanted : HitRecord ℝ).normal (recSlanted : HitRecord ℝ).normal = 1 := by
    simp only [recSlanted, dot]; norm_num
  have hcrit : 3 / 2 * Real.sqrt (1 - dot (-(rayZ : Ray ℝ).direction)
      (recSlanted : HitRecord ℝ).normal ^ 2) > 1 := by
    have e : (1 : ℝ) - dot (-(rayZ : Ray ℝ).direction)
        (recSlanted : HitRecord ℝ).normal ^ 2 = 4 / 5 * (4 / 5) := by
      simp only [recSlanted, rayZ, dot, Vec3.neg_x, Vec3.neg_y, Vec3.neg_z]; norm_num
    rw [e, isSqrt_real.sqrt_mul_self (by norm_num)]
    norm_num
  ⟨rfl, dot_rayZ, hn, hcrit,
    (calculateRefraction_total_internal_reflection Real.sqrt (traceRay Real.sqrt sceneEmpty)
      rayZ recSlanted 0 ⟨[], [1 / 2]⟩ rfl dot_rayZ hn hcrit).1⟩

/-- The value computed by calculateFresnel for the indices 1 and 1.5 when `cosI <= 0`: each
amplitude ratio has modulus at least one, so the result is at least one. -/
lemma fresnel_algebra (c T : K) (hc : c ≤ 0) (hT : 0 ≤ T)
    (hTT : T * T = 1 - 1 / (3 / 2) * (1 / (3 / 2)) * (1 - c * c)) :
    1 ≤ ((c - 3 / 2 * T) / (c + 3 / 2 * T) * ((c - 3 / 2 * T) / (c + 3 / 2 * T)) +
      (3 / 2 * c - T) / (3 / 2 * c + T) * ((3 / 2 * c - T) / (3 / 2 * c + T))) / 2 := by
  have h94 : (3 / 2 * T) * (3 / 2 * T) = 5 / 4 + c * c := by
    have : (3 / 2 * T) * (3 / 2 * T) = 9 / 4 * (T * T) := by ring
    rw [this, hTT]
    field_simp
    ring
  have hD1 : 0 < c + 3 / 2 * T := by
    by_contra hle
    have h1 : 3 / 2 * T ≤ -c := by linarith [not_lt.mp hle]
    have h2 : (3 / 2 * T) * (3 / 2 * T) ≤ (-c) * (-c) :=
      mul_le_mul h1 h1 (by linarith) (by linarith)
    nlinarith
  have hcT : 0 ≤ -(c * T) := by
    have := mul_nonneg (neg_nonneg.mpr hc) hT
    linarith
  have hr0 : 1 ≤ (c - 3 / 2 * T) / (c + 3 / 2 * T) * ((c - 3 / 2 * T) / (c + 3 / 2 * T)) := by
    rw [div_mul_div_comm, one_le_div (mul_pos hD1 hD1)]
    linarith only [hcT]
  by_cases hD2 : 3 / 2 * c + T = 0
  · rw [hD2, div_zero, mul_zero, add_zero]
    have hTc : T = -(3 / 2 * c) := by linarith
    have h2 : 2 ≤ (c - 3 / 2 * T) / (c + 3 / 2 * T) * ((c - 3 / 2 * T) / (c + 3 / 2 * T)) := by
      rw [div_mul_div_comm, le_div_iff₀ (mul_pos hD1 hD1)]
      rw [hTc]
      nlinarith [mul_self_nonneg c]
    generalize (c - 3 / 2 * T) / (c + 3 / 2 * T) * ((c - 3 / 2 * T) / (c + 3 / 2 * T)) = X
      at h2 ⊢
    linarith only [h2]
  · have hpos : 0 < (3 / 2 * c + T) * (3 / 2 * c + T) := mul_self_pos.2 hD2
    have hrp : 1 ≤ (3 / 2 * c - T) / (3 / 2 * c + T) * ((3 / 2 * c - T) / (3 / 2 * c + T)) := by
      rw [div_mul_div_comm, one_le_div hpos]
      linarith only [hcT]
    generalize (c - 3 / 2 * T) / (c + 3 / 2 * T) * ((c - 3 / 2 * T) / (c + 3 / 2 * T)) = X
      at hr0 ⊢
    generalize (3 / 2 * c - T) / (3 / 2 * c + T) * ((3 / 2 * c - T) / (3 / 2 * c + T)) = Y
      at hrp ⊢
    linarith only [hr0, hrp]

/-- The coefficient that calculateRefraction compares with its random draw is at least one
whenever the normal opposes the ray: the sign of `cosI` is the wrong one. -/
lemma fresnel_ge_one {sqrt : K → K} (hs : IsSqrt sqrt) (direction normal : Vec3 K)
    (hopp : dot normal direction ≤ 0) :
    1 ≤ calculateFresnel sqrt (-direction) normal 1 (3 / 2) := by
  unfold calculateFresnel
  have hc : -dot (-direction) normal = dot normal direction := by
    rw [dot_neg_left, dot_comm]; ring
  simp only [hc, one_mul]
  split_ifs with hT
  · exact le_refl 1
  · have hx : 0 ≤ 1 - 1 / (3 / 2) * (1 / (3 / 2)) *
        (1 - dot normal direction * dot normal direction) := by
      linarith [not_lt.mp hT]
    obtain ⟨hT0, hTT⟩ := hs _ hx
    exact fresnel_algebra _ _ hopp hT0 hTT

lemma hitPlane_planeGlass :
    hitPlane (planeGlass : Plane K) rayZ HitRecord.uninit = (true, recGlass) := by
  have ht : planeT (planeGlass : Plane K) rayZ = 5 := by
    simp only [planeT, planeGlass, rayZ, dot, Vec3.sub_x, Vec3.sub_y, Vec3.sub_z]
    norm_num
  rw [hitPlane_eq, if_pos, ht]
  · simp only [hitPlaneWrite, HitRecord.setFaceNormal, HitRecord.uninit, planeGlass, rayZ,
      glass, RayTracingMaterial.default, recGlass, Ray.at, dot, Prod.mk.injEq, true_and,
      HitRecord.mk.injEq, Vec3.splat]
    norm_num
    ext <;> simp
  · rw [ht]
    simp only [Ray.InRange, planeGlass, rayZ, dot]
    norm_num

lemma hit_sceneGlass (sqrt : K → K) :
    hit sqrt (sceneGlass : RayTracer K) rayZ HitRecord.uninit = (true, recGlass) := by
  simp only [hit, sceneGlass, List.foldl_nil, List.foldl_cons, hitPlaneStep,
    hitPlane_planeGlass, Bool.true_and]
  rw [if_pos (by simp only [recGlass, rayZ]; norm_num)]

lemma fresnel_recGlass {sqrt : K → K} (hs : IsSqrt sqrt) :
    calculateFresnel sqrt (-(rayZ : Ray K).direction) (recGlass : HitRecord K).normal 1
      (3 / 2) = 25 := by
  have h1 : sqrt 1 = 1 := by
    have := hs.sqrt_mul_self (zero_le_one : (0 : K) ≤ 1)
    rwa [mul_one] at this
  unfold calculateFresnel
  simp only [rayZ, recGlass, dot, Vec3.neg_x, Vec3.neg_y, Vec3.neg_z]
  norm_num [h1]

/-- C17 fails on the code: the z axis ray meets the transparent plane `z = 5` head-on (unit
direction, front face, the normal `(0, 0, -1)` opposes the ray), and the coefficient that
calculateRefraction computes for this hit, `calculateFresnel(-ray.direction, hit.normal,
1.0, 1.5)`, is 25, not a probability. -/
theorem calculateFresnel_normal_incidence :
    hit Real.sqrt (sceneGlass : RayTracer ℝ) rayZ HitRecord.uninit = (true, recGlass) ∧
    dot (rayZ : Ray ℝ).direction (rayZ : Ray ℝ).direction = 1 ∧
    dot (recGlass : HitRecord ℝ).normal (rayZ : Ray ℝ).direction ≤ 0 ∧
    calculateFresnel Real.sqrt (-(rayZ : Ray ℝ).direction) (recGlass : HitRecord ℝ).normal 1
      (3 / 2) = 25 :=
  ⟨hit_sceneGlass Real.sqrt, dot_rayZ, by simp [recGlass, rayZ, dot],
    fresnel_recGlass isSqrt_real⟩

/-- C18 fails on the code: whenever the normal opposes the ray and the uniform draw `u` is
below one, calculateRefraction traces the mirror reflection, never the refracted direction:
either `cannotRefract` holds, or the coefficient of calculateFresnel is at least one, hence
above `u`.  For a front-face hit `cannotRefract` is false, the draw is consumed and the
reflection is traced with the rest of the random source. -/
theorem calculateRefraction_always_reflects (sqrt : K → K) (hs : IsSqrt sqrt)
    (trace : Ray K → Int → Rng K → Option (Vec3 K × Rng K)) (ray : Ray K) (h : HitRecord K)
    (depth : Int) (g g1 : Rng K) (u : K) (hopp : dot h.normal ray.direction ≤ 0)
    (hr : random01 g = some (u, g1)) (hu : u < 1) :
    (calculateRefraction sqrt trace ray h depth g =
        trace (Ray.ctor sqrt h.point (reflect ray.direction h.normal)) (depth + 1) g ∨
      calculateRefraction sqrt trace ray h depth g =
        trace (Ray.ctor sqrt h.point (reflect ray.direction h.normal)) (depth + 1) g1) ∧
    (h.frontFace = true →
      calculateRefraction sqrt trace ray h depth g =
        trace (Ray.ctor sqrt h.point (reflect ray.direction h.normal)) (depth + 1) g1) := by
  have hF : calculateFresnel sqrt (-ray.direction) h.normal 1 (3 / 2) > u :=
    lt_of_lt_of_le hu (fresnel_ge_one hs ray.direction h.normal hopp)
  have hdraw : ∀ eta : K,
      ¬ (eta * sqrt (1 - min (dot (-ray.direction) h.normal) 1 *
        min (dot (-ray.direction) h.normal) 1) > 1) →
      (if h.frontFace = true then 1 / (3 / 2 : K) else 3 / 2) = eta →
      calculateRefraction sqrt trace ray h depth g =
        trace (Ray.ctor sqrt h.point (reflect ray.direction h.normal)) (depth + 1) g1 := by
    intro eta hno heta
    unfold calculateRefraction
    simp only [heta, hno, decide_False, Bool.false_eq_true, if_false, hr, hF, if_true]
  constructor
  · by_cases hc : (if h.frontFace = true then 1 / (3 / 2 : K) else 3 / 2) *
        sqrt (1 - min (dot (-ray.direction) h.normal) 1 *
          min (dot (-ray.direction) h.normal) 1) > 1
    · left
      unfold calculateRefraction
      simp only [hc, decide_True, if_true]
    · right
      exact hdraw _ hc rfl
  · intro hfront
    apply hdraw (1 / (3 / 2)) _ (by rw [if_pos hfront])
    have hcos0 : 0 ≤ min (dot (-ray.direction) h.normal) 1 := by
      apply le_min _ zero_le_one
      rw [dot_neg_left, dot_comm]
      linarith
    have hcos1 : min (dot (-ray.direction) h.normal) 1 ≤ 1 := min_le_right _ _
    have hx0 : 0 ≤ 1 - min (dot (-ray.direction) h.normal) 1 *
        min (dot (-ray.direction) h.normal) 1 := by nlinarith
    obtain ⟨hS0, hSS⟩ := hs _ hx0
    have hS1 : sqrt (1 - min (dot (-ray.direction) h.normal) 1 *
        min (dot (-ray.direction) h.normal) 1) ≤ 1 := by
      by_contra hgt
      have hlt := not_le.mp hgt
      nlinarith [mul_self_nonneg (min (dot (-ray.direction) h.normal) 1)]
    intro hgt
    have : (1 / (3 / 2) : K) * sqrt (1 - min (dot (-ray.direction) h.normal) 1 *
        min (dot (-ray.direction) h.normal) 1) ≤ 1 / (3 / 2) * 1 :=
      mul_le_mul_of_nonneg_left hS1 (by norm_num)
    norm_num at this hgt
    linarith

/-- Instance of C18 over the reals: the head-on front-face hit on the transparent plane
with the draw `u = 0.999`; the sub-ray is the mirror reflection. -/
theorem calculateRefraction_always_reflects_witness :
    IsSqrt Real.sqrt ∧
    dot (recGlass : HitRecord ℝ).normal (rayZ : Ray ℝ).direction ≤ 0 ∧
    random01 (⟨[], [999 / 1000]⟩ : Rng ℝ) = some (999 / 1000, ⟨[], []⟩) ∧
    (999 / 1000 : ℝ) < 1 ∧
    (recGlass : HitRecord ℝ).frontFace = true ∧
    calculateRefraction Real.sqrt (traceRay Real.sqrt sceneGlass) rayZ recGlass 0
        ⟨[], [999 / 1000]⟩ =
      traceRay Real.sqrt sceneGlass (Ray.ctor Real.sqrt (recGlass : HitRecord ℝ).point
        (reflect (rayZ : Ray ℝ).direction (recGlass : HitRecord ℝ).normal)) (0 + 1) ⟨[], []⟩ :=
  ⟨isSqrt_real, by simp [recGlass, rayZ, dot], rfl, by norm_num, rfl,
    (calculateRefraction_always_reflects Real.sqrt isSqrt_real (traceRay Real.sqrt sceneGlass)
      rayZ recGlass 0 ⟨[], [999 / 1000]⟩ ⟨[], []⟩ (999 / 1000)
      (by simp [recGlass, rayZ, dot]) rfl (by norm_num)).2 rfl⟩

/-! ### Global illumination -/

lemma giStep_none (sqrt : K → K) (trace : Ray K → Int → Rng K → Option (Vec3 K × Rng K))
    (h : HitRecord K) (depth : Int) (n : Nat) :
    (giStep sqrt trace h depth)^[n] none = none := by
  induction n with
  | zero => rfl
  | succ n ih => rw [Function.iterate_succ_apply]; exact ih

/-- The direction returned by sampleHemisphere has a non-negative scalar product with the
normal. -/
lemma sampleHemisphere_dot_nonneg (sqrt : K → K) (normal dir : Vec3 K) (g g1 : Rng K)
    (h : sampleHemisphere sqrt normal g = some (dir, g1)) : 0 ≤ dot normal dir := by
  unfold sampleHemisphere at h
  cases hr : randomUnitVector sqrt g with
  | none => rw [hr] at h; exact absurd h (by simp)
  | some p =>
    obtain ⟨v, g2⟩ := p
    rw [hr] at h
    simp only [] at h
    by_cases hneg : dot v normal < 0
    · rw [if_pos hneg] at h
      have hd : dir = -v := by
        have := Option.some.inj h
        exact (congrArg Prod.fst this).symm
      rw [hd, dot_comm, dot_neg_left]
      linarith
    · rw [if_neg hneg] at h
      have hd : dir = v := by
        have := Option.some.inj h
        exact (congrArg Prod.fst this).symm
      rw [hd, dot_comm]
      exact not_lt.mp hneg

lemma castInt_of_lt (i : Nat) (h : i < 2 ^ 31) : castInt i = (i : Int) := by
  unfold castInt
  norm_num at h ⊢
  omega

lemma hitMuseumObject_objFar (sqrt : K → K) (record : HitRecord K) :
    hitMuseumObject sqrt (objFar : MuseumObject K) rayZ record = (false, record) := by
  rw [hitMuseumObject_eq, if_pos]
  simp only [quadDisc, quadA, quadB, quadC, objFar, rayZ, dot, Vec3.sub_x, Vec3.sub_y,
    Vec3.sub_z]
  norm_num

lemma getObject_catalog_lt (n i : Nat) (h : i < n) :
    (catalogFarThenAhead n : MuseumObjectManager K).getObject i = some objFar := by
  unfold MuseumObjectManager.getObject catalogFarThenAhead
  rw [List.get?_eq_getElem?, List.getElem?_append_left (by rw [List.length_replicate]; exact h),
    List.getElem?_replicate_of_lt h]

lemma getObject_catalog_last (n : Nat) :
    (catalogFarThenAhead n : MuseumObjectManager K).getObject n = some objAhead := by
  unfold MuseumObjectManager.getObject catalogFarThenAhead
  have h := List.getElem?_concat_length (List.replicate n (some (objFar : MuseumObject K)))
    (some objAhead)
  rw [List.length_replicate] at h
  rw [List.get?_eq_getElem?, h]

/-- The only candidate of the catalog scene is the record of its last entry, with the index
converted to `int`. -/
lemma candidates_sceneCatalog {sqrt : K → K} (hs : IsSqrt sqrt) (n : Nat) :
    candidates sqrt (sceneCatalog n : RayTracer K) rayZ =
      [{ (hitMuseumObject sqrt objAhead rayZ HitRecord.uninit).2 with
          objectIndex := castInt n }] := by
  have hfar : List.filterMap (objectCandidate sqrt (catalogFarThenAhead n) rayZ)
      (List.range n) = [] := by
    rw [List.filterMap_eq_nil_iff]
    intro i hi
    rw [List.mem_range] at hi
    unfold objectCandidate
    rw [getObject_catalog_lt n i hi]
    simp [written, hitMuseumObject_objFar]
  have hlast : objectCandidate sqrt (catalogFarThenAhead n : MuseumObjectManager K) rayZ n =
      some { (hitMuseumObject sqrt objAhead rayZ HitRecord.uninit).2 with
        objectIndex := castInt n } := by
    unfold objectCandidate
    rw [getObject_catalog_last n]
    simp [written, hitMuseumObject_objAhead hs]
  have hcount : (catalogFarThenAhead n : MuseumObjectManager K).getObjectCount = n + 1 := by
    simp [MuseumObjectManager.getObjectCount, catalogFarThenAhead]
  unfold candidates sphereCandidates planeCandidates objectCandidates
  simp only [sceneCatalog, List.filterMap_nil, List.nil_append, hcount]
  rw [List.range_succ, List.filterMap_append, hfar, List.nil_append, List.filterMap_cons,
    hlast]
  rfl

lemma hitMuseumObject_objAhead_t {sqrt : K → K} (hs : IsSqrt sqrt) (record : HitRecord K) :
    (hitMuseumObject sqrt objAhead rayZ record).2.t ≤ 15 / 2 := by
  have h := (hitMuseumObject_any sqrt objAhead rayZ record
    (hitMuseumObject_objAhead hs record)).1
  have hA : quadA (rayZ : Ray K) = 1 := quadA_rayZ
  rcases (hitMuseumObject_true sqrt objAhead rayZ record
    (hitMuseumObject_objAhead hs record)).2 with ⟨_, e⟩ | ⟨_, _, e⟩
  · rw [e, hitMuseumObjectWrite_t]
    have hdisc : quadDisc (objAhead : MuseumObject K).position (3 / 2) rayZ = 3 * 3 := by
      simp only [quadDisc, quadA, quadB, quadC, objAhead, rayZ, dot, Vec3.sub_x, Vec3.sub_y,
        Vec3.sub_z]
      norm_num
    rw [rootNear, hdisc, hs.sqrt_mul_self (by norm_num), hA]
    simp only [quadB, objAhead, rayZ, dot, Vec3.sub_x, Vec3.sub_y, Vec3.sub_z]
    norm_num
  · rw [e, hitMuseumObjectWrite_t]
    have hdisc : quadDisc (objAhead : MuseumObject K).position (3 / 2) rayZ = 3 * 3 := by
      simp only [quadDisc, quadA, quadB, quadC, objAhead, rayZ, dot, Vec3.sub_x, Vec3.sub_y,
        Vec3.sub_z]
      norm_num
    rw [rootFar, hdisc, hs.sqrt_mul_self (by norm_num), hA]
    simp only [quadB, objAhead, rayZ, dot, Vec3.sub_x, Vec3.sub_y, Vec3.sub_z]
    norm_num

/-- The outcome of hit on the catalog scene: the record of the last entry, whose
`objectIndex` is the converted index. -/
lemma hit_sceneCatalog {sqrt : K → K} (hs : IsSqrt sqrt) (n : Nat) (record : HitRecord K) :
    hit sqrt (sceneCatalog n : RayTracer K) rayZ record =
      (true, { (hitMuseumObject sqrt objAhead rayZ HitRecord.uninit).2 with
        objectIndex := castInt n }) := by
  rw [hit_eq_fold, candidates_sceneCatalog hs n, List.foldl_cons, List.foldl_nil, pick,
    if_pos]
  have := hitMuseumObject_objAhead_t hs (HitRecord.uninit : HitRecord K)
  show (hitMuseumObject sqrt objAhead rayZ HitRecord.uninit).2.t < (rayZ : Ray K).tMax
  have htm : (rayZ : Ray K).tMax = 1000 := rfl
  rw [htm]
  linarith

/-- C11: after hit reports a hit, whatever record the caller passed in, either the returned
record is the one written by a sphere or a plane and its `objectIndex` is `-1`, or it is the
one written by the catalog entry of some index `i` and its `objectIndex` is `i`, which is
not negative.  The catalog holds at most `2^31` entries, as every catalog of loaded objects
does, so that each index is a value of `int` and `static_cast<int>(i)` is `i`. -/
theorem hit_objectIndex (sqrt : K → K) (tr : RayTracer K) (ray : Ray K)
    (record rec : HitRecord K)
    (hsize : ∀ scene, tr.scene = some scene → scene.getObjectCount ≤ 2 ^ 31)
    (h : hit sqrt tr ray record = (true, rec)) :
    (rec.objectIndex = -1 ∧
      ((∃ sphere ∈ tr.spheres, hitSphere sqrt sphere ray HitRecord.uninit = (true, rec)) ∨
        (∃ plane ∈ tr.planes, hitPlane plane ray HitRecord.uninit = (true, rec)))) ∨
    (∃ scene i obj c0, tr.scene = some scene ∧ scene.getObject i = some obj ∧
      hitMuseumObject sqrt obj ray HitRecord.uninit = (true, c0) ∧
      rec = { c0 with objectIndex := (i : Int) } ∧
      rec.objectIndex = (i : Int) ∧ 0 ≤ rec.objectIndex) := by
  have hmem : rec ∈ candidates sqrt tr ray := by
    rcases hit_cases sqrt tr ray record with ⟨e, _⟩ | ⟨c, e, _, _, pre, post, hsplit, _⟩
    · rw [e] at h
      exact absurd (congrArg Prod.fst h) (by simp)
    · rw [e] at h
      have hc : c = rec := congrArg Prod.snd h
      rw [← hc, hsplit]
      exact List.mem_append_right _ (List.mem_cons_self _ _)
  rcases (mem_candidates sqrt tr ray rec).1 hmem with
    ⟨s, hs, e⟩ | ⟨p, hp, e⟩ | ⟨sc, i, obj, c0, hsc, hobj, e, hc0⟩
  · left
    refine ⟨?_, Or.inl ⟨s, hs, e⟩⟩
    have := (testLike_hitSphere sqrt s ray).1
    rw [e] at this
    exact this
  · left
    refine ⟨?_, Or.inr ⟨p, hp, e⟩⟩
    have := (testLike_hitPlane p ray).1
    rw [e] at this
    exact this
  · right
    have hi : i < 2 ^ 31 := lt_of_lt_of_le (getObject_lt sc i obj hobj) (hsize sc hsc)
    have hcast : castInt i = (i : Int) := castInt_of_lt i hi
    rw [hcast] at hc0
    have hidx : rec.objectIndex = (i : Int) := by rw [hc0]
    exact ⟨sc, i, obj, c0, hsc, hobj, e, hc0, hidx, by rw [hidx]; exact Int.natCast_nonneg i⟩

/-- Instance of C11 over the reals: the catalog holds 4 entries, the caller's record holds
`objectIndex = 7`, the entry of index 3 is the only surface met, and the returned record
carries the index 3. -/
theorem hit_objectIndex_witness :
    (∀ scene, (sceneCatalog 3 : RayTracer ℝ).scene = some scene →
      scene.getObjectCount ≤ 2 ^ 31) ∧
    hit Real.sqrt (sceneCatalog 3 : RayTracer ℝ) rayZ
        { (HitRecord.uninit : HitRecord ℝ) with objectIndex := 7 } =
      (true, { (hitMuseumObject Real.sqrt objAhead rayZ HitRecord.uninit).2 with
        objectIndex := castInt 3 }) ∧
    ({ (hitMuseumObject Real.sqrt objAhead rayZ HitRecord.uninit).2 with
        objectIndex := castInt 3 } : HitRecord ℝ).objectIndex = 3 ∧
    ((({ (hitMuseumObject Real.sqrt objAhead rayZ HitRecord.uninit).2 with
          objectIndex := castInt 3 } : HitRecord ℝ).objectIndex = -1 ∧
        ((∃ sphere ∈ (sceneCatalog 3 : RayTracer ℝ).spheres,
            hitSphere Real.sqrt sphere rayZ HitRecord.uninit =
              (true, { (hitMuseumObject Real.sqrt objAhead rayZ HitRecord.uninit).2 with
                objectIndex := castInt 3 })) ∨
          (∃ plane ∈ (sceneCatalog 3 : RayTracer ℝ).planes,
            hitPlane plane rayZ HitRecord.uninit =
              (true, { (hitMuseumObject Real.sqrt objAhead rayZ HitRecord.uninit).2 with
                objectIndex := castInt 3 })))) ∨
      (∃ scene i obj c0, (sceneCatalog 3 : RayTracer ℝ).scene = some scene ∧
        scene.getObject i = some obj ∧
        hitMuseumObject Real.sqrt obj rayZ HitRecord.uninit = (true, c0) ∧
        ({ (hitMuseumObject Real.sqrt objAhead rayZ HitRecord.uninit).2 with
          objectIndex := castInt 3 } : HitRecord ℝ) = { c0 with objectIndex := (i : Int) } ∧
        ({ (hitMuseumObject Real.sqrt objAhead rayZ HitRecord.uninit).2 with
          objectIndex := castInt 3 } : HitRecord ℝ).objectIndex = (i : Int) ∧
        0 ≤ ({ (hitMuseumObject Real.sqrt objAhead rayZ HitRecord.uninit).2 with
          objectIndex := castInt 3 } : HitRecord ℝ).objectIndex)) :=
  have hsize : ∀ scene, (sceneCatalog 3 : RayTracer ℝ).scene = some scene →
      scene.getObjectCount ≤ 2 ^ 31 := by
    intro scene hsc
    have e : scene = catalogFarThenAhead 3 := (Option.some.inj hsc).symm
    rw [e]
    simp only [MuseumObjectManager.getObjectCount, catalogFarThenAhead, List.length_append,
      List.length_replicate, List.length_singleton]
    norm_num
  ⟨hsize, hit_sceneCatalog isSqrt_real 3 _, castInt_of_lt 3 (by norm_num),
    hit_objectIndex Real.sqrt (sceneCatalog 3 : RayTracer ℝ) rayZ
      { (HitRecord.uninit : HitRecord ℝ) with objectIndex := 7 } _ hsize
      (hit_sceneCatalog isSqrt_real 3 _)⟩

/-! ### The constructor of Ray -/

/-- The exact square root of a positive number is positive. -/
lemma IsSqrt.pos {sqrt : K → K} (hs : IsSqrt sqrt) {a : K} (ha : 0 < a) : 0 < sqrt a := by
  rcases (hs.nonneg ha.le).lt_or_eq with h | h
  · exact h
  · exfalso
    have hm := hs.mul_self ha.le
    rw [← h, mul_zero] at hm
    exact ha.ne hm

/-- The squared length of a scaled vector. -/
lemma dot_scale_scale (v : Vec3 K) (a : K) :
    dot (v.scale a) (v.scale a) = a * a * dot v v := by
  simp only [dot, Vec3.scale_x, Vec3.scale_y, Vec3.scale_z]; ring

/-- The vector from the origin of a ray to its point at parameter `t`. -/
lemma at_sub_origin (ray : Ray K) (t : K) : ray.at t - ray.origin = ray.direction.scale t := by
  ext <;> simp [Ray.at]

/-- C24: for every origin `o` and every nonzero vector `d` (exact square root), the
direction of `Ray(o, d)` has length exactly 1 and is `d` times a positive number, the origin
is `o`, `tMin = 0.001` and `tMax = 1000`, `at(t) = o + t * direction`, and the distance from
`o` to `at(t)` is `|t|`. -/
theorem Ray_ctor_invariants (sqrt : K → K) (hs : IsSqrt sqrt) (o d : Vec3 K) (hd : d ≠ 0) :
    length sqrt (Ray.ctor sqrt o d).direction = 1 ∧
    (∃ k : K, 0 < k ∧ (Ray.ctor sqrt o d).direction = d.scale k) ∧
    (Ray.ctor sqrt o d).origin = o ∧
    (Ray.ctor sqrt o d).tMin = 1 / 1000 ∧ (Ray.ctor sqrt o d).tMax = 1000 ∧
    ∀ t : K, (Ray.ctor sqrt o d).at t = o + (Ray.ctor sqrt o d).direction.scale t ∧
      length sqrt ((Ray.ctor sqrt o d).at t - o) = |t| := by
  have hunit : dot (normalize sqrt d) (normalize sqrt d) = 1 := dot_normalize hs hd
  refine ⟨length_of_dot_one hs hunit, ⟨inversesqrt sqrt (dot d d), ?_, rfl⟩, rfl, rfl, rfl, ?_⟩
  · unfold inversesqrt
    exact one_div_pos.mpr (hs.pos (dot_self_pos hd))
  · intro t
    refine ⟨rfl, ?_⟩
    have e : (Ray.ctor sqrt o d).at t - o = (normalize sqrt d).scale t :=
      at_sub_origin (Ray.ctor sqrt o d) t
    rw [e, length, dot_scale_scale, hunit, mul_one, hs.sqrt_mul_self_abs]

/-- Instance of C24 over the reals: the ray from `(1, 2, 3)` toward `(0, 0, 2)`, at the
parameter `-7`. -/
theorem Ray_ctor_invariants_witness :
    IsSqrt Real.sqrt ∧ (⟨0, 0, 2⟩ : Vec3 ℝ) ≠ 0 ∧
    length Real.sqrt (Ray.ctor Real.sqrt ⟨1, 2, 3⟩ (⟨0, 0, 2⟩ : Vec3 ℝ)).direction = 1 ∧
    length Real.sqrt ((Ray.ctor Real.sqrt ⟨1, 2, 3⟩ (⟨0, 0, 2⟩ : Vec3 ℝ)).at (-7) - ⟨1, 2, 3⟩) =
      |(-7 : ℝ)| :=
  have hne : (⟨0, 0, 2⟩ : Vec3 ℝ) ≠ 0 := fun h => by
    have := congrArg Vec3.z h
    norm_num at this
  ⟨isSqrt_real, hne,
    (Ray_ctor_invariants Real.sqrt isSqrt_real ⟨1, 2, 3⟩ ⟨0, 0, 2⟩ hne).1,
    ((Ray_ctor_invariants Real.sqrt isSqrt_real ⟨1, 2, 3⟩ ⟨0, 0, 2⟩ hne).2.2.2.2.2 (-7)).2⟩

/-! ### Sampling -/

/-- On a tape that starts with rejected points followed by an accepted one, the rejection
loop returns the accepted point and the rest of the tape. -/
lemma rejectionLoop_tape (sqrt : K → K) (rejected : List (Vec3 K)) (p : Vec3 K) (rest : List K)
    (hrej : ∀ q ∈ rejected, length sqrt q ≥ 1) (hacc : length sqrt p < 1) :
    rejectionLoop sqrt (tapeOf rejected ++ p.x :: p.y :: p.z :: rest) = some (p, rest) := by
  induction rejected with
  | nil =>
    simp only [tapeOf, List.nil_append, rejectionLoop]
    rw [if_neg (not_le.mpr hacc)]
  | cons q qs ih =>
    simp only [tapeOf, List.cons_append, rejectionLoop]
    rw [if_pos (hrej q (List.mem_cons_self q qs))]
    exact ih (fun r hr => hrej r (List.mem_cons_of_mem q hr))

/-- The unit vector drawn from a tape that starts with rejected points followed by an
accepted one. -/
lemma randomUnitVector_tape (sqrt : K → K) (g : Rng K) (rejected : List (Vec3 K)) (p : Vec3 K)
    (rest : List K) (htape : g.sphere = tapeOf rejected ++ p.x :: p.y :: p.z :: rest)
    (hrej : ∀ q ∈ rejected, length sqrt q ≥ 1) (hacc : length sqrt p < 1) :
    randomInUnitSphere sqrt g = some (p, { g with sphere := rest }) ∧
    randomUnitVector sqrt g = some (normalize sqrt p, { g with sphere := rest }) := by
  have h1 : randomInUnitSphere sqrt g = some (p, { g with sphere := rest }) := by
    unfold randomInUnitSphere
    rw [htape, rejectionLoop_tape sqrt rejected p rest hrej hacc]
  refine ⟨h1, ?_⟩
  unfold randomUnitVector
  rw [h1]

lemma dot_neg_self (v : Vec3 K) : dot (-v) (-v) = dot v v := dot_neg_neg v v

/-- C21: for every normal and every random source whose tape for randomInUnitSphere starts
with any number of rejected points (length at least 1) followed by a nonzero point `p` of
length below 1, sampleHemisphere returns, consuming exactly these draws, a vector `d` of
length 1 (exact square root) with `dot(d, normal) >= 0`: the negation of `normalize(p)`
when `dot(normalize(p), normal) < 0`, and `normalize(p)` otherwise. -/
theorem sampleHemisphere_spec (sqrt : K → K) (hs : IsSqrt sqrt) (normal : Vec3 K) (g : Rng K)
    (rejected : List (Vec3 K)) (p : Vec3 K) (rest : List K)
    (htape : g.sphere = tapeOf rejected ++ p.x :: p.y :: p.z :: rest)
    (hrej : ∀ q ∈ rejected, length sqrt q ≥ 1) (hacc : length sqrt p < 1) (hp : p ≠ 0) :
    ∃ d : Vec3 K, sampleHemisphere sqrt normal g = some (d, { g with sphere := rest }) ∧
      length sqrt d = 1 ∧ 0 ≤ dot d normal ∧
      (d = normalize sqrt p ∨ d = -normalize sqrt p) ∧
      (d = -normalize sqrt p ↔ dot (normalize sqrt p) normal < 0) := by
  have hu := (randomUnitVector_tape sqrt g rejected p rest htape hrej hacc).2
  have hunit : dot (normalize sqrt p) (normalize sqrt p) = 1 := dot_normalize hs hp
  have hne : normalize sqrt p ≠ -normalize sqrt p := by
    intro e
    have h2 : dot (normalize sqrt p) (normalize sqrt p) =
        dot (-normalize sqrt p) (normalize sqrt p) :=
      congrArg (fun v => dot v (normalize sqrt p)) e
    rw [dot_neg_left, hunit] at h2
    norm_num at h2
  by_cases hneg : dot (normalize sqrt p) normal < 0
  · refine ⟨-normalize sqrt p, ?_, ?_, ?_, Or.inr rfl, ?_⟩
    · unfold sampleHemisphere
      rw [hu]
      simp only []
      rw [if_pos hneg]
    · exact length_of_dot_one hs (by rw [dot_neg_self, hunit])
    · rw [dot_neg_left]; linarith
    · exact ⟨fun _ => hneg, fun _ => rfl⟩
  · refine ⟨normalize sqrt p, ?_, ?_, ?_, Or.inl rfl, ?_⟩
    · unfold sampleHemisphere
      rw [hu]
      simp only []
      rw [if_neg hneg]
    · exact length_of_dot_one hs hunit
    · exact not_lt.mp hneg
    · exact ⟨fun e => absurd e hne, fun h => absurd h hneg⟩

/-- Instance of C21 over the reals: the tape draws `(1, 1, 1)`, which is rejected, then
`(0, 0, 1/2)`; the normal is `(0, 0, -1)`, so that the sample is folded. -/
theorem sampleHemisphere_spec_witness :
    IsSqrt Real.sqrt ∧
    (∀ q ∈ [(⟨1, 1, 1⟩ : Vec3 ℝ)], length Real.sqrt q ≥ 1) ∧
    length Real.sqrt (⟨0, 0, 1 / 2⟩ : Vec3 ℝ) < 1 ∧ (⟨0, 0, 1 / 2⟩ : Vec3 ℝ) ≠ 0 ∧
    ∃ d : Vec3 ℝ,
      sampleHemisphere Real.sqrt ⟨0, 0, -1⟩ ⟨[1, 1, 1, 0, 0, 1 / 2, 1 / 3], [1 / 4]⟩ =
        some (d, ⟨[1 / 3], [1 / 4]⟩) ∧
      length Real.sqrt d = 1 ∧ 0 ≤ dot d ⟨0, 0, -1⟩ ∧
      (d = normalize Real.sqrt ⟨0, 0, 1 / 2⟩ ∨ d = -normalize Real.sqrt ⟨0, 0, 1 / 2⟩) ∧
      (d = -normalize Real.sqrt ⟨0, 0, 1 / 2⟩ ↔
        dot (normalize Real.sqrt (⟨0, 0, 1 / 2⟩ : Vec3 ℝ)) ⟨0, 0, -1⟩ < 0) :=
  have hrej : ∀ q ∈ [(⟨1, 1, 1⟩ : Vec3 ℝ)], length Real.sqrt q ≥ 1 := by
    intro q hq
    rw [List.mem_singleton] at hq
    rw [hq, length, ge_iff_le, Real.one_le_sqrt]
    norm_num [dot]
  have hacc : length Real.sqrt (⟨0, 0, 1 / 2⟩ : Vec3 ℝ) < 1 := by
    rw [length_eq_of_dot isSqrt_real _ (by norm_num : (0 : ℝ) ≤ 1 / 2) (by norm_num [dot])]
    norm_num
  have hne : (⟨0, 0, 1 / 2⟩ : Vec3 ℝ) ≠ 0 := fun h => by
    have := congrArg Vec3.z h
    norm_num at this
  ⟨isSqrt_real, hrej, hacc, hne,
    sampleHemisphere_spec Real.sqrt isSqrt_real ⟨0, 0, -1⟩
      ⟨[1, 1, 1, 0, 0, 1 / 2, 1 / 3], [1 / 4]⟩ [⟨1, 1, 1⟩] ⟨0, 0, 1 / 2⟩ [1 / 3] rfl hrej hacc
      hne⟩

/-! ### The path without randomness -/

/-- At or beyond the depth cutoff traceRay returns the background color. -/
lemma traceRay_cutoff (sqrt : K → K) (tr : RayTracer K) (ray : Ray K) (depth : Int) (g : Rng K)
    (hd : depth ≥ tr.maxDepth) : traceRay sqrt tr ray depth g = some (tr.backgroundColor, g) := by
  rw [traceRay, traceRayFuel.eq_def]
  simp [hd]

/-- C23: with global illumination disabled, for every ray that misses or whose closest hit
has reflectance 0 and transparency 0, and at every depth, traceRay returns one color that
does not depend on the random source, and it returns the random source as it received it:
no draw is consumed, and two runs with different random sources return the same color. -/
theorem traceRay_deterministic (sqrt : K → K) (tr : RayTracer K) (ray : Ray K) (depth : Int)
    (hgi : tr.globalIllumination = false)
    (hcase : (hit sqrt tr ray HitRecord.uninit).1 = false ∨
      ((hit sqrt tr ray HitRecord.uninit).2.reflectance = 0 ∧
        (hit sqrt tr ray HitRecord.uninit).2.transparency = 0)) :
    ∃ c : Vec3 K, ∀ g : Rng K, traceRay sqrt tr ray depth g = some (c, g) := by
  by_cases hd : depth < tr.maxDepth
  · by_cases hh : (hit sqrt tr ray HitRecord.uninit).1 = true
    · rcases hcase with hmiss | ⟨hr, ht⟩
      · rw [hh] at hmiss
        exact absurd hmiss (by simp)
      · refine ⟨calculateLighting sqrt tr (hit sqrt tr ray HitRecord.uninit).2, fun g => ?_⟩
        rw [traceRay_unfold sqrt tr ray depth g hd, if_pos hh,
          shadeHit_local sqrt tr _ ray _ depth g hgi hr.le ht.le]
    · refine ⟨tr.backgroundColor, fun g => ?_⟩
      rw [traceRay_unfold sqrt tr ray depth g hd, if_neg hh]
  · exact ⟨tr.backgroundColor, fun g => traceRay_cutoff sqrt tr ray depth g (not_lt.mp hd)⟩

/-- Instance of C23: the one-plane scene (default material, global illumination off) and the
z axis ray at depth 0, traced with an empty random source and with a filled one. -/
theorem traceRay_deterministic_witness :
    (sceneOnePlane : RayTracer ℚ).globalIllumination = false ∧
    (hit Rat.sqrt (sceneOnePlane : RayTracer ℚ) rayZ HitRecord.uninit).1 = true ∧
    (hit Rat.sqrt (sceneOnePlane : RayTracer ℚ) rayZ HitRecord.uninit).2.reflectance = 0 ∧
    (hit Rat.sqrt (sceneOnePlane : RayTracer ℚ) rayZ HitRecord.uninit).2.transparency = 0 ∧
    ∃ c : Vec3 ℚ,
      traceRay Rat.sqrt sceneOnePlane rayZ 0 ⟨[], []⟩ = some (c, ⟨[], []⟩) ∧
      traceRay Rat.sqrt sceneOnePlane rayZ 0 ⟨[1 / 2, 0, 0], [1 / 3]⟩ =
        some (c, ⟨[1 / 2, 0, 0], [1 / 3]⟩) :=
  have hr : (hit Rat.sqrt (sceneOnePlane : RayTracer ℚ) rayZ HitRecord.uninit).2.reflectance = 0 := by
    rw [hit_sceneOnePlane]; exact (hit_sceneOnePlane_fields _).1
  have ht : (hit Rat.sqrt (sceneOnePlane : RayTracer ℚ) rayZ HitRecord.uninit).2.transparency = 0 := by
    rw [hit_sceneOnePlane]; exact (hit_sceneOnePlane_fields _).2.1
  ⟨rfl, by rw [hit_sceneOnePlane], hr, ht,
    (traceRay_deterministic Rat.sqrt sceneOnePlane rayZ 0 rfl (Or.inr ⟨hr, ht⟩)).elim
      (fun c hc => ⟨c, hc _, hc _⟩)⟩

/-! ### Degenerate spheres -/

/-- An exact square root of zero is zero. -/
lemma IsSqrt.sqrt_zero {sqrt : K → K} (hs : IsSqrt sqrt) : sqrt 0 = 0 := by
  have h := hs.sqrt_mul_self (le_refl (0 : K))
  rwa [mul_zero] at h

/-- A vector of squared length zero is the zero vector. -/
lemma eq_zero_of_dot_self {v : Vec3 K} (h : dot v v = 0) : v = 0 := by
  by_contra hv
  exact (dot_self_pos hv).ne' h

/-- The discriminant, given a root `t` of the quadratic, is a square. -/
lemma quadDisc_of_root (center : Vec3 K) (radius : K) (ray : Ray K) (t : K)
    (ht : quadA ray * (t * t) + quadB center ray * t + quadC center radius ray = 0) :
    quadDisc center radius ray =
      (2 * quadA ray * t + quadB center ray) * (2 * quadA ray * t + quadB center ray) := by
  unfold quadDisc
  linear_combination (-4 * quadA ray) * ht

/-- The sphere test succeeds as soon as some parameter of the range is a root of the
quadratic (exact square root, nonzero direction). -/
lemma hitSphere_of_root {sqrt : K → K} (hs : IsSqrt sqrt) (sphere : Sphere K) (ray : Ray K)
    (record : HitRecord K) (ha : 0 < quadA ray) (t : K) (hr : ray.InRange t)
    (ht : quadA ray * (t * t) + quadB sphere.center ray * t +
      quadC sphere.center sphere.radius ray = 0) :
    (hitSphere sqrt sphere ray record).1 = true := by
  have hd : 0 ≤ quadDisc sphere.center sphere.radius ray := by
    rw [quadDisc_of_root _ _ _ t ht]
    exact mul_self_nonneg _
  have hroots := ((roots_spec hs sphere.center sphere.radius ray ha hd).2 t).1 ht
  rw [hitSphere_eq, if_neg (not_lt.mpr hd)]
  by_cases h1 : ray.InRange (rootNear sqrt sphere.center sphere.radius ray)
  · rw [if_pos h1]
  · rw [if_neg h1]
    rcases hroots with e | e
    · rw [if_pos (e ▸ hr)]
    · exact absurd (e ▸ hr) h1

/-- A successful sphere test writes a parameter of the range at which the point of the ray
is at squared distance `radius * radius` from the center (exact square root, nonzero
direction). -/
lemma hitSphere_on_sphere {sqrt : K → K} (hs : IsSqrt sqrt) (sphere : Sphere K) (ray : Ray K)
    (record : HitRecord K) (ha : 0 < quadA ray)
    (h : (hitSphere sqrt sphere ray record).1 = true) :
    ray.InRange (hitSphere sqrt sphere ray record).2.t ∧
    (hitSphere sqrt sphere ray record).2.point =
      ray.at (hitSphere sqrt sphere ray record).2.t ∧
    dot ((hitSphere sqrt sphere ray record).2.point - sphere.center)
        ((hitSphere sqrt sphere ray record).2.point - sphere.center) =
      sphere.radius * sphere.radius := by
  obtain ⟨hd, hc⟩ := hitSphere_true sqrt sphere ray record h
  rcases hc with ⟨h1, e⟩ | ⟨_, h2, e⟩
  · rw [e]
    exact ⟨h1, rfl, dist_at_root hs _ _ ray ha hd _ (Or.inr rfl)⟩
  · rw [e]
    exact ⟨h2, rfl, dist_at_root hs _ _ ray ha hd _ (Or.inl rfl)⟩

/-- C25 fails as stated: the z axis ray passes through the center of the sphere of radius 0
at `(0, 0, 5)`, the discriminant is 0 and not negative, and hitSphere reports a hit, at
`t = 5`. -/
theorem hitSphere_zero_radius_hit :
    (spherePoint : Sphere ℝ).radius = 0 ∧
    (hitSphere Real.sqrt spherePoint rayZ HitRecord.uninit).1 = true ∧
    (hitSphere Real.sqrt spherePoint rayZ HitRecord.uninit).2.t = 5 := by
  have hroots := roots_on_axis isSqrt_real (rayZ : Ray ℝ) (spherePoint : Sphere ℝ).center 0 5
    dot_rayZ (by ext <;> simp [spherePoint, rayZ])
  have hin : (rayZ : Ray ℝ).InRange (rootNear Real.sqrt (spherePoint : Sphere ℝ).center 0 rayZ) := by
    rw [hroots.2.1]
    constructor <;> simp only [rayZ] <;> norm_num
  have e : hitSphere Real.sqrt (spherePoint : Sphere ℝ) rayZ HitRecord.uninit =
      (true, hitSphereWrite spherePoint rayZ HitRecord.uninit
        (rootNear Real.sqrt (spherePoint : Sphere ℝ).center 0 rayZ)) := by
    rw [hitSphere_eq]
    have hr : (spherePoint : Sphere ℝ).radius = 0 := rfl
    rw [hr, if_neg (by rw [hroots.1]; norm_num), if_pos hin]
  refine ⟨rfl, by rw [e], ?_⟩
  rw [e, hitSphereWrite_t, hroots.2.1]
  norm_num

/-- C25 (amended): for a sphere of radius 0 and a ray of nonzero direction (exact square
root), hitSphere reports a hit exactly when the ray passes through the center at a parameter
of `[tMin, tMax]`, and then the written point is the center; for every other ray it reports
no hit and leaves the record as it was. -/
theorem hitSphere_zero_radius (sqrt : K → K) (hs : IsSqrt sqrt) (sphere : Sphere K)
    (ray : Ray K) (record : HitRecord K) (ha : 0 < quadA ray) (hr : sphere.radius = 0) :
    ((hitSphere sqrt sphere ray record).1 = true ↔
      ∃ t : K, ray.InRange t ∧ ray.at t = sphere.center) ∧
    ((hitSphere sqrt sphere ray record).1 = true →
      (hitSphere sqrt sphere ray record).2.point = sphere.center) ∧
    ((¬ ∃ t : K, ray.InRange t ∧ ray.at t = sphere.center) →
      hitSphere sqrt sphere ray record = (false, record)) := by
  have hpoint : (hitSphere sqrt sphere ray record).1 = true →
      ray.InRange (hitSphere sqrt sphere ray record).2.t ∧
      ray.at (hitSphere sqrt sphere ray record).2.t = sphere.center ∧
      (hitSphere sqrt sphere ray record).2.point = sphere.center := by
    intro h
    obtain ⟨hin, hp, hdist⟩ := hitSphere_on_sphere hs sphere ray record ha h
    rw [hr, mul_zero] at hdist
    have h0 := eq_zero_of_dot_self hdist
    have hc : (hitSphere sqrt sphere ray record).2.point = sphere.center := by
      have hx := congrArg Vec3.x h0
      have hy := congrArg Vec3.y h0
      have hz := congrArg Vec3.z h0
      simp only [Vec3.sub_x, Vec3.sub_y, Vec3.sub_z, Vec3.zero_x, Vec3.zero_y, Vec3.zero_z,
        sub_eq_zero] at hx hy hz
      exact Vec3.ext hx hy hz
    exact ⟨hin, by rw [← hp]; exact hc, hc⟩
  have hiff : (hitSphere sqrt sphere ray record).1 = true ↔
      ∃ t : K, ray.InRange t ∧ ray.at t = sphere.center := by
    constructor
    · intro h
      exact ⟨_, (hpoint h).1, (hpoint h).2.1⟩
    · rintro ⟨t, hin, hat⟩
      apply hitSphere_of_root hs sphere ray record ha t hin
      rw [quad_eq_dist, hat, hr]
      simp [dot]
  refine ⟨hiff, fun h => (hpoint h).2.2, ?_⟩
  intro hno
  have hf : (hitSphere sqrt sphere ray record).1 = false := by
    rw [← Bool.not_eq_true]
    exact fun h => hno (hiff.1 h)
  have h2 : (hitSphere sqrt sphere ray record).2 = record := by
    rw [hitSphere_eq] at hf ⊢
    split_ifs at hf ⊢ <;> rfl
  exact Prod.ext hf h2

/-- Instance of C25 (amended) over the reals: the z axis ray and the sphere of radius 0 at
`(0, 0, 5)`. -/
theorem hitSphere_zero_radius_witness :
    IsSqrt Real.sqrt ∧ 0 < quadA (rayZ : Ray ℝ) ∧ (spherePoint : Sphere ℝ).radius = 0 ∧
    ((hitSphere Real.sqrt (spherePoint : Sphere ℝ) rayZ HitRecord.uninit).1 = true ↔
      ∃ t : ℝ, (rayZ : Ray ℝ).InRange t ∧ (rayZ : Ray ℝ).at t = (spherePoint : Sphere ℝ).center) :=
  ⟨isSqrt_real, by rw [quadA_rayZ]; exact one_pos, rfl,
    (hitSphere_zero_radius Real.sqrt isSqrt_real spherePoint rayZ HitRecord.uninit
      (by rw [quadA_rayZ]; exact one_pos) rfl).1⟩

/-- C26 fails as stated: the z axis ray touches the unit sphere centered at `(1, 0, 5)`, the
discriminant is exactly 0 and hitSphere reports a hit, at `t = 5`. -/
theorem hitSphere_zero_discriminant_hit :
    quadDisc (sphereTangent : Sphere ℝ).center (sphereTangent : Sphere ℝ).radius rayZ = 0 ∧
    (hitSphere Real.sqrt sphereTangent rayZ HitRecord.uninit).1 = true ∧
    (hitSphere Real.sqrt sphereTangent rayZ HitRecord.uninit).2.t = 5 := by
  have hd : quadDisc (sphereTangent : Sphere ℝ).center (sphereTangent : Sphere ℝ).radius rayZ
      = 0 := by
    simp only [quadDisc, quadA, quadB, quadC, sphereTangent, rayZ, dot, Vec3.sub_x, Vec3.sub_y,
      Vec3.sub_z]
    norm_num
  have hroot : rootNear Real.sqrt (sphereTangent : Sphere ℝ).center
      (sphereTangent : Sphere ℝ).radius rayZ = 5 := by
    rw [rootNear, hd, Real.sqrt_zero, quadA_rayZ]
    simp only [quadB, sphereTangent, rayZ, dot, Vec3.sub_x, Vec3.sub_y, Vec3.sub_z]
    norm_num
  have hin : (rayZ : Ray ℝ).InRange (rootNear Real.sqrt (sphereTangent : Sphere ℝ).center
      (sphereTangent : Sphere ℝ).radius rayZ) := by
    rw [hroot]
    constructor <;> simp only [rayZ] <;> norm_num
  have e : hitSphere Real.sqrt (sphereTangent : Sphere ℝ) rayZ HitRecord.uninit =
      (true, hitSphereWrite sphereTangent rayZ HitRecord.uninit
        (rootNear Real.sqrt (sphereTangent : Sphere ℝ).center
          (sphereTangent : Sphere ℝ).radius rayZ)) := by
    rw [hitSphere_eq, if_neg (by rw [hd]; exact lt_irrefl 0), if_pos hin]
  refine ⟨hd, by rw [e], ?_⟩
  rw [e, hitSphereWrite_t, hroot]

/-- C26 (amended): a zero discriminant is not rejected.  For every sphere and every ray of
nonzero direction whose quadratic has discriminant exactly 0 (exact square root), both
candidate roots are the double root `-b / (2 * a)`, and hitSphere reports a hit exactly when
that root lies in `[tMin, tMax]`; the hit then has `t = -b / (2 * a)` and its point lies on
the sphere.  Only a negative discriminant is rejected outright. -/
theorem hitSphere_zero_discriminant (sqrt : K → K) (hs : IsSqrt sqrt) (sphere : Sphere K)
    (ray : Ray K) (record : HitRecord K) (ha : 0 < quadA ray)
    (hd : quadDisc sphere.center sphere.radius ray = 0) :
    rootNear sqrt sphere.center sphere.radius ray =
      -quadB sphere.center ray / (2 * quadA ray) ∧
    rootFar sqrt sphere.center sphere.radius ray =
      -quadB sphere.center ray / (2 * quadA ray) ∧
    ((hitSphere sqrt sphere ray record).1 = true ↔
      ray.InRange (-quadB sphere.center ray / (2 * quadA ray))) ∧
    ((hitSphere sqrt sphere ray record).1 = true →
      (hitSphere sqrt sphere ray record).2.t = -quadB sphere.center ray / (2 * quadA ray) ∧
      dot ((hitSphere sqrt sphere ray record).2.point - sphere.center)
          ((hitSphere sqrt sphere ray record).2.point - sphere.center) =
        sphere.radius * sphere.radius) ∧
    (¬ ray.InRange (-quadB sphere.center ray / (2 * quadA ray)) →
      hitSphere sqrt sphere ray record = (false, record)) := by
  have hn : rootNear sqrt sphere.center sphere.radius ray =
      -quadB sphere.center ray / (2 * quadA ray) := by
    rw [rootNear, hd, hs.sqrt_zero, sub_zero]
  have hf : rootFar sqrt sphere.center sphere.radius ray =
      -quadB sphere.center ray / (2 * quadA ray) := by
    rw [rootFar, hd, hs.sqrt_zero, add_zero]
  have hnd : ¬ quadDisc sphere.center sphere.radius ray < 0 := by
    rw [hd]; exact lt_irrefl 0
  have hiff : (hitSphere sqrt sphere ray record).1 = true ↔
      ray.InRange (-quadB sphere.center ray / (2 * quadA ray)) := by
    rw [hitSphere_eq, if_neg hnd, hn, hf]
    by_cases hin : ray.InRange (-quadB sphere.center ray / (2 * quadA ray))
    · simp [hin]
    · simp [hin]
  refine ⟨hn, hf, hiff, ?_, ?_⟩
  · intro h
    refine ⟨?_, (hitSphere_on_sphere hs sphere ray record ha h).2.2⟩
    rw [hitSphere_eq, if_neg hnd, hn, hf, if_pos (hiff.1 h)]
    rfl
  · intro hout
    rw [hitSphere_eq, if_neg hnd, hn, hf, if_neg hout, if_neg hout]

/-- Instance of C26 (amended) over the reals: the z axis ray and the unit sphere centered at
`(1, 0, 5)`. -/
theorem hitSphere_zero_discriminant_witness :
    IsSqrt Real.sqrt ∧ 0 < quadA (rayZ : Ray ℝ) ∧
    quadDisc (sphereTangent : Sphere ℝ).center (sphereTangent : Sphere ℝ).radius rayZ = 0 ∧
    ((hitSphere Real.sqrt (sphereTangent : Sphere ℝ) rayZ HitRecord.uninit).1 = true ↔
      (rayZ : Ray ℝ).InRange
        (-quadB (sphereTangent : Sphere ℝ).center rayZ / (2 * quadA (rayZ : Ray ℝ)))) :=
  have hd : quadDisc (sphereTangent : Sphere ℝ).center (sphereTangent : Sphere ℝ).radius rayZ
      = 0 := by
    simp only [quadDisc, quadA, quadB, quadC, sphereTangent, rayZ, dot, Vec3.sub_x, Vec3.sub_y,
      Vec3.sub_z]
    norm_num
  ⟨isSqrt_real, by rw [quadA_rayZ]; exact one_pos, hd,
    (hitSphere_zero_discriminant Real.sqrt isSqrt_real sphereTangent rayZ HitRecord.uninit
      (by rw [quadA_rayZ]; exact one_pos) hd).2.2.1⟩

/-! ### The direction of the reflected ray -/

/-- A point returned by the rejection loop has length below one. -/
lemma rejectionLoop_length (sqrt : K → K) (p : Vec3 K) (rest : List K) :
    ∀ (n : Nat) (l : List K), l.length ≤ n → rejectionLoop sqrt l = some (p, rest) →
      length sqrt p < 1 := by
  intro n
  induction n with
  | zero =>
    intro l hl h
    have : l = [] := List.length_eq_zero.mp (Nat.le_zero.mp hl)
    subst this
    simp [rejectionLoop] at h
  | succ n ih =>
    intro l hl h
    match l, hl, h with
    | [], _, h => simp [rejectionLoop] at h
    | [_], _, h => simp [rejectionLoop] at h
    | [_, _], _, h => simp [rejectionLoop] at h
    | a :: b :: c :: l2, hl, h =>
      rw [rejectionLoop] at h
      by_cases hge : length sqrt (⟨a, b, c⟩ : Vec3 K) ≥ 1
      · rw [if_pos hge] at h
        refine ih l2 ?_ h
        simp only [List.length_cons] at hl
        omega
      · rw [if_neg hge] at h
        simp only [Option.some.injEq, Prod.mk.injEq] at h
        rw [← h.1]
        exact not_le.mp hge

/-- The point returned by randomInUnitSphere has length below one, hence squared length
below one for an exact square root. -/
lemma randomInUnitSphere_length {sqrt : K → K} (hs : IsSqrt sqrt) (g g1 : Rng K) (p : Vec3 K)
    (h : randomInUnitSphere sqrt g = some (p, g1)) : length sqrt p < 1 ∧ dot p p < 1 := by
  have hl : length sqrt p < 1 := by
    unfold randomInUnitSphere at h
    cases hr : rejectionLoop sqrt g.sphere with
    | none => rw [hr] at h; exact absurd h (by simp)
    | some q =>
      obtain ⟨p2, rest⟩ := q
      rw [hr] at h
      simp only [Option.some.injEq, Prod.mk.injEq] at h
      rw [← h.1]
      exact rejectionLoop_length sqrt p2 rest _ g.sphere (le_refl _) hr
  refine ⟨hl, ?_⟩
  have h0 : 0 ≤ length sqrt p := hs.nonneg (dot_self_nonneg p)
  rw [← length_mul_self hs p]
  nlinarith

/-- The mirror direction of a unit direction about a unit normal is a unit vector. -/
lemma dot_reflect (I N : Vec3 K) (hN : dot N N = 1) :
    dot (reflect I N) (reflect I N) = dot I I := by
  have e : dot (reflect I N) (reflect I N) =
      dot I I + 4 * (dot N I * dot N I) * (dot N N - 1) := by
    simp only [reflect, dot, Vec3.sub_x, Vec3.sub_y, Vec3.sub_z, Vec3.scale_x, Vec3.scale_y,
      Vec3.scale_z]
    ring
  rw [e, hN]; ring

/-- Normalizing a vector of squared length one leaves it as it is. -/
lemma normalize_of_unit {sqrt : K → K} (hs : IsSqrt sqrt) {v : Vec3 K} (h : dot v v = 1) :
    normalize sqrt v = v := by
  rw [normalize_eq_scale hs v zero_le_one (by rw [h, mul_one])]
  ext <;> simp

/-- C27: for a hit with `0 < reflectance <= 1`, a ray of unit direction, a unit normal and an
exact square root, let `m = ray.direction - 2 * dot(hit.normal, ray.direction) * hit.normal`
be the mirror direction, of length 1.  For `reflectance = 1` calculateReflection is the trace,
at `depth + 1` and with the random source untouched, of the ray from `hit.point` with
direction exactly `m`.  For `reflectance < 1` and `p` the point returned by
randomInUnitSphere (so `|p| < 1`), the vector `m + (1 - reflectance) * p` is not zero, since
`|(1 - reflectance) * p| < 1 = |m|`, and calculateReflection is the trace at `depth + 1` of the
ray from `hit.point` with direction `normalize(m + (1 - reflectance) * p)`. -/
theorem calculateReflection_direction (sqrt : K → K) (hs : IsSqrt sqrt)
    (trace : Ray K → Int → Rng K → Option (Vec3 K × Rng K)) (ray : Ray K) (h : HitRecord K)
    (depth : Int) (g : Rng K) (hdir : dot ray.direction ray.direction = 1)
    (hn : dot h.normal h.normal = 1) (hr0 : 0 < h.reflectance) (hr1 : h.reflectance ≤ 1) :
    reflect ray.direction h.normal =
      ray.direction - h.normal.scale (2 * dot h.normal ray.direction) ∧
    dot (reflect ray.direction h.normal) (reflect ray.direction h.normal) = 1 ∧
    (h.reflectance = 1 →
      calculateReflection sqrt trace ray h depth g =
        trace { origin := h.point, direction := reflect ray.direction h.normal,
                tMin := 1 / 1000, tMax := 1000 } (depth + 1) g) ∧
    (h.reflectance < 1 → ∀ (p : Vec3 K) (g1 : Rng K),
      randomInUnitSphere sqrt g = some (p, g1) →
      length sqrt p < 1 ∧
      dot (p.scale (1 - h.reflectance)) (p.scale (1 - h.reflectance)) < 1 ∧
      reflect ray.direction h.normal + p.scale (1 - h.reflectance) ≠ 0 ∧
      calculateReflection sqrt trace ray h depth g =
        trace { origin := h.point,
                direction := normalize sqrt
                  (reflect ray.direction h.normal + p.scale (1 - h.reflectance)),
                tMin := 1 / 1000, tMax := 1000 } (depth + 1) g1) := by
  have hm : dot (reflect ray.direction h.normal) (reflect ray.direction h.normal) = 1 := by
    rw [dot_reflect _ _ hn, hdir]
  refine ⟨?_, hm, ?_, ?_⟩
  · ext <;> simp [reflect] <;> ring
  · intro h1
    unfold calculateReflection
    rw [if_neg (by rw [h1]; exact lt_irrefl 1), Ray.ctor, normalize_of_unit hs hm]
  · intro hlt p g1 hp
    obtain ⟨hlen, hpp⟩ := randomInUnitSphere_length hs g g1 p hp
    have hq : dot (p.scale (1 - h.reflectance)) (p.scale (1 - h.reflectance)) < 1 := by
      rw [dot_scale_scale]
      have h0 := dot_self_nonneg p
      have ha : 0 ≤ 1 - h.reflectance := by linarith
      have hb : 1 - h.reflectance < 1 := by linarith
      have hsq : (1 - h.reflectance) * (1 - h.reflectance) ≤ 1 := by nlinarith
      nlinarith
    have hne : reflect ray.direction h.normal + p.scale (1 - h.reflectance) ≠ 0 := by
      intro e
      have hneg : p.scale (1 - h.reflectance) = -reflect ray.direction h.normal := by
        have hx := congrArg Vec3.x e
        have hy := congrArg Vec3.y e
        have hz := congrArg Vec3.z e
        simp only [Vec3.add_x, Vec3.add_y, Vec3.add_z, Vec3.zero_x, Vec3.zero_y,
          Vec3.zero_z] at hx hy hz
        ext
        · rw [Vec3.neg_x]; linarith
        · rw [Vec3.neg_y]; linarith
        · rw [Vec3.neg_z]; linarith
      rw [hneg, dot_neg_neg, hm] at hq
      exact lt_irrefl 1 hq
    refine ⟨hlen, hq, hne, ?_⟩
    unfold calculateReflection
    rw [if_pos hlt, hp]
    simp only []
    rw [Ray.ctor, normalize_normalize hs]

/-- Instance of C27 over the reals: the z axis ray on the mirror plane.  With
`reflectance = 1` it is reflected along the mirror direction exactly, whatever the random
source holds; with `reflectance = 1/2` and the drawn point `(0, 0, 1/2)` the perturbed
vector is not zero. -/
theorem calculateReflection_direction_witness :
    IsSqrt Real.sqrt ∧
    dot (rayZ : Ray ℝ).direction (rayZ : Ray ℝ).direction = 1 ∧
    dot (recMirror : HitRecord ℝ).normal (recMirror : HitRecord ℝ).normal = 1 ∧
    0 < (recMirror : HitRecord ℝ).reflectance ∧ (recMirror : HitRecord ℝ).reflectance ≤ 1 ∧
    calculateReflection Real.sqrt (traceRay Real.sqrt sceneMirror) rayZ recMirror 0
        ⟨[1, 1, 1], []⟩ =
      traceRay Real.sqrt sceneMirror
        { origin := (recMirror : HitRecord ℝ).point,
          direction := reflect (rayZ : Ray ℝ).direction (recMirror : HitRecord ℝ).normal,
          tMin := 1 / 1000, tMax := 1000 } (0 + 1) ⟨[1, 1, 1], []⟩ ∧
    randomInUnitSphere Real.sqrt ⟨[0, 0, 1 / 2], []⟩ = some (⟨0, 0, 1 / 2⟩, ⟨[], []⟩) ∧
    reflect (rayZ : Ray ℝ).direction (recMirror : HitRecord ℝ).normal +
      (⟨0, 0, 1 / 2⟩ : Vec3 ℝ).scale (1 - 1 / 2) ≠ 0 :=
  have hn : dot (recMirror : HitRecord ℝ).normal (recMirror : HitRecord ℝ).normal = 1 := by
    simp [recMirror, dot]
  have hr0 : 0 < (recMirror : HitRecord ℝ).reflectance := by simp [recMirror]
  have hr1 : (recMirror : HitRecord ℝ).reflectance ≤ 1 := by simp [recMirror]
  have hacc : length Real.sqrt (⟨0, 0, 1 / 2⟩ : Vec3 ℝ) < 1 := by
    rw [length_eq_of_dot isSqrt_real _ (by norm_num : (0 : ℝ) ≤ 1 / 2) (by norm_num [dot])]
    norm_num
  have hp : randomInUnitSphere Real.sqrt ⟨[0, 0, 1 / 2], []⟩ =
      some ((⟨0, 0, 1 / 2⟩ : Vec3 ℝ), ⟨[], []⟩) :=
    (randomUnitVector_tape Real.sqrt ⟨[0, 0, 1 / 2], []⟩ [] ⟨0, 0, 1 / 2⟩ [] rfl
      (fun q hq => absurd hq (List.not_mem_nil q)) hacc).1
  ⟨isSqrt_real, dot_rayZ, hn, hr0, hr1,
    (calculateReflection_direction Real.sqrt isSqrt_real (traceRay Real.sqrt sceneMirror) rayZ
      recMirror 0 ⟨[1, 1, 1], []⟩ dot_rayZ hn hr0 hr1).2.2.1 rfl,
    hp,
    ((calculateReflection_direction Real.sqrt isSqrt_real (traceRay Real.sqrt sceneMirror) rayZ
      { (recMirror : HitRecord ℝ) with reflectance := 1 / 2 } 0 ⟨[0, 0, 1 / 2], []⟩ dot_rayZ hn
      (by norm_num) (by norm_num)).2.2.2 (by norm_num) _ _ hp).2.2.1⟩

/-! ### The offset of the shadow ray -/

/-- The point at which a ray meets a plane lies on the plane. -/
lemma at_planeT_on_plane (plane : Plane K) (ray : Ray K)
    (h : dot plane.normal ray.direction ≠ 0) :
    dot (ray.at (planeT plane ray) - plane.point) plane.normal = 0 := by
  have e : ∀ t : K, dot (ray.at t - plane.point) plane.normal =
      t * dot plane.normal ray.direction - dot (plane.point - ray.origin) plane.normal := by
    intro t
    simp only [Ray.at, dot, Vec3.sub_x, Vec3.sub_y, Vec3.sub_z, Vec3.add_x, Vec3.add_y,
      Vec3.add_z, Vec3.scale_x, Vec3.scale_y, Vec3.scale_z]
    ring
  rw [e, planeT, div_mul_cancel₀ _ h, sub_self]

/-- A ray that starts `0.001` off a point of a plane, on the side of the vector `N`
(the plane normal or its negation), and whose direction has a positive scalar product with
`N`, would meet the plane at a negative parameter. -/
lemma planeT_offset_neg (plane : Plane K) (P N : Vec3 K) (sr : Ray K)
    (hP : dot (P - plane.point) plane.normal = 0)
    (hN : N = plane.normal ∨ N = -plane.normal)
    (hnn : 0 < dot plane.normal plane.normal)
    (ho : sr.origin = P + N.scale (1 / 1000)) (hL : 0 < dot N sr.direction) :
    planeT plane sr < 0 := by
  have hnum : dot (plane.point - sr.origin) plane.normal =
      -dot (P - plane.point) plane.normal - 1 / 1000 * dot N plane.normal := by
    rw [ho]
    simp only [dot, Vec3.sub_x, Vec3.sub_y, Vec3.sub_z, Vec3.add_x, Vec3.add_y, Vec3.add_z,
      Vec3.scale_x, Vec3.scale_y, Vec3.scale_z]
    ring
  rw [planeT, hnum, hP]
  rcases hN with e | e
  · rw [e] at hL ⊢
    exact div_neg_of_neg_of_pos (by linarith) hL
  · rw [e, dot_neg_left] at hL ⊢
    exact div_neg_of_pos_of_neg (by linarith) (by linarith)

/-- A sphere test fails when the three coefficients of the quadratic are positive and
`tMin` is not negative: both roots, if any, are negative. -/
lemma hitSphere_of_pos_coeffs {sqrt : K → K} (hs : IsSqrt sqrt) (sphere : Sphere K)
    (sr : Ray K) (record : HitRecord K) (ha : 0 < quadA sr)
    (hb : 0 < quadB sphere.center sr) (hc : 0 < quadC sphere.center sphere.radius sr)
    (hmin : 0 ≤ sr.tMin) :
    hitSphere sqrt sphere sr record = (false, record) := by
  rw [hitSphere_eq]
  by_cases hd : quadDisc sphere.center sphere.radius sr < 0
  · rw [if_pos hd]
  · rw [if_neg hd]
    have hd0 := not_lt.mp hd
    have hsq := hs.mul_self hd0
    have hnn := hs.nonneg hd0
    have hlt : sqrt (quadDisc sphere.center sphere.radius sr) < quadB sphere.center sr := by
      by_contra hge
      have hge2 := not_lt.mp hge
      have h1 : quadB sphere.center sr * quadB sphere.center sr ≤
          sqrt (quadDisc sphere.center sphere.radius sr) *
            sqrt (quadDisc sphere.center sphere.radius sr) :=
        mul_self_le_mul_self hb.le hge2
      rw [hsq, quadDisc] at h1
      have h2 : 0 < 4 * quadA sr * quadC sphere.center sphere.radius sr :=
        mul_pos (mul_pos (by norm_num) ha) hc
      linarith
    have h2a : 0 < 2 * quadA sr := by linarith
    have hfar : rootFar sqrt sphere.center sphere.radius sr < 0 :=
      div_neg_of_neg_of_pos (by linarith) h2a
    have hnear : rootNear sqrt sphere.center sphere.radius sr < 0 :=
      div_neg_of_neg_of_pos (by linarith) h2a
    rw [if_neg (fun h => absurd (lt_of_lt_of_le hnear (le_trans hmin h.1)) (lt_irrefl _)),
      if_neg (fun h => absurd (lt_of_lt_of_le hfar (le_trans hmin h.1)) (lt_irrefl _))]

/-- The shadow ray of calculateLighting, for an exact square root: its origin, direction and
range. -/
lemma shadowRay_fields {sqrt : K → K} (hs : IsSqrt sqrt) (h : HitRecord K) (light : Light K) :
    (shadowRay sqrt h light).origin = h.point + h.normal.scale (1 / 1000) ∧
    (shadowRay sqrt h light).direction = normalize sqrt (light.position - h.point) ∧
    (shadowRay sqrt h light).tMin = 1 / 1000 ∧
    (shadowRay sqrt h light).tMax = length sqrt (light.position - h.point) - 1 / 1000 :=
  ⟨rfl, normalize_normalize hs _, rfl, rfl⟩

/-- The record of a successful plane test: its point is on the plane, its normal is the
plane normal or its negation, and the plane normal is not the zero vector. -/
lemma hitPlane_geometry (plane : Plane K) (ray : Ray K) (r0 : HitRecord K)
    (h : (hitPlane plane ray r0).1 = true) :
    dot ((hitPlane plane ray r0).2.point - plane.point) plane.normal = 0 ∧
    ((hitPlane plane ray r0).2.normal = plane.normal ∨
      (hitPlane plane ray r0).2.normal = -plane.normal) ∧
    0 < dot plane.normal plane.normal := by
  obtain ⟨⟨hden, _⟩, e⟩ := hitPlane_true plane ray r0 h
  have hne : dot plane.normal ray.direction ≠ 0 := by
    intro h0
    rw [h0, abs_zero] at hden
    norm_num at hden
  have hn0 : plane.normal ≠ 0 := by
    intro h0
    apply hne
    rw [h0]
    simp [dot]
  rw [e]
  refine ⟨at_planeT_on_plane plane ray hne, ?_, dot_self_pos hn0⟩
  rw [hitPlaneWrite_normal]
  by_cases hf : dot ray.direction plane.normal < 0
  · left; rw [if_pos (decide_eq_true hf)]
  · right; rw [if_neg (by simpa using hf)]

/-- The record of a successful front-face sphere test by a ray of nonzero direction: the
normal is the outward vector `(point - center) / radius`, of squared length one. -/
lemma hitSphere_front_normal {sqrt : K → K} (hs : IsSqrt sqrt) (sphere : Sphere K)
    (ray : Ray K) (r0 : HitRecord K) (ha : 0 < quadA ray)
    (h : (hitSphere sqrt sphere ray r0).1 = true)
    (hf : (hitSphere sqrt sphere ray r0).2.frontFace = true) :
    (hitSphere sqrt sphere ray r0).2.normal =
      ((hitSphere sqrt sphere ray r0).2.point - sphere.center).divS sphere.radius ∧
    dot ((hitSphere sqrt sphere ray r0).2.point - sphere.center)
        ((hitSphere sqrt sphere ray r0).2.point - sphere.center) =
      sphere.radius * sphere.radius := by
  refine ⟨?_, (hitSphere_on_sphere hs sphere ray r0 ha h).2.2⟩
  rcases (hitSphere_true sqrt sphere ray r0 h).2 with ⟨_, e⟩ | ⟨_, _, e⟩
  · rw [e] at hf ⊢
    rw [hitSphereWrite_frontFace] at hf
    rw [hitSphereWrite_normal, if_pos hf, hitSphereWrite_point]
  · rw [e] at hf ⊢
    rw [hitSphereWrite_frontFace] at hf
    rw [hitSphereWrite_normal, if_pos hf, hitSphereWrite_point]

/-- The coefficients of the quadratic for a ray that starts `0.001` outside a sphere of
radius `r > 0`, above the surface point `P`, with a direction that has a positive scalar
product with the outward normal at `P`: all three are positive. -/
lemma quad_offset_pos (center P : Vec3 K) (r : K) (sr : Ray K) (hr : 0 < r)
    (hP : dot (P - center) (P - center) = r * r)
    (ho : sr.origin = P + ((P - center).divS r).scale (1 / 1000))
    (hL : 0 < dot ((P - center).divS r) sr.direction) :
    0 < quadA sr ∧ 0 < quadB center sr ∧ 0 < quadC center r sr := by
  have hk : 0 < 1 + 1 / (1000 * r) := by positivity
  have hoc : sr.origin - center = (P - center).scale (1 + 1 / (1000 * r)) := by
    rw [ho]
    ext <;> simp <;> field_simp <;> ring
  have hPL : dot ((P - center).divS r) sr.direction = dot (P - center) sr.direction / r := by
    simp only [dot, Vec3.divS_x, Vec3.divS_y, Vec3.divS_z]
    field_simp
  have hPL2 : 0 < dot (P - center) sr.direction := by
    rw [hPL] at hL
    exact (div_pos_iff_of_pos_right hr).mp hL
  refine ⟨?_, ?_, ?_⟩
  · apply dot_self_pos
    intro h0
    rw [h0] at hPL2
    simp [dot] at hPL2
  · have : quadB center sr = 2 * ((1 + 1 / (1000 * r)) * dot (P - center) sr.direction) := by
      rw [quadB, hoc]
      simp only [dot, Vec3.scale_x, Vec3.scale_y, Vec3.scale_z]
      ring
    rw [this]
    positivity
  · have : quadC center r sr =
        (1 + 1 / (1000 * r)) * (1 + 1 / (1000 * r)) * (r * r) - r * r := by
      rw [quadC, hoc, dot_scale_scale, hP]
    rw [this]
    have h1 : 0 < 1 / (1000 * r) := by positivity
    have h2 : 0 < r * r := mul_pos hr hr
    have hkk : 1 < (1 + 1 / (1000 * r)) * (1 + 1 / (1000 * r)) := by nlinarith
    have h3 := mul_pos (sub_pos.mpr hkk) h2
    linarith

/-- The shadow ray over exact numbers (no rounding, exact square root).  For a light and the
record of a hit on a plane, or of a front-face hit by a ray of nonzero direction on a sphere
of radius `r > 0`, such that `dot(hit.normal, normalize(light.position - hit.point)) > 0`,
the shadow ray that calculateLighting casts for this light (origin
`hit.point + 0.001 * hit.normal`, `tMin = 0.001`, direction toward the light) is not reported
as hitting that same plane or sphere.  This says nothing about `float`: there the hit point
lies on the surface only up to rounding, and the offset is what has to absorb that error. -/
theorem shadowRay_avoids_self_intersection (sqrt : K → K) (hs : IsSqrt sqrt) (ray : Ray K)
    (light : Light K) (r0 r1 : HitRecord K) :
    (∀ plane : Plane K, (hitPlane plane ray r0).1 = true →
      0 < dot (hitPlane plane ray r0).2.normal
        (normalize sqrt (light.position - (hitPlane plane ray r0).2.point)) →
      hitPlane plane (shadowRay sqrt (hitPlane plane ray r0).2 light) r1 = (false, r1)) ∧
    (∀ sphere : Sphere K, 0 < sphere.radius → 0 < quadA ray →
      (hitSphere sqrt sphere ray r0).1 = true →
      (hitSphere sqrt sphere ray r0).2.frontFace = true →
      0 < dot (hitSphere sqrt sphere ray r0).2.normal
        (normalize sqrt (light.position - (hitSphere sqrt sphere ray r0).2.point)) →
      hitSphere sqrt sphere (shadowRay sqrt (hitSphere sqrt sphere ray r0).2 light) r1 =
        (false, r1)) ∧
    (∀ h : HitRecord K,
      (shadowRay sqrt h light).origin = h.point + h.normal.scale (1 / 1000) ∧
      (shadowRay sqrt h light).direction = normalize sqrt (light.position - h.point) ∧
      (shadowRay sqrt h light).tMin = 1 / 1000 ∧
      (shadowRay sqrt h light).tMax = length sqrt (light.position - h.point) - 1 / 1000) ∧
    (∀ (tr : RayTracer K) (h : HitRecord K) (color : Vec3 K),
      lightStep sqrt tr h color light =
        if (hit sqrt tr (shadowRay sqrt h light) HitRecord.uninit).1 = true then color
        else color + lightTerm sqrt h light) := by
  refine ⟨?_, ?_, fun h => shadowRay_fields hs h light,
    fun tr h color => lightStep_eq sqrt tr h color light⟩
  · intro plane hh hL
    obtain ⟨hP, hN, hnn⟩ := hitPlane_geometry plane ray r0 hh
    obtain ⟨ho, hd, hmin, _⟩ := shadowRay_fields hs (hitPlane plane ray r0).2 light
    have hneg := planeT_offset_neg plane _ _ (shadowRay sqrt (hitPlane plane ray r0).2 light)
      hP hN hnn ho (by rw [hd]; exact hL)
    rw [hitPlane_eq, if_neg]
    rintro ⟨_, hin, _⟩
    rw [hmin] at hin
    linarith
  · intro sphere hr ha hh hf hL
    obtain ⟨hN, hP⟩ := hitSphere_front_normal hs sphere ray r0 ha hh hf
    obtain ⟨ho, hd, hmin, _⟩ := shadowRay_fields hs (hitSphere sqrt sphere ray r0).2 light
    rw [hN] at hL ho
    obtain ⟨hqa, hqb, hqc⟩ := quad_offset_pos sphere.center _ sphere.radius
      (shadowRay sqrt (hitSphere sqrt sphere ray r0).2 light) hr hP ho (by rw [hd]; exact hL)
    exact hitSphere_of_pos_coeffs hs sphere _ r1 hqa hqb hqc (by rw [hmin]; norm_num)

/-- The record of the z axis ray on the unit sphere at `(0, 0, 5)`. -/
lemma hitSphere_sphereAhead_record {sqrt : K → K} (hs : IsSqrt sqrt) :
    hitSphere sqrt (sphereAhead : Sphere K) rayZ HitRecord.uninit = (true, recSphereAhead) := by
  have h := hitSphere_sphereAhead hs (HitRecord.uninit : HitRecord K)
  have hin : (rayZ : Ray K).InRange
      (rootNear sqrt (sphereAhead : Sphere K).center (sphereAhead : Sphere K).radius rayZ) := by
    rw [rootNear_sphereAhead hs]
    constructor <;> simp only [rayZ] <;> norm_num
  rcases (hitSphere_true sqrt sphereAhead rayZ HitRecord.uninit h).2 with ⟨_, e⟩ | ⟨h1, _, _⟩
  · rw [e, rootNear_sphereAhead hs]
    simp only [hitSphereWrite, HitRecord.setFaceNormal, HitRecord.uninit, sphereAhead, rayZ,
      RayTracingMaterial.default, recSphereAhead, Ray.at, dot, Prod.mk.injEq, true_and,
      HitRecord.mk.injEq, Vec3.splat]
    norm_num
    constructor <;> ext <;> norm_num
  · exact absurd hin h1

/-- The unit vector from a point of the positive z axis toward the origin. -/
lemma normalize_toward_origin {sqrt : K → K} (hs : IsSqrt sqrt) (a : K) (ha : 0 < a) :
    normalize sqrt ((⟨0, 0, 0⟩ : Vec3 K) - ⟨0, 0, a⟩) = ⟨0, 0, -1⟩ := by
  rw [normalize_eq_scale hs _ ha.le (by simp [dot])]
  have := ha.ne'
  ext <;> simp
  field_simp

/-- Instance over the reals, without rounding: the z axis ray hits the plane `z = 5` that faces the
origin, and the unit sphere at `(0, 0, 5)` from outside; the light is at the origin.  Neither
shadow ray is reported as hitting the surface it leaves. -/
theorem shadowRay_avoids_self_intersection_witness :
    IsSqrt Real.sqrt ∧
    (hitPlane (planeGlass : Plane ℝ) rayZ HitRecord.uninit).1 = true ∧
    0 < dot (hitPlane (planeGlass : Plane ℝ) rayZ HitRecord.uninit).2.normal
      (normalize Real.sqrt ((lightAtEye : Light ℝ).position -
        (hitPlane (planeGlass : Plane ℝ) rayZ HitRecord.uninit).2.point)) ∧
    hitPlane (planeGlass : Plane ℝ)
        (shadowRay Real.sqrt (hitPlane (planeGlass : Plane ℝ) rayZ HitRecord.uninit).2
          lightAtEye) HitRecord.uninit = (false, HitRecord.uninit) ∧
    0 < (sphereAhead : Sphere ℝ).radius ∧ 0 < quadA (rayZ : Ray ℝ) ∧
    (hitSphere Real.sqrt (sphereAhead : Sphere ℝ) rayZ HitRecord.uninit).1 = true ∧
    (hitSphere Real.sqrt (sphereAhead : Sphere ℝ) rayZ HitRecord.uninit).2.frontFace = true ∧
    0 < dot (hitSphere Real.sqrt (sphereAhead : Sphere ℝ) rayZ HitRecord.uninit).2.normal
      (normalize Real.sqrt ((lightAtEye : Light ℝ).position -
        (hitSphere Real.sqrt (sphereAhead : Sphere ℝ) rayZ HitRecord.uninit).2.point)) ∧
    hitSphere Real.sqrt (sphereAhead : Sphere ℝ)
        (shadowRay Real.sqrt (hitSphere Real.sqrt (sphereAhead : Sphere ℝ) rayZ
          HitRecord.uninit).2 lightAtEye) HitRecord.uninit = (false, HitRecord.uninit) :=
  have hp1 : (hitPlane (planeGlass : Plane ℝ) rayZ HitRecord.uninit).1 = true := by
    rw [hitPlane_planeGlass]
  have hp2 : 0 < dot (hitPlane (planeGlass : Plane ℝ) rayZ HitRecord.uninit).2.normal
      (normalize Real.sqrt ((lightAtEye : Light ℝ).position -
        (hitPlane (planeGlass : Plane ℝ) rayZ HitRecord.uninit).2.point)) := by
    rw [hitPlane_planeGlass]
    have e := normalize_toward_origin isSqrt_real (5 : ℝ) (by norm_num)
    simp only [lightAtEye, recGlass]
    rw [e]
    norm_num [dot]
  have hr : 0 < (sphereAhead : Sphere ℝ).radius := by simp [sphereAhead]
  have ha : 0 < quadA (rayZ : Ray ℝ) := by rw [quadA_rayZ]; exact one_pos
  have hs1 : (hitSphere Real.sqrt (sphereAhead : Sphere ℝ) rayZ HitRecord.uninit).1 = true :=
    hitSphere_sphereAhead isSqrt_real _
  have hs2 : (hitSphere Real.sqrt (sphereAhead : Sphere ℝ) rayZ
      HitRecord.uninit).2.frontFace = true := by
    rw [hitSphere_sphereAhead_record isSqrt_real]; rfl
  have hs3 : 0 < dot (hitSphere Real.sqrt (sphereAhead : Sphere ℝ) rayZ
      HitRecord.uninit).2.normal
      (normalize Real.sqrt ((lightAtEye : Light ℝ).position -
        (hitSphere Real.sqrt (sphereAhead : Sphere ℝ) rayZ HitRecord.uninit).2.point)) := by
    rw [hitSphere_sphereAhead_record isSqrt_real]
    have e := normalize_toward_origin isSqrt_real (4 : ℝ) (by norm_num)
    simp only [lightAtEye, recSphereAhead]
    rw [e]
    norm_num [dot]
  ⟨isSqrt_real, hp1, hp2,
    (shadowRay_avoids_self_intersection Real.sqrt isSqrt_real rayZ lightAtEye HitRecord.uninit
      HitRecord.uninit).1 planeGlass hp1 hp2,
    hr, ha, hs1, hs2, hs3,
    (shadowRay_avoids_self_intersection Real.sqrt isSqrt_real rayZ lightAtEye HitRecord.uninit
      HitRecord.uninit).2.1 sphereAhead hr ha hs1 hs2 hs3⟩

/-! ### The material members that are never read -/

lemma hitSphere_eraseUnused (sqrt : K → K) (s : Sphere K) (ray : Ray K) (r : HitRecord K) :
    hitSphere sqrt s.eraseUnused ray r = hitSphere sqrt s ray r := rfl

lemma hitPlane_eraseUnused (p : Plane K) (ray : Ray K) (r : HitRecord K) :
    hitPlane p.eraseUnused ray r = hitPlane p ray r := rfl

/-- The intersector does not read the erased members. -/
lemma hit_eraseUnused (sqrt : K → K) (tr : RayTracer K) (ray : Ray K) (record : HitRecord K) :
    hit sqrt tr.eraseUnused ray record = hit sqrt tr ray record := by
  have hS : ∀ (st : HitState K) (s : Sphere K),
      hitSphereStep sqrt ray st s.eraseUnused = hitSphereStep sqrt ray st s :=
    fun _ _ => rfl
  have hP : ∀ (st : HitState K) (p : Plane K),
      hitPlaneStep ray st p.eraseUnused = hitPlaneStep ray st p :=
    fun _ _ => rfl
  unfold hit
  simp only [RayTracer.eraseUnused, List.foldl_map, hS, hP]

/-- The local illumination does not read the erased members. -/
lemma calculateLighting_eraseUnused (sqrt : K → K) (tr : RayTracer K) (h : HitRecord K) :
    calculateLighting sqrt tr.eraseUnused h = calculateLighting sqrt tr h := by
  have hstep : lightStep sqrt tr.eraseUnused h = lightStep sqrt tr h := by
    funext color light
    unfold lightStep
    simp only [hit_eraseUnused]
  unfold calculateLighting
  rw [hstep]
  rfl

/-- The body of traceRay after a hit does not read the erased members. -/
lemma shadeHit_eraseUnused (sqrt : K → K) (tr : RayTracer K)
    (trace : Ray K → Int → Rng K → Option (Vec3 K × Rng K)) (ray : Ray K)
    (record : HitRecord K) (depth : Int) (g : Rng K) :
    shadeHit sqrt tr.eraseUnused trace ray record depth g =
      shadeHit sqrt tr trace ray record depth g := by
  have hgi : ∀ g1, calculateGlobalIllumination sqrt tr.eraseUnused trace record depth g1 =
      calculateGlobalIllumination sqrt tr trace record depth g1 := fun _ => rfl
  have hflag : tr.eraseUnused.globalIllumination = tr.globalIllumination := rfl
  unfold shadeHit
  simp only [calculateLighting_eraseUnused, hgi, hflag]

/-- The recursion of traceRay does not read the erased members. -/
lemma traceRayFuel_eraseUnused (sqrt : K → K) (tr : RayTracer K) :
    ∀ fuel : Nat, traceRayFuel sqrt tr.eraseUnused fuel = traceRayFuel sqrt tr fuel := by
  intro fuel
  induction fuel with
  | zero =>
    funext ray depth g
    rw [traceRayFuel.eq_def, traceRayFuel.eq_def]
    rfl
  | succ n ih =>
    funext ray depth g
    rw [traceRayFuel.eq_def, traceRayFuel.eq_def]
    simp only [ih, hit_eraseUnused, shadeHit_eraseUnused]
    rfl

lemma traceRay_eraseUnused (sqrt : K → K) (tr : RayTracer K) (ray : Ray K) (depth : Int)
    (g : Rng K) : traceRay sqrt tr.eraseUnused ray depth g = traceRay sqrt tr ray depth g := by
  unfold traceRay
  rw [traceRayFuel_eraseUnused]
  rfl

/-- C29: the members `roughness`, `refractiveIndex` and `emission` of the materials do not
interfere.  For two tracers that are equal once these members are erased from every sphere
and plane material, hit returns the same result and traceRay returns the same color and
random source, for every ray, depth and random source.  In particular the direction traced
by calculateRefraction is the mirror direction or `refract` with the ratio `1 / 1.5` (front
face) or `1.5`, whatever the material, and the record of a sphere or plane test, from which
calculateReflection takes `1 - reflectance` as the size of its perturbation, is the same for
two primitives that differ in the erased members only, its reflectance being `metallic`. -/
theorem traceRay_ignores_unused_material_fields (sqrt : K → K) (tr1 tr2 : RayTracer K)
    (hsame : tr1.eraseUnused = tr2.eraseUnused) :
    (∀ (ray : Ray K) (depth : Int) (g : Rng K),
      traceRay sqrt tr1 ray depth g = traceRay sqrt tr2 ray depth g) ∧
    (∀ (ray : Ray K) (record : HitRecord K),
      hit sqrt tr1 ray record = hit sqrt tr2 ray record) ∧
    (∀ (trace : Ray K → Int → Rng K → Option (Vec3 K × Rng K)) (ray : Ray K)
      (h : HitRecord K) (depth : Int) (g : Rng K),
      calculateRefraction sqrt trace ray h depth g = none ∨
      ∃ (dir : Vec3 K) (g1 : Rng K),
        (dir = reflect ray.direction h.normal ∨
          dir = refract sqrt ray.direction h.normal
            (if h.frontFace = true then 1 / (3 / 2) else 3 / 2)) ∧
        calculateRefraction sqrt trace ray h depth g =
          trace (Ray.ctor sqrt h.point dir) (depth + 1) g1) ∧
    (∀ (s1 s2 : Sphere K) (ray : Ray K) (r : HitRecord K),
      s1.eraseUnused = s2.eraseUnused →
      hitSphere sqrt s1 ray r = hitSphere sqrt s2 ray r ∧
      ((hitSphere sqrt s1 ray r).1 = true →
        (hitSphere sqrt s1 ray r).2.reflectance = s1.material.metallic)) ∧
    (∀ (p1 p2 : Plane K) (ray : Ray K) (r : HitRecord K),
      p1.eraseUnused = p2.eraseUnused →
      hitPlane p1 ray r = hitPlane p2 ray r ∧
      ((hitPlane p1 ray r).1 = true →
        (hitPlane p1 ray r).2.reflectance = p1.material.metallic)) := by
  refine ⟨?_, ?_, ?_, ?_, ?_⟩
  · intro ray depth g
    rw [← traceRay_eraseUnused sqrt tr1, hsame, traceRay_eraseUnused]
  · intro ray record
    rw [← hit_eraseUnused sqrt tr1, hsame, hit_eraseUnused]
  · intro trace ray h depth g
    have key : ∀ eta : K,
        (if decide (eta * sqrt (1 - min (dot (-ray.direction) h.normal) 1 *
              min (dot (-ray.direction) h.normal) 1) > 1) = true then
            trace (Ray.ctor sqrt h.point (reflect ray.direction h.normal)) (depth + 1) g
          else
            match random01 g with
            | none => none
            | some (u, g) =>
              if calculateFresnel sqrt (-ray.direction) h.normal 1 (3 / 2) > u then
                trace (Ray.ctor sqrt h.point (reflect ray.direction h.normal)) (depth + 1) g
              else
                trace (Ray.ctor sqrt h.point (refract sqrt ray.direction h.normal eta))
                  (depth + 1) g) = none ∨
        ∃ (dir : Vec3 K) (g1 : Rng K),
          (dir = reflect ray.direction h.normal ∨
            dir = refract sqrt ray.direction h.normal eta) ∧
          (if decide (eta * sqrt (1 - min (dot (-ray.direction) h.normal) 1 *
                min (dot (-ray.direction) h.normal) 1) > 1) = true then
              trace (Ray.ctor sqrt h.point (reflect ray.direction h.normal)) (depth + 1) g
            else
              match random01 g with
              | none => none
              | some (u, g) =>
                if calculateFresnel sqrt (-ray.direction) h.normal 1 (3 / 2) > u then
                  trace (Ray.ctor sqrt h.point (reflect ray.direction h.normal)) (depth + 1) g
                else
                  trace (Ray.ctor sqrt h.point (refract sqrt ray.direction h.normal eta))
                    (depth + 1) g) = trace (Ray.ctor sqrt h.point dir) (depth + 1) g1 := by
      intro eta
      by_cases hc : decide (eta * sqrt (1 - min (dot (-ray.direction) h.normal) 1 *
          min (dot (-ray.direction) h.normal) 1) > 1) = true
      · rw [if_pos hc]
        exact Or.inr ⟨_, g, Or.inl rfl, rfl⟩
      · rw [if_neg hc]
        cases hu : random01 g with
        | none => exact Or.inl rfl
        | some q =>
          obtain ⟨u, g1⟩ := q
          simp only []
          by_cases hf : calculateFresnel sqrt (-ray.direction) h.normal 1 (3 / 2) > u
          · rw [if_pos hf]
            exact Or.inr ⟨_, g1, Or.inl rfl, rfl⟩
          · rw [if_neg hf]
            exact Or.inr ⟨_, g1, Or.inr rfl, rfl⟩
    exact key (if h.frontFace = true then 1 / (3 / 2) else 3 / 2)
  · intro s1 s2 ray r hs12
    refine ⟨?_, ?_⟩
    · rw [← hitSphere_eraseUnused sqrt s1, hs12, hitSphere_eraseUnused]
    · intro hh
      rcases (hitSphere_true sqrt s1 ray r hh).2 with ⟨_, e⟩ | ⟨_, _, e⟩ <;> rw [e] <;> rfl
  · intro p1 p2 ray r hp12
    refine ⟨?_, ?_⟩
    · rw [← hitPlane_eraseUnused p1, hp12, hitPlane_eraseUnused]
    · intro hh
      rw [(hitPlane_true p1 ray r hh).2]
      rfl

/-- Instance of C29: the one-plane scene and its variant whose plane is rough, glowing and
of refractive index 2.4 are traced to the same color. -/
theorem traceRay_ignores_unused_material_fields_witness :
    (sceneOnePlane : RayTracer ℚ).eraseUnused = (sceneOnePlaneRough : RayTracer ℚ).eraseUnused ∧
    (sceneOnePlane : RayTracer ℚ) ≠ sceneOnePlaneRough ∧
    traceRay Rat.sqrt (sceneOnePlane : RayTracer ℚ) rayZ 0 ⟨[], []⟩ =
      traceRay Rat.sqrt (sceneOnePlaneRough : RayTracer ℚ) rayZ 0 ⟨[], []⟩ :=
  ⟨rfl, by
    intro h
    have h2 := congrArg (fun t => (t.planes.map (fun p => p.material.roughness))) h
    simp [sceneOnePlane, sceneOnePlaneRough, planeAhead, roughGlowing,
      RayTracingMaterial.default] at h2
    norm_num at h2,
    (traceRay_ignores_unused_material_fields Rat.sqrt sceneOnePlane sceneOnePlaneRough rfl).1
      rayZ 0 ⟨[], []⟩⟩

/-! ### Termination of traceRay -/

/-- A random source that supports `m` draws supports any smaller number of draws. -/
lemma supportsDraws_mono (sqrt : K → K) :
    ∀ (n m : Nat) (tape : List K), n ≤ m → supportsDraws sqrt m tape = true →
      supportsDraws sqrt n tape = true := by
  intro n
  induction n with
  | zero => intro m tape _ _; rfl
  | succ n ih =>
    intro m tape hnm h
    obtain ⟨m2, rfl⟩ : ∃ m2, m = m2 + 1 := ⟨m - 1, by omega⟩
    simp only [supportsDraws] at h ⊢
    cases hr : rejectionLoop sqrt tape with
    | none => rw [hr] at h; exact absurd h (by simp)
    | some q =>
      obtain ⟨p, rest⟩ := q
      rw [hr] at h
      exact ih m2 rest (by omega) h

lemma Rng.Supports.mono {sqrt : K → K} {n m : Nat} {g : Rng K} (h : g.Supports sqrt m)
    (hnm : n ≤ m) : g.Supports sqrt n :=
  ⟨supportsDraws_mono sqrt n m g.sphere hnm h.1, le_trans hnm h.2⟩

/-- A supported call of randomInUnitSphere returns a point. -/
lemma randomInUnitSphere_of_supports (sqrt : K → K) (n : Nat) (g : Rng K)
    (h : g.Supports sqrt (n + 1)) :
    ∃ (p : Vec3 K) (g1 : Rng K), randomInUnitSphere sqrt g = some (p, g1) ∧
      g1.Supports sqrt n := by
  obtain ⟨h1, h2⟩ := h
  simp only [supportsDraws] at h1
  cases hr : rejectionLoop sqrt g.sphere with
  | none => rw [hr] at h1; exact absurd h1 (by simp)
  | some q =>
    obtain ⟨p, rest⟩ := q
    rw [hr] at h1
    refine ⟨p, { g with sphere := rest }, ?_, h1, by
      show n ≤ g.unit.length
      omega⟩
    unfold randomInUnitSphere
    rw [hr]

/-- A supported call of random01 returns a value. -/
lemma random01_of_supports (sqrt : K → K) (n : Nat) (g : Rng K)
    (h : g.Supports sqrt (n + 1)) :
    ∃ (u : K) (g1 : Rng K), random01 g = some (u, g1) ∧ g1.Supports sqrt n := by
  obtain ⟨h1, h2⟩ := h
  unfold random01
  cases hu : g.unit with
  | nil => rw [hu] at h2; exact absurd h2 (by simp)
  | cons u rest =>
    refine ⟨u, { g with unit := rest }, rfl, supportsDraws_mono sqrt n (n + 1) g.sphere
      (Nat.le_succ n) h1, ?_⟩
    rw [hu, List.length_cons] at h2
    show n ≤ rest.length
    omega

/-- A supported call of sampleHemisphere returns a direction. -/
lemma sampleHemisphere_of_supports (sqrt : K → K) (normal : Vec3 K) (n : Nat) (g : Rng K)
    (h : g.Supports sqrt (n + 1)) :
    ∃ (d : Vec3 K) (g1 : Rng K), sampleHemisphere sqrt normal g = some (d, g1) ∧
      g1.Supports sqrt n := by
  obtain ⟨p, g1, hp, hsup⟩ := randomInUnitSphere_of_supports sqrt n g h
  unfold sampleHemisphere randomUnitVector
  rw [hp]
  simp only []
  split_ifs
  · exact ⟨_, g1, rfl, hsup⟩
  · exact ⟨_, g1, rfl, hsup⟩

/-- The reflection stage returns a color when the random source supports one draw more than
the nested call needs. -/
lemma calculateReflection_returns (sqrt : K → K)
    (trace : Ray K → Int → Rng K → Option (Vec3 K × Rng K)) (ray : Ray K) (h : HitRecord K)
    (depth : Int) (cm : Nat)
    (htrace : ∀ (r : Ray K) (g : Rng K) (k : Nat), g.Supports sqrt (cm + k) →
      ∃ c g1, trace r (depth + 1) g = some (c, g1) ∧ g1.Supports sqrt k)
    (g : Rng K) (k : Nat) (hsup : g.Supports sqrt (cm + 1 + k)) :
    ∃ c g1, calculateReflection sqrt trace ray h depth g = some (c, g1) ∧
      g1.Supports sqrt k := by
  unfold calculateReflection
  simp only []
  split_ifs
  · obtain ⟨p, g1, hp, hs1⟩ := randomInUnitSphere_of_supports sqrt (cm + k) g
      (hsup.mono (by omega))
    rw [hp]
    exact htrace _ g1 k hs1
  · exact htrace _ g k (hsup.mono (by omega))

/-- The refraction stage returns a color when the random source supports one draw more than
the nested call needs. -/
lemma calculateRefraction_returns (sqrt : K → K)
    (trace : Ray K → Int → Rng K → Option (Vec3 K × Rng K)) (ray : Ray K) (h : HitRecord K)
    (depth : Int) (cm : Nat)
    (htrace : ∀ (r : Ray K) (g : Rng K) (k : Nat), g.Supports sqrt (cm + k) →
      ∃ c g1, trace r (depth + 1) g = some (c, g1) ∧ g1.Supports sqrt k)
    (g : Rng K) (k : Nat) (hsup : g.Supports sqrt (cm + 1 + k)) :
    ∃ c g1, calculateRefraction sqrt trace ray h depth g = some (c, g1) ∧
      g1.Supports sqrt k := by
  obtain ⟨u, g1, hu, hs1⟩ := random01_of_supports sqrt (cm + k) g (hsup.mono (by omega))
  unfold calculateRefraction
  simp only [hu]
  split_ifs
  all_goals first
    | exact htrace _ g k (hsup.mono (by omega))
    | exact htrace _ g1 k hs1

/-- The sample loop of `n` rounds returns a color when the random source supports, for each
round, one draw more than the nested call needs. -/
lemma giIterate_returns (sqrt : K → K)
    (trace : Ray K → Int → Rng K → Option (Vec3 K × Rng K)) (h : HitRecord K)
    (depth : Int) (cm : Nat)
    (htrace : ∀ (r : Ray K) (g : Rng K) (k : Nat), g.Supports sqrt (cm + k) →
      ∃ c g1, trace r (depth + 1) g = some (c, g1) ∧ g1.Supports sqrt k) :
    ∀ (n : Nat) (acc : Vec3 K) (g : Rng K) (k : Nat),
      g.Supports sqrt (n * (cm + 1) + k) →
      ∃ c g1, (giStep sqrt trace h depth)^[n] (some (acc, g)) = some (c, g1) ∧
        g1.Supports sqrt k := by
  intro n
  induction n with
  | zero =>
    intro acc g k hsup
    exact ⟨acc, g, rfl, hsup.mono (by omega)⟩
  | succ n ih =>
    intro acc g k hsup
    have e : (n + 1) * (cm + 1) + k = (cm + (n * (cm + 1) + k)) + 1 := by ring
    rw [e] at hsup
    obtain ⟨d, g1, hd, hs1⟩ := sampleHemisphere_of_supports sqrt h.normal _ g hsup
    obtain ⟨c, g2, hc, hs2⟩ := htrace (Ray.ctor sqrt h.point d) g1 _ hs1
    rw [Function.iterate_succ_apply]
    have hstep : giStep sqrt trace h depth (some (acc, g)) =
        some (acc + c.scale (dot h.normal d), g2) := by
      unfold giStep
      simp only [hd, hc]
    rw [hstep]
    exact ih _ g2 k hs2

omit [LinearOrderedField K] in
/-- The number of hemisphere samples is at most `max(1, |sampleCount|)`. -/
lemma samples_le_sampleBound (tr : RayTracer K) (depth : Int) :
    (max 1 (Int.tdiv tr.sampleCount (depth + 1))).toNat ≤ sampleBound tr := by
  unfold sampleBound
  have h1 : (Int.tdiv tr.sampleCount (depth + 1)).natAbs ≤ tr.sampleCount.natAbs := by
    rw [Int.natAbs_tdiv]
    exact Nat.div_le_self _ _
  have h2 : (Int.tdiv tr.sampleCount (depth + 1)) ≤
      ((Int.tdiv tr.sampleCount (depth + 1)).natAbs : Int) := Int.le_natAbs
  omega

/-- The global-illumination stage returns a color when the random source supports, for each
possible sample, one draw more than the nested call needs. -/
lemma calculateGlobalIllumination_returns (sqrt : K → K) (tr : RayTracer K)
    (trace : Ray K → Int → Rng K → Option (Vec3 K × Rng K)) (h : HitRecord K)
    (depth : Int) (cm : Nat)
    (htrace : ∀ (r : Ray K) (g : Rng K) (k : Nat), g.Supports sqrt (cm + k) →
      ∃ c g1, trace r (depth + 1) g = some (c, g1) ∧ g1.Supports sqrt k)
    (g : Rng K) (k : Nat) (hsup : g.Supports sqrt (sampleBound tr * (cm + 1) + k)) :
    ∃ c g1, calculateGlobalIllumination sqrt tr trace h depth g = some (c, g1) ∧
      g1.Supports sqrt k := by
  unfold calculateGlobalIllumination
  split_ifs
  · exact ⟨_, g, rfl, hsup.mono (by omega)⟩
  · simp only []
    rw [List.foldl_const, List.length_range]
    have hle := samples_le_sampleBound tr depth
    obtain ⟨c, g1, hc, hs1⟩ := giIterate_returns sqrt trace h depth cm htrace
      (max 1 (Int.tdiv tr.sampleCount (depth + 1))).toNat (Vec3.splat 0) g k
      (hsup.mono (by
        have := Nat.mul_le_mul_right (cm + 1) hle
        omega))
    rw [hc]
    exact ⟨_, g1, rfl, hs1⟩

/-- The body of traceRay after a hit returns a color when the random source supports the
draws of its three stages. -/
lemma shadeHit_returns (sqrt : K → K) (tr : RayTracer K)
    (trace : Ray K → Int → Rng K → Option (Vec3 K × Rng K)) (ray : Ray K)
    (rec : HitRecord K) (depth : Int) (cm : Nat)
    (htrace : ∀ (r : Ray K) (g : Rng K) (k : Nat), g.Supports sqrt (cm + k) →
      ∃ c g1, trace r (depth + 1) g = some (c, g1) ∧ g1.Supports sqrt k)
    (g : Rng K) (k : Nat)
    (hsup : g.Supports sqrt ((sampleBound tr + 2) * (cm + 1) + k)) :
    ∃ c g1, shadeHit sqrt tr trace ray rec depth g = some (c, g1) ∧ g1.Supports sqrt k := by
  have e : (sampleBound tr + 2) * (cm + 1) + k =
      cm + 1 + (cm + 1 + (sampleBound tr * (cm + 1) + k)) := by ring
  rw [e] at hsup
  -- the reflection stage
  obtain ⟨c1, g1, h1, hs1⟩ : ∃ c1 g1,
      (if rec.reflectance > 0 then
        ∃ R, calculateReflection sqrt trace ray rec depth g = some (R, g1) ∧
          c1 = mix (calculateLighting sqrt tr rec) R rec.reflectance
      else c1 = calculateLighting sqrt tr rec ∧ g1 = g) ∧
      g1.Supports sqrt (cm + 1 + (sampleBound tr * (cm + 1) + k)) := by
    by_cases hr : rec.reflectance > 0
    · obtain ⟨R, g1, hR, hs1⟩ := calculateReflection_returns sqrt trace ray rec depth cm htrace
        g _ hsup
      exact ⟨_, g1, by rw [if_pos hr]; exact ⟨R, hR, rfl⟩, hs1⟩
    · exact ⟨_, g, by rw [if_neg hr]; exact ⟨rfl, rfl⟩, hsup.mono (by omega)⟩
  -- the refraction stage
  obtain ⟨c2, g2, h2, hs2⟩ : ∃ c2 g2,
      (if rec.transparency > 0 then
        ∃ T, calculateRefraction sqrt trace ray rec depth g1 = some (T, g2) ∧
          c2 = mix c1 T rec.transparency
      else c2 = c1 ∧ g2 = g1) ∧
      g2.Supports sqrt (sampleBound tr * (cm + 1) + k) := by
    by_cases ht : rec.transparency > 0
    · obtain ⟨T, g2, hT, hs2⟩ := calculateRefraction_returns sqrt trace ray rec depth cm htrace
        g1 _ hs1
      exact ⟨_, g2, by rw [if_pos ht]; exact ⟨T, hT, rfl⟩, hs2⟩
    · exact ⟨_, g1, by rw [if_neg ht]; exact ⟨rfl, rfl⟩, hs1.mono (by omega)⟩
  -- the global-illumination stage
  obtain ⟨c3, g3, h3, hs3⟩ : ∃ c3 g3,
      (if tr.globalIllumination = true then
        ∃ G, calculateGlobalIllumination sqrt tr trace rec depth g2 = some (G, g3) ∧
          c3 = c2 + G.scale (3 / 10)
      else c3 = c2 ∧ g3 = g2) ∧
      g3.Supports sqrt k := by
    by_cases hg : tr.globalIllumination = true
    · obtain ⟨G, g3, hG, hs3⟩ := calculateGlobalIllumination_returns sqrt tr trace rec depth cm
        htrace g2 k hs2
      exact ⟨_, g3, by rw [if_pos hg]; exact ⟨G, hG, rfl⟩, hs3⟩
    · exact ⟨_, g2, by rw [if_neg hg]; exact ⟨rfl, rfl⟩, hs2.mono (by omega)⟩
  exact ⟨c3, g3, shadeHit_stages sqrt tr trace ray rec depth g g1 g2 g3 c1 c2 c3 h1 h2 h3, hs3⟩

/-- The function traceRay is a fixed point of the body of the source: its recursive calls
are calls of itself. -/
lemma traceRay_eq_traceBody (sqrt : K → K) (tr : RayTracer K) (ray : Ray K) (depth : Int)
    (g : Rng K) :
    traceRay sqrt tr ray depth g = traceBody sqrt tr (traceRay sqrt tr) ray depth g := by
  unfold traceBody
  by_cases hd : depth ≥ tr.maxDepth
  · rw [if_pos hd, traceRay_cutoff sqrt tr ray depth g hd]
  · rw [if_neg hd, traceRay_unfold sqrt tr ray depth g (not_le.mp hd)]
    simp only []
    split_ifs
    · apply shadeHit_congr
      intro r g1
      unfold traceRay
      congr 1
      omega
    · rfl

/-- The body of traceRay calls its tracing function at `depth + 1` only, and only when
`depth < maxDepth`. -/
lemma traceBody_congr (sqrt : K → K) (tr : RayTracer K)
    (trace1 trace2 : Ray K → Int → Rng K → Option (Vec3 K × Rng K)) (ray : Ray K)
    (depth : Int) (g : Rng K)
    (ht : depth < tr.maxDepth → ∀ r g1, trace1 r (depth + 1) g1 = trace2 r (depth + 1) g1) :
    traceBody sqrt tr trace1 ray depth g = traceBody sqrt tr trace2 ray depth g := by
  unfold traceBody
  by_cases hd : depth ≥ tr.maxDepth
  · rw [if_pos hd, if_pos hd]
  · rw [if_neg hd, if_neg hd]
    simp only []
    rw [shadeHit_congr sqrt tr trace1 trace2 ray _ depth g (ht (not_le.mp hd))]

/-- The global-illumination stage calls its tracing function at `depth + 1` only, and only
when `depth + 1 <= maxDepth - 2`. -/
lemma calculateGlobalIllumination_congr_guard (sqrt : K → K) (tr : RayTracer K)
    (trace1 trace2 : Ray K → Int → Rng K → Option (Vec3 K × Rng K))
    (h : HitRecord K) (depth : Int) (g : Rng K)
    (ht : depth + 1 ≤ tr.maxDepth - 2 →
      ∀ r g1, trace1 r (depth + 1) g1 = trace2 r (depth + 1) g1) :
    calculateGlobalIllumination sqrt tr trace1 h depth g =
      calculateGlobalIllumination sqrt tr trace2 h depth g := by
  by_cases hd : depth ≥ tr.maxDepth - 2
  · unfold calculateGlobalIllumination
    rw [if_pos hd, if_pos hd]
  · exact calculateGlobalIllumination_congr sqrt tr trace1 trace2 h depth g
      (ht (by omega))

/-- Nesting the body of traceRay `maxDepth - depth + 1` times or more gives traceRay,
whatever function the innermost body would call: that function is never called. -/
lemma traceIter_eq_traceRay (sqrt : K → K) (tr : RayTracer K)
    (bottom : Ray K → Int → Rng K → Option (Vec3 K × Rng K)) :
    ∀ (n : Nat) (ray : Ray K) (depth : Int) (g : Rng K), (tr.maxDepth - depth).toNat ≤ n →
      traceIter sqrt tr bottom (n + 1) ray depth g = traceRay sqrt tr ray depth g := by
  intro n
  induction n with
  | zero =>
    intro ray depth g hn
    have hd : depth ≥ tr.maxDepth := by omega
    rw [traceRay_cutoff sqrt tr ray depth g hd]
    show traceBody sqrt tr bottom ray depth g = _
    unfold traceBody
    rw [if_pos hd]
  | succ n ih =>
    intro ray depth g hn
    rw [traceRay_eq_traceBody]
    show traceBody sqrt tr (traceIter sqrt tr bottom (n + 1)) ray depth g = _
    apply traceBody_congr
    intro hd r g1
    exact ih r (depth + 1) g1 (by omega)

/-- The bounded recursion is the body of the source nested `fuel` times over the function
that gives up. -/
lemma traceRayFuel_succ (sqrt : K → K) (tr : RayTracer K) (fuel : Nat) (ray : Ray K)
    (depth : Int) (g : Rng K) :
    traceRayFuel sqrt tr (fuel + 1) ray depth g =
      traceBody sqrt tr (traceRayFuel sqrt tr fuel) ray depth g := by
  rw [traceRayFuel.eq_def]
  rfl

/-- More fuel than `maxDepth - depth` changes nothing. -/
lemma traceRayFuel_eq_traceRay (sqrt : K → K) (tr : RayTracer K) :
    ∀ (fuel : Nat) (ray : Ray K) (depth : Int) (g : Rng K),
      (tr.maxDepth - depth).toNat ≤ fuel →
      traceRayFuel sqrt tr fuel ray depth g = traceRay sqrt tr ray depth g := by
  intro fuel
  induction fuel with
  | zero =>
    intro ray depth g hn
    have hd : depth ≥ tr.maxDepth := by omega
    rw [traceRay_cutoff sqrt tr ray depth g hd, traceRayFuel.eq_def]
    simp [hd]
  | succ n ih =>
    intro ray depth g hn
    rw [traceRayFuel_succ, traceRay_eq_traceBody]
    apply traceBody_congr
    intro hd r g1
    exact ih r (depth + 1) g1 (by omega)

/-- The function traceRay returns a color when the random source supports
`drawBound (maxDepth - depth)` draws, and it leaves a random source that supports the draws
in excess of that number. -/
lemma traceRay_returns (sqrt : K → K) (tr : RayTracer K) :
    ∀ (m : Nat) (ray : Ray K) (depth : Int) (g : Rng K) (k : Nat),
      (tr.maxDepth - depth).toNat ≤ m →
      g.Supports sqrt (drawBound (sampleBound tr) m + k) →
      ∃ c g1, traceRay sqrt tr ray depth g = some (c, g1) ∧ g1.Supports sqrt k := by
  intro m
  induction m with
  | zero =>
    intro ray depth g k hm hsup
    have hd : depth ≥ tr.maxDepth := by omega
    exact ⟨_, g, traceRay_cutoff sqrt tr ray depth g hd, hsup.mono (by omega)⟩
  | succ m ih =>
    intro ray depth g k hm hsup
    rw [traceRay_eq_traceBody]
    unfold traceBody
    simp only []
    split_ifs with hd
    · exact ⟨_, g, rfl, hsup.mono (by omega)⟩
    · exact shadeHit_returns sqrt tr (traceRay sqrt tr) ray _ depth
        (drawBound (sampleBound tr) m)
        (fun r g0 k0 h0 => ih r (depth + 1) g0 k0 (by omega) h0) g k hsup
    · exact ⟨_, g, rfl, hsup.mono (by omega)⟩

/-- A tape that draws `n` accepted points supports `n` calls of randomInUnitSphere. -/
lemma supportsDraws_tapeOf (sqrt : K → K) :
    ∀ ps : List (Vec3 K), (∀ p ∈ ps, length sqrt p < 1) →
      supportsDraws sqrt ps.length (tapeOf ps) = true := by
  intro ps
  induction ps with
  | nil => intro _; rfl
  | cons p ps ih =>
    intro hacc
    have hr : rejectionLoop sqrt (tapeOf (p :: ps)) = some (p, tapeOf ps) :=
      rejectionLoop_tape sqrt [] p (tapeOf ps) (fun q hq => absurd hq (List.not_mem_nil q))
        (hacc p (List.mem_cons_self p ps))
    simp only [List.length_cons, supportsDraws, hr]
    exact ih (fun q hq => hacc q (List.mem_cons_of_mem p hq))

/-- The constant random source of size `n` supports `n` draws, for an exact square root. -/
lemma supports_rngConstant {sqrt : K → K} (hs : IsSqrt sqrt) (n : Nat) :
    (rngConstant n : Rng K).Supports sqrt n := by
  have hacc : length sqrt (⟨0, 0, 1 / 2⟩ : Vec3 K) < 1 := by
    rw [length_eq_of_dot hs _ (by norm_num : (0 : K) ≤ 1 / 2) (by norm_num [dot])]
    norm_num
  constructor
  · have h := supportsDraws_tapeOf sqrt (List.replicate n (⟨0, 0, 1 / 2⟩ : Vec3 K))
      (fun p hp => by rw [List.eq_of_mem_replicate hp]; exact hacc)
    rw [List.length_replicate] at h
    exact h
  · show n ≤ (List.replicate n (1 / 2 : K)).length
    rw [List.length_replicate]

/-- C22: traceRay terminates.  (1) traceRay satisfies the recursion of the source: it is the
body of lines 27-58 whose recursive calls are calls of traceRay.  (2) That body calls its
tracing function only with `depth + 1`, and only when `depth < maxDepth`; so no call is made
with a depth above `maxDepth`, and `maxDepth - depth` decreases.  (3) The
global-illumination stage calls it only when `depth + 1 <= maxDepth - 2`.  (4) Hence, for
every integer `maxDepth` and `sampleCount` and every `depth >= 0`, nesting the body
`maxDepth - depth + 1` times or more gives the value of traceRay whatever function stands
below the innermost body, and the bounded recursion returns the same value for every bound of
at least `maxDepth - depth`.  (5) Assuming that the draws terminate, that is a random source
that supports `drawBound (maxDepth - depth)` draws, traceRay returns a color. -/
theorem traceRay_terminates (sqrt : K → K) (tr : RayTracer K) :
    (∀ (ray : Ray K) (depth : Int) (g : Rng K),
      traceRay sqrt tr ray depth g = traceBody sqrt tr (traceRay sqrt tr) ray depth g) ∧
    (∀ (trace1 trace2 : Ray K → Int → Rng K → Option (Vec3 K × Rng K)) (ray : Ray K)
      (depth : Int) (g : Rng K),
      (depth < tr.maxDepth → ∀ r g1, trace1 r (depth + 1) g1 = trace2 r (depth + 1) g1) →
      traceBody sqrt tr trace1 ray depth g = traceBody sqrt tr trace2 ray depth g) ∧
    (∀ (trace1 trace2 : Ray K → Int → Rng K → Option (Vec3 K × Rng K)) (h : HitRecord K)
      (depth : Int) (g : Rng K),
      (depth + 1 ≤ tr.maxDepth - 2 →
        ∀ r g1, trace1 r (depth + 1) g1 = trace2 r (depth + 1) g1) →
      calculateGlobalIllumination sqrt tr trace1 h depth g =
        calculateGlobalIllumination sqrt tr trace2 h depth g) ∧
    (∀ (bottom : Ray K → Int → Rng K → Option (Vec3 K × Rng K)) (n : Nat) (ray : Ray K)
      (depth : Int) (g : Rng K), 0 ≤ depth → (tr.maxDepth - depth).toNat ≤ n →
      traceIter sqrt tr bottom (n + 1) ray depth g = traceRay sqrt tr ray depth g) ∧
    (∀ (fuel : Nat) (ray : Ray K) (depth : Int) (g : Rng K), 0 ≤ depth →
      (tr.maxDepth - depth).toNat ≤ fuel →
      traceRayFuel sqrt tr fuel ray depth g = traceRay sqrt tr ray depth g) ∧
    (∀ (ray : Ray K) (depth : Int) (g : Rng K) (k : Nat), 0 ≤ depth →
      g.Supports sqrt (drawBound (sampleBound tr) (tr.maxDepth - depth).toNat + k) →
      ∃ c g1, traceRay sqrt tr ray depth g = some (c, g1) ∧ g1.Supports sqrt k) :=
  ⟨traceRay_eq_traceBody sqrt tr,
    traceBody_congr sqrt tr,
    calculateGlobalIllumination_congr_guard sqrt tr,
    fun bottom n ray depth g _ hn => traceIter_eq_traceRay sqrt tr bottom n ray depth g hn,
    fun fuel ray depth g _ hn => traceRayFuel_eq_traceRay sqrt tr fuel ray depth g hn,
    fun ray depth g k _ hsup =>
      traceRay_returns sqrt tr (tr.maxDepth - depth).toNat ray depth g k (le_refl _) hsup⟩

/-- Instance of C22 over the reals: the mirror scene with `maxDepth = 2` and
`sampleCount = 4`, the z axis ray at depth 0.  The bound on the draws is 42; with a random
source that supports 42 draws traceRay returns a color, and three nested bodies over a
function that never answers give the value of traceRay. -/
theorem traceRay_terminates_witness :
    drawBound (sampleBound (sceneMirrorShallow : RayTracer ℝ))
      ((sceneMirrorShallow : RayTracer ℝ).maxDepth - 0).toNat + 0 = 42 ∧
    (rngConstant 42 : Rng ℝ).Supports Real.sqrt 42 ∧
    (∃ c g1, traceRay Real.sqrt sceneMirrorShallow rayZ 0 (rngConstant 42) = some (c, g1) ∧
      g1.Supports Real.sqrt 0) ∧
    traceIter Real.sqrt sceneMirrorShallow (fun _ _ _ => none) (2 + 1) rayZ 0 (rngConstant 42) =
      traceRay Real.sqrt sceneMirrorShallow rayZ 0 (rngConstant 42) :=
  have hb : drawBound (sampleBound (sceneMirrorShallow : RayTracer ℝ))
      ((sceneMirrorShallow : RayTracer ℝ).maxDepth - 0).toNat + 0 = 42 := by
    simp only [sceneMirrorShallow, setMaxDepth, sceneMirror, sampleBound]
    decide
  ⟨hb, supports_rngConstant isSqrt_real 42,
    (traceRay_terminates Real.sqrt sceneMirrorShallow).2.2.2.2.2 rayZ 0 (rngConstant 42) 0
      (le_refl 0) (hb ▸ supports_rngConstant isSqrt_real 42),
    (traceRay_terminates Real.sqrt sceneMirrorShallow).2.2.2.1 (fun _ _ _ => none) 2 rayZ 0
      (rngConstant 42) (le_refl 0) (by
        simp only [sceneMirrorShallow, setMaxDepth]
        decide)⟩

/-! ### Non-negative radiance -/

lemma Vec3.NonNeg.add {u v : Vec3 K} (hu : u.NonNeg) (hv : v.NonNeg) : (u + v).NonNeg :=
  ⟨add_nonneg hu.1 hv.1, add_nonneg hu.2.1 hv.2.1, add_nonneg hu.2.2 hv.2.2⟩

lemma Vec3.NonNeg.mul {u v : Vec3 K} (hu : u.NonNeg) (hv : v.NonNeg) : (u * v).NonNeg :=
  ⟨mul_nonneg hu.1 hv.1, mul_nonneg hu.2.1 hv.2.1, mul_nonneg hu.2.2 hv.2.2⟩

lemma Vec3.NonNeg.scale {u : Vec3 K} (hu : u.NonNeg) {a : K} (ha : 0 ≤ a) :
    (u.scale a).NonNeg :=
  ⟨mul_nonneg hu.1 ha, mul_nonneg hu.2.1 ha, mul_nonneg hu.2.2 ha⟩

lemma Vec3.NonNeg.divS {u : Vec3 K} (hu : u.NonNeg) {a : K} (ha : 0 ≤ a) :
    (u.divS a).NonNeg :=
  ⟨div_nonneg hu.1 ha, div_nonneg hu.2.1 ha, div_nonneg hu.2.2 ha⟩

lemma Vec3.NonNeg.splat_zero : (Vec3.splat (0 : K)).NonNeg :=
  ⟨le_refl _, le_refl _, le_refl _⟩

/-- A blend with a weight in `[0, 1]` of two non-negative colors is non-negative. -/
lemma Vec3.NonNeg.mix {x y : Vec3 K} (hx : x.NonNeg) (hy : y.NonNeg) {a : K} (h0 : 0 ≤ a)
    (h1 : a ≤ 1) : (mix x y a).NonNeg :=
  (hx.scale (sub_nonneg.mpr h1)).add (hy.scale h0)

/-- The attenuation `1 / (1 + 0.1 d + 0.01 d * d)` is positive, and at most 1 for a
non-negative distance. -/
lemma attenuation_range (d : K) :
    0 < 1 / (1 + 1 / 10 * d + 1 / 100 * d * d) ∧
    (0 ≤ d → 1 / (1 + 1 / 10 * d + 1 / 100 * d * d) ≤ 1) := by
  have hpos : 0 < 1 + 1 / 10 * d + 1 / 100 * d * d := by
    nlinarith [mul_self_nonneg (d + 5)]
  refine ⟨one_div_pos.mpr hpos, fun hd => ?_⟩
  rw [div_le_one hpos]
  nlinarith [mul_nonneg hd hd]

/-- One step of the light loop keeps a non-negative color non-negative. -/
lemma lightStep_nonneg (sqrt : K → K) (tr : RayTracer K) (h : HitRecord K) (color : Vec3 K)
    (light : Light K) (hc : h.color.NonNeg) (hl : light.color.NonNeg)
    (hi : 0 ≤ light.intensity) (hcol : color.NonNeg) :
    (lightStep sqrt tr h color light).NonNeg := by
  unfold lightStep
  simp only []
  split_ifs
  · exact hcol.add ((((hc.mul hl).scale hi).scale (le_max_right _ _)).scale
      (attenuation_range _).1.le)
  · exact hcol

/-- The local illumination of a record with a non-negative color under non-negative lights
is non-negative. -/
lemma calculateLighting_nonneg (sqrt : K → K) (tr : RayTracer K) (h : HitRecord K)
    (hc : h.color.NonNeg) (hl : ∀ l ∈ tr.lights, l.color.NonNeg ∧ 0 ≤ l.intensity) :
    (calculateLighting sqrt tr h).NonNeg := by
  unfold calculateLighting
  have key : ∀ (ls : List (Light K)) (acc : Vec3 K),
      (∀ l ∈ ls, l.color.NonNeg ∧ 0 ≤ l.intensity) → acc.NonNeg →
      (ls.foldl (lightStep sqrt tr h) acc).NonNeg := by
    intro ls
    induction ls with
    | nil => intro acc _ hacc; exact hacc
    | cons l ls ih =>
      intro acc hls hacc
      rw [List.foldl_cons]
      apply ih _ (fun l2 hl2 => hls l2 (List.mem_cons_of_mem l hl2))
      exact lightStep_nonneg sqrt tr h acc l hc (hls l (List.mem_cons_self l ls)).1
        (hls l (List.mem_cons_self l ls)).2 hacc
  exact key tr.lights _ hl (hc.scale (by norm_num))

/-- The record of a hit in a scene with non-negative inputs: a non-negative color, and
reflectance and transparency in `[0, 1]`. -/
lemma hit_record_inGamut (sqrt : K → K) (tr : RayTracer K) (ray : Ray K)
    (record rec : HitRecord K) (hin : tr.NonNegInputs)
    (hh : hit sqrt tr ray record = (true, rec)) :
    rec.color.NonNeg ∧ (0 ≤ rec.reflectance ∧ rec.reflectance ≤ 1) ∧
      (0 ≤ rec.transparency ∧ rec.transparency ≤ 1) := by
  obtain ⟨_, hsph, hpl, hcat, _⟩ := hin
  rcases hit_cases sqrt tr ray record with ⟨e, _⟩ | ⟨c, e, _, _, pre, post, hmem, _⟩
  · rw [e] at hh
    exact absurd (congrArg Prod.fst hh) (by simp)
  · rw [e] at hh
    have hc : c = rec := congrArg Prod.snd hh
    subst hc
    have hc2 : c ∈ candidates sqrt tr ray := by
      rw [hmem]; exact List.mem_append_right _ (List.mem_cons_self _ _)
    rcases (mem_candidates sqrt tr ray c).1 hc2 with
      ⟨s, hs, es⟩ | ⟨p, hp, ep⟩ | ⟨sc, i, obj, c0, hsc, hobj, eo, rfl⟩
    · have hok : (hitSphere sqrt s ray HitRecord.uninit).1 = true := by rw [es]
      have e2 : c = (hitSphere sqrt s ray HitRecord.uninit).2 := by rw [es]
      rcases (hitSphere_true sqrt s ray _ hok).2 with ⟨_, e3⟩ | ⟨_, _, e3⟩ <;>
        (rw [e2, e3]; exact hsph s hs)
    · have hok : (hitPlane p ray HitRecord.uninit).1 = true := by rw [ep]
      have e2 : c = (hitPlane p ray HitRecord.uninit).2 := by rw [ep]
      rw [e2, (hitPlane_true p ray _ hok).2]
      exact hpl p hp
    · have hok : (hitMuseumObject sqrt obj ray HitRecord.uninit).1 = true := by rw [eo]
      have e2 : c0 = (hitMuseumObject sqrt obj ray HitRecord.uninit).2 := by rw [eo]
      rcases (hitMuseumObject_true sqrt obj ray _ hok).2 with ⟨_, e3⟩ | ⟨_, _, e3⟩ <;>
        (rw [e2, e3]
         refine ⟨hcat sc hsc i obj hobj, ⟨?_, ?_⟩, ⟨le_refl _, zero_le_one⟩⟩
         · show (0 : K) ≤ 3 / 10
           norm_num
         · show (3 / 10 : K) ≤ 1
           norm_num)

/-- A value of calculateReflection is a value of the tracing function at `depth + 1`. -/
lemma calculateReflection_some (sqrt : K → K)
    (trace : Ray K → Int → Rng K → Option (Vec3 K × Rng K)) (ray : Ray K) (h : HitRecord K)
    (depth : Int) (g g1 : Rng K) (c : Vec3 K)
    (e : calculateReflection sqrt trace ray h depth g = some (c, g1)) :
    ∃ (r : Ray K) (g0 : Rng K), trace r (depth + 1) g0 = some (c, g1) := by
  unfold calculateReflection at e
  simp only [] at e
  split_ifs at e
  · cases hp : randomInUnitSphere sqrt g with
    | none => rw [hp] at e; exact absurd e (by simp)
    | some q =>
      obtain ⟨p, g2⟩ := q
      rw [hp] at e
      exact ⟨_, _, e⟩
  · exact ⟨_, _, e⟩

/-- A value of calculateRefraction is a value of the tracing function at `depth + 1`. -/
lemma calculateRefraction_some (sqrt : K → K)
    (trace : Ray K → Int → Rng K → Option (Vec3 K × Rng K)) (ray : Ray K) (h : HitRecord K)
    (depth : Int) (g g1 : Rng K) (c : Vec3 K)
    (e : calculateRefraction sqrt trace ray h depth g = some (c, g1)) :
    ∃ (r : Ray K) (g0 : Rng K), trace r (depth + 1) g0 = some (c, g1) := by
  unfold calculateRefraction at e
  simp only [] at e
  split_ifs at e
  all_goals first
    | exact ⟨_, _, e⟩
    | (cases hu : random01 g with
       | none => rw [hu] at e; exact absurd e (by simp)
       | some q =>
         obtain ⟨u, g2⟩ := q
         rw [hu] at e
         simp only [] at e
         split_ifs at e <;> exact ⟨_, _, e⟩)

/-- One successful step of the sample loop adds a traced color times a non-negative
weight. -/
lemma giStep_some (sqrt : K → K) (trace : Ray K → Int → Rng K → Option (Vec3 K × Rng K))
    (h : HitRecord K) (depth : Int) (acc a2 : Vec3 K) (g g2 : Rng K)
    (e : giStep sqrt trace h depth (some (acc, g)) = some (a2, g2)) :
    ∃ (dir : Vec3 K) (g1 : Rng K) (c : Vec3 K),
      sampleHemisphere sqrt h.normal g = some (dir, g1) ∧
      trace (Ray.ctor sqrt h.point dir) (depth + 1) g1 = some (c, g2) ∧
      a2 = acc + c.scale (dot h.normal dir) := by
  unfold giStep at e
  simp only [] at e
  cases hs : sampleHemisphere sqrt h.normal g with
  | none => rw [hs] at e; exact absurd e (by simp)
  | some q =>
    obtain ⟨dir, g1⟩ := q
    rw [hs] at e
    simp only [] at e
    cases ht : trace (Ray.ctor sqrt h.point dir) (depth + 1) g1 with
    | none => rw [ht] at e; exact absurd e (by simp)
    | some q2 =>
      obtain ⟨c, g3⟩ := q2
      rw [ht] at e
      simp only [Option.some.injEq, Prod.mk.injEq] at e
      exact ⟨dir, g1, c, rfl, e.2 ▸ ht, e.1.symm⟩

/-- The sample loop keeps a non-negative running color non-negative when the tracing
function returns non-negative colors. -/
lemma giIterate_nonneg (sqrt : K → K) (trace : Ray K → Int → Rng K → Option (Vec3 K × Rng K))
    (h : HitRecord K) (depth : Int)
    (htrace : ∀ r g0 c g1, trace r (depth + 1) g0 = some (c, g1) → c.NonNeg) :
    ∀ (n : Nat) (acc : Vec3 K) (g : Rng K) (c : Vec3 K) (g1 : Rng K), acc.NonNeg →
      (giStep sqrt trace h depth)^[n] (some (acc, g)) = some (c, g1) → c.NonNeg := by
  intro n
  induction n with
  | zero =>
    intro acc g c g1 hacc e
    simp only [Function.iterate_zero, id_eq, Option.some.injEq, Prod.mk.injEq] at e
    rw [← e.1]; exact hacc
  | succ n ih =>
    intro acc g c g1 hacc e
    rw [Function.iterate_succ_apply] at e
    cases hst : giStep sqrt trace h depth (some (acc, g)) with
    | none =>
      rw [hst, giStep_none] at e
      exact absurd e (by simp)
    | some q =>
      obtain ⟨a2, g2⟩ := q
      rw [hst] at e
      obtain ⟨dir, g3, c2, hs, ht, ha⟩ := giStep_some sqrt trace h depth acc a2 g g2 hst
      refine ih a2 g2 c g1 ?_ e
      rw [ha]
      exact hacc.add ((htrace _ _ _ _ ht).scale
        (sampleHemisphere_dot_nonneg sqrt h.normal dir g g3 hs))

/-- The value of calculateGlobalIllumination is non-negative when the tracing function
returns non-negative colors. -/
lemma calculateGlobalIllumination_nonneg (sqrt : K → K) (tr : RayTracer K)
    (trace : Ray K → Int → Rng K → Option (Vec3 K × Rng K)) (h : HitRecord K) (depth : Int)
    (g g1 : Rng K) (c : Vec3 K)
    (htrace : ∀ r g0 c g1, trace r (depth + 1) g0 = some (c, g1) → c.NonNeg)
    (e : calculateGlobalIllumination sqrt tr trace h depth g = some (c, g1)) : c.NonNeg := by
  unfold calculateGlobalIllumination at e
  split_ifs at e
  · simp only [Option.some.injEq, Prod.mk.injEq] at e
    rw [← e.1]; exact Vec3.NonNeg.splat_zero
  · simp only [] at e
    rw [List.foldl_const, List.length_range] at e
    cases hit : (giStep sqrt trace h depth)^[(max 1 (Int.tdiv tr.sampleCount (depth + 1))).toNat]
        (some (Vec3.splat 0, g)) with
    | none => rw [hit] at e; exact absurd e (by simp)
    | some q =>
      obtain ⟨col, g2⟩ := q
      rw [hit] at e
      simp only [Option.some.injEq, Prod.mk.injEq] at e
      rw [← e.1]
      have hcol := giIterate_nonneg sqrt trace h depth htrace _ _ _ _ _
        Vec3.NonNeg.splat_zero hit
      have h1 : (1 : Int) ≤ max 1 (Int.tdiv tr.sampleCount (depth + 1)) := le_max_left _ _
      have h2 : (0 : K) ≤ ((max 1 (Int.tdiv tr.sampleCount (depth + 1)) : Int) : K) := by
        exact_mod_cast (by linarith : (0 : Int) ≤ max 1 (Int.tdiv tr.sampleCount (depth + 1)))
      exact hcol.divS h2

/-- The body of traceRay after a hit returns a non-negative color when the lights and the
color of the record are non-negative, reflectance and transparency lie in `[0, 1]` and the
tracing function returns non-negative colors. -/
lemma shadeHit_nonneg (sqrt : K → K) (tr : RayTracer K)
    (trace : Ray K → Int → Rng K → Option (Vec3 K × Rng K)) (ray : Ray K)
    (rec : HitRecord K) (depth : Int) (g g1 : Rng K) (c : Vec3 K)
    (hl : ∀ l ∈ tr.lights, l.color.NonNeg ∧ 0 ≤ l.intensity)
    (hrec : rec.color.NonNeg ∧ (0 ≤ rec.reflectance ∧ rec.reflectance ≤ 1) ∧
      (0 ≤ rec.transparency ∧ rec.transparency ≤ 1))
    (htrace : ∀ r g0 c g1, trace r (depth + 1) g0 = some (c, g1) → c.NonNeg)
    (e : shadeHit sqrt tr trace ray rec depth g = some (c, g1)) : c.NonNeg := by
  have hL := calculateLighting_nonneg sqrt tr rec hrec.1 hl
  obtain ⟨_, ⟨hr0, hr1⟩, ⟨ht0, ht1⟩⟩ := hrec
  have stage1 : ∀ (c1 : Vec3 K) (ga : Rng K),
      (if rec.reflectance > 0 then
        match calculateReflection sqrt trace ray rec depth g with
        | none => none
        | some (reflection, g) =>
          some (mix (calculateLighting sqrt tr rec) reflection rec.reflectance, g)
      else some (calculateLighting sqrt tr rec, g)) = some (c1, ga) → c1.NonNeg := by
    intro c1 ga e1
    split_ifs at e1
    · cases hR : calculateReflection sqrt trace ray rec depth g with
      | none => rw [hR] at e1; exact absurd e1 (by simp)
      | some q =>
        obtain ⟨R, g2⟩ := q
        rw [hR] at e1
        simp only [Option.some.injEq, Prod.mk.injEq] at e1
        obtain ⟨r, g0, hr⟩ := calculateReflection_some sqrt trace ray rec depth g g2 R hR
        rw [← e1.1]
        exact hL.mix (htrace _ _ _ _ hr) hr0 hr1
    · simp only [Option.some.injEq, Prod.mk.injEq] at e1
      rw [← e1.1]; exact hL
  have stage2 : ∀ (c1 : Vec3 K) (ga : Rng K) (c2 : Vec3 K) (gb : Rng K), c1.NonNeg →
      (if rec.transparency > 0 then
        match calculateRefraction sqrt trace ray rec depth ga with
        | none => none
        | some (refraction, g) => some (mix c1 refraction rec.transparency, g)
      else some (c1, ga)) = some (c2, gb) → c2.NonNeg := by
    intro c1 ga c2 gb hc1 e2
    split_ifs at e2
    · cases hT : calculateRefraction sqrt trace ray rec depth ga with
      | none => rw [hT] at e2; exact absurd e2 (by simp)
      | some q =>
        obtain ⟨T, g2⟩ := q
        rw [hT] at e2
        simp only [Option.some.injEq, Prod.mk.injEq] at e2
        obtain ⟨r, g0, hr⟩ := calculateRefraction_some sqrt trace ray rec depth ga g2 T hT
        rw [← e2.1]
        exact hc1.mix (htrace _ _ _ _ hr) ht0 ht1
    · simp only [Option.some.injEq, Prod.mk.injEq] at e2
      rw [← e2.1]; exact hc1
  have stage3 : ∀ (c2 : Vec3 K) (gb : Rng K) (c3 : Vec3 K) (gc : Rng K), c2.NonNeg →
      (if tr.globalIllumination = true then
        match calculateGlobalIllumination sqrt tr trace rec depth gb with
        | none => none
        | some (gi, g) => some (c2 + gi.scale (3 / 10), g)
      else some (c2, gb)) = some (c3, gc) → c3.NonNeg := by
    intro c2 gb c3 gc hc2 e3
    split_ifs at e3
    · cases hG : calculateGlobalIllumination sqrt tr trace rec depth gb with
      | none => rw [hG] at e3; exact absurd e3 (by simp)
      | some q =>
        obtain ⟨G, g2⟩ := q
        rw [hG] at e3
        simp only [Option.some.injEq, Prod.mk.injEq] at e3
        rw [← e3.1]
        exact hc2.add ((calculateGlobalIllumination_nonneg sqrt tr trace rec depth gb g2 G
          htrace hG).scale (by norm_num))
    · simp only [Option.some.injEq, Prod.mk.injEq] at e3
      rw [← e3.1]; exact hc2
  unfold shadeHit at e
  simp only [] at e
  split at e
  · exact absurd e (by simp)
  · rename_i c1 ga hA
    have hc1 := stage1 c1 ga hA
    split at e
    · exact absurd e (by simp)
    · rename_i c2 gb hB
      exact stage3 c2 gb c g1 (stage2 c1 ga c2 gb hc1 hB) e

/-- The recursion of traceRay returns non-negative colors in a scene with non-negative
inputs, whatever the bound on the nesting. -/
lemma traceRayFuel_nonneg (sqrt : K → K) (tr : RayTracer K) (hin : tr.NonNegInputs) :
    ∀ (fuel : Nat) (ray : Ray K) (depth : Int) (g : Rng K) (c : Vec3 K) (g1 : Rng K),
      traceRayFuel sqrt tr fuel ray depth g = some (c, g1) → c.NonNeg := by
  intro fuel
  induction fuel with
  | zero =>
    intro ray depth g c g1 e
    rw [traceRayFuel.eq_def] at e
    simp only [] at e
    split_ifs at e
    simp only [Option.some.injEq, Prod.mk.injEq] at e
    rw [← e.1]; exact hin.1
  | succ n ih =>
    intro ray depth g c g1 e
    rw [traceRayFuel.eq_def] at e
    simp only [] at e
    split_ifs at e with hd hh
    · simp only [Option.some.injEq, Prod.mk.injEq] at e
      rw [← e.1]; exact hin.1
    · exact shadeHit_nonneg sqrt tr _ ray _ depth g g1 c hin.2.2.2.2
        (hit_record_inGamut sqrt tr ray HitRecord.uninit _ hin (Prod.ext hh rfl))
        (fun r g0 c2 g2 h2 => ih r (depth + 1) g0 c2 g2 h2) e
    · simp only [Option.some.injEq, Prod.mk.injEq] at e
      rw [← e.1]; exact hin.1

/-- Non-negative radiance where no divisor is zero.  In a scene whose background color,
material albedos, catalog diffuse colors and light colors are componentwise non-negative,
whose light intensities are non-negative and whose materials have `metallic` and
`transparency` in `[0, 1]`, for every ray, every `depth >= 0`, every random source and either
setting of global illumination, every component of a color returned by traceRay is
non-negative; and with a random source that supports `drawBound (maxDepth - depth)` draws
traceRay does return such a color.  The reasons: the record of a hit has a non-negative color
and blend weights in `[0, 1]`, every attenuation is positive (and at most 1 for a
non-negative distance), and every weight `dot(normal, sampleDir)` of a hemisphere sample is
non-negative.  The statement is one of the exact numbers of this file, in which a quotient by
zero is zero: where the code divides by zero (a light at the hit point, a sphere of radius 0,
a drawn point that is the zero vector) it computes no number, and this statement is not one
about the code. -/
theorem traceRay_nonneg (sqrt : K → K) (tr : RayTracer K) (hin : tr.NonNegInputs) :
    (∀ (ray : Ray K) (depth : Int) (g : Rng K) (c : Vec3 K) (g1 : Rng K), 0 ≤ depth →
      traceRay sqrt tr ray depth g = some (c, g1) → c.NonNeg) ∧
    (∀ (ray : Ray K) (depth : Int) (g : Rng K), 0 ≤ depth →
      g.Supports sqrt (drawBound (sampleBound tr) (tr.maxDepth - depth).toNat) →
      ∃ c g1, traceRay sqrt tr ray depth g = some (c, g1) ∧ c.NonNeg) ∧
    (∀ (ray : Ray K) (record rec : HitRecord K), hit sqrt tr ray record = (true, rec) →
      rec.color.NonNeg ∧ (0 ≤ rec.reflectance ∧ rec.reflectance ≤ 1) ∧
        (0 ≤ rec.transparency ∧ rec.transparency ≤ 1)) ∧
    (∀ d : K, 0 < 1 / (1 + 1 / 10 * d + 1 / 100 * d * d) ∧
      (0 ≤ d → 1 / (1 + 1 / 10 * d + 1 / 100 * d * d) ≤ 1)) ∧
    (∀ (normal dir : Vec3 K) (g g1 : Rng K),
      sampleHemisphere sqrt normal g = some (dir, g1) → 0 ≤ dot normal dir) := by
  have key : ∀ (ray : Ray K) (depth : Int) (g : Rng K) (c : Vec3 K) (g1 : Rng K),
      traceRay sqrt tr ray depth g = some (c, g1) → c.NonNeg :=
    fun ray depth g c g1 e => traceRayFuel_nonneg sqrt tr hin _ ray depth g c g1 e
  refine ⟨fun ray depth g c g1 _ e => key ray depth g c g1 e, ?_,
    fun ray record rec hh => hit_record_inGamut sqrt tr ray record rec hin hh,
    attenuation_range, sampleHemisphere_dot_nonneg sqrt⟩
  intro ray depth g _ hsup
  obtain ⟨c, g1, e, _⟩ := traceRay_returns sqrt tr _ ray depth g 0 (le_refl _) hsup
  exact ⟨c, g1, e, key ray depth g c g1 e⟩

/-- The inputs of the mirror scene are non-negative. -/
lemma nonNegInputs_sceneMirror : (sceneMirror : RayTracer K).NonNegInputs := by
  refine ⟨?_, ?_, ?_, ?_, ?_⟩
  · refine ⟨?_, ?_, ?_⟩ <;> simp only [sceneMirror] <;> norm_num
  · intro s hs
    simp [sceneMirror] at hs
  · intro p hp
    have hp2 : p = planeMirror := by simpa [sceneMirror] using hp
    rw [hp2]
    refine ⟨⟨?_, ?_, ?_⟩, ⟨?_, ?_⟩, ⟨?_, ?_⟩⟩ <;>
      simp only [planeMirror, redMetal, RayTracingMaterial.default] <;> norm_num
  · intro sc hsc
    simp [sceneMirror] at hsc
  · intro l hl
    simp [sceneMirror] at hl

/-- Instance over the reals: the mirror scene and the z axis ray at depth 0; the
reflection is traced, no draw is needed and the returned color is non-negative. -/
theorem traceRay_nonneg_witness :
    (sceneMirror : RayTracer ℝ).NonNegInputs ∧
    traceRay Real.sqrt (sceneMirror : RayTracer ℝ) rayZ 0 ⟨[], []⟩ =
      some ((calculateLighting Real.sqrt sceneMirror recMirror).scale
          (1 - (recMirror : HitRecord ℝ).reflectance) +
        (⟨1 / 10, 1 / 10, 2 / 10⟩ : Vec3 ℝ).scale (recMirror : HitRecord ℝ).reflectance,
        ⟨[], []⟩) ∧
    ((calculateLighting Real.sqrt sceneMirror recMirror).scale
        (1 - (recMirror : HitRecord ℝ).reflectance) +
      (⟨1 / 10, 1 / 10, 2 / 10⟩ : Vec3 ℝ).scale (recMirror : HitRecord ℝ).reflectance).NonNeg :=
  have e : traceRay Real.sqrt (sceneMirror : RayTracer ℝ) rayZ 0 ⟨[], []⟩ =
      some ((calculateLighting Real.sqrt sceneMirror recMirror).scale
          (1 - (recMirror : HitRecord ℝ).reflectance) +
        (⟨1 / 10, 1 / 10, 2 / 10⟩ : Vec3 ℝ).scale (recMirror : HitRecord ℝ).reflectance,
        ⟨[], []⟩) := by
    rw [traceRay_hit Real.sqrt sceneMirror rayZ 0 ⟨[], []⟩ recMirror (by simp [sceneMirror])
      (hit_sceneMirror Real.sqrt)]
    apply shadeHit_stages Real.sqrt sceneMirror _ rayZ recMirror 0 ⟨[], []⟩ ⟨[], []⟩ ⟨[], []⟩
      ⟨[], []⟩ _ _ _
    · rw [if_pos (by simp [recMirror])]
      exact ⟨_, calculateReflection_mirror isSqrt_real _, rfl⟩
    · rw [if_neg (by simp [recMirror])]
      exact ⟨rfl, rfl⟩
    · rw [if_neg (by simp [sceneMirror])]
      exact ⟨rfl, rfl⟩
  ⟨nonNegInputs_sceneMirror, e,
    (traceRay_nonneg Real.sqrt sceneMirror nonNegInputs_sceneMirror).1 rayZ 0 ⟨[], []⟩ _ _
      (le_refl 0) e⟩

/-- The sphere test of the z axis ray on the sphere of radius 0 at `(0, 0, 5)` succeeds with
`t = 5`. -/
lemma hitSphere_spherePoint {sqrt : K → K} (hs : IsSqrt sqrt) (record : HitRecord K) :
    hitSphere sqrt (spherePoint : Sphere K) rayZ record =
      (true, hitSphereWrite spherePoint rayZ record 5) := by
  have hroots := roots_on_axis hs (rayZ : Ray K) (spherePoint : Sphere K).center 0 5
    dot_rayZ (by ext <;> simp [spherePoint, rayZ])
  have hr : (spherePoint : Sphere K).radius = 0 := rfl
  have h5 : rootNear sqrt (spherePoint : Sphere K).center 0 rayZ = 5 := by
    rw [hroots.2.1]; norm_num
  have hin : (rayZ : Ray K).InRange (rootNear sqrt (spherePoint : Sphere K).center 0 rayZ) := by
    rw [h5]
    constructor <;> simp only [rayZ] <;> norm_num
  rw [hitSphere_eq, hr, if_neg (by rw [hroots.1]; norm_num), if_pos hin, h5]

/-- The z axis ray is resolved by hit to the sphere of radius 0. -/
lemma hit_scenePointSphere {sqrt : K → K} (hs : IsSqrt sqrt) :
    hit sqrt (scenePointSphere : RayTracer K) rayZ HitRecord.uninit =
      (true, hitSphereWrite spherePoint rayZ HitRecord.uninit 5) := by
  simp only [hit, scenePointSphere, List.foldl_nil, List.foldl_cons, hitSphereStep,
    hitSphere_spherePoint hs, Bool.true_and, hitSphereWrite_t]
  rw [if_pos (by simp only [rayZ]; norm_num)]

/-- C5 at a sphere of radius 0: hit resolves the z axis ray to a hit on the sphere of radius 0
centered at `(0, 0, 5)`, at `t = 5` and at the center itself.  The outward normal that line
209 of hitSphere forms for this record is `(point - center) / radius` with `point - center`
the zero vector and `radius = 0`: a quotient of zero by zero, which is no number, so that
`dot(record.normal, ray.direction) <= 0` does not hold of the record the code returns. -/
theorem hit_zero_radius_normal :
    (spherePoint : Sphere ℝ) ∈ (scenePointSphere : RayTracer ℝ).spheres ∧
    hit Real.sqrt (scenePointSphere : RayTracer ℝ) rayZ HitRecord.uninit =
      (true, hitSphereWrite spherePoint rayZ HitRecord.uninit 5) ∧
    (hit Real.sqrt (scenePointSphere : RayTracer ℝ) rayZ HitRecord.uninit).2.t = 5 ∧
    (hit Real.sqrt (scenePointSphere : RayTracer ℝ) rayZ HitRecord.uninit).2.point -
      (spherePoint : Sphere ℝ).center = 0 ∧
    (spherePoint : Sphere ℝ).radius = 0 := by
  have e := hit_scenePointSphere (isSqrt_real)
  refine ⟨by simp [scenePointSphere], e, by rw [e]; rfl, ?_, rfl⟩
  rw [e]
  ext <;> simp [Ray.at, rayZ, spherePoint]

/-- A ray that starts at distance `eps >= 0` from a point of a plane, on the side of the
vector `N` (the plane normal or its negation), and whose direction has a positive scalar
product with `N`, would meet the plane at a parameter that is not positive. -/
lemma planeT_offset_nonpos (plane : Plane K) (P N : Vec3 K) (sr : Ray K) (eps : K)
    (hP : dot (P - plane.point) plane.normal = 0)
    (hN : N = plane.normal ∨ N = -plane.normal)
    (hnn : 0 < dot plane.normal plane.normal) (heps : 0 ≤ eps)
    (ho : sr.origin = P + N.scale eps) (hL : 0 < dot N sr.direction) :
    planeT plane sr ≤ 0 := by
  have hnum : dot (plane.point - sr.origin) plane.normal =
      -dot (P - plane.point) plane.normal - eps * dot N plane.normal := by
    rw [ho]
    simp only [dot, Vec3.sub_x, Vec3.sub_y, Vec3.sub_z, Vec3.add_x, Vec3.add_y, Vec3.add_z,
      Vec3.scale_x, Vec3.scale_y, Vec3.scale_z]
    ring
  rw [planeT, hnum, hP]
  rcases hN with e | e
  · rw [e] at hL ⊢
    apply div_nonpos_of_nonpos_of_nonneg _ hL.le
    have := mul_nonneg heps hnn.le
    linarith
  · rw [e, dot_neg_left] at hL ⊢
    apply div_nonpos_of_nonneg_of_nonpos _ (by linarith)
    have := mul_nonneg heps hnn.le
    linarith

/-- A sphere test fails when the coefficients `a` and `b` of the quadratic are positive, `c`
is not negative and `tMin` is positive: no root is positive. -/
lemma hitSphere_of_nonneg_coeffs {sqrt : K → K} (hs : IsSqrt sqrt) (sphere : Sphere K)
    (sr : Ray K) (record : HitRecord K) (ha : 0 < quadA sr)
    (hb : 0 < quadB sphere.center sr) (hc : 0 ≤ quadC sphere.center sphere.radius sr)
    (hmin : 0 < sr.tMin) :
    hitSphere sqrt sphere sr record = (false, record) := by
  rw [hitSphere_eq]
  by_cases hd : quadDisc sphere.center sphere.radius sr < 0
  · rw [if_pos hd]
  · rw [if_neg hd]
    have hd0 := not_lt.mp hd
    have hsq := hs.mul_self hd0
    have hnn := hs.nonneg hd0
    have hle : sqrt (quadDisc sphere.center sphere.radius sr) ≤ quadB sphere.center sr := by
      by_contra hgt
      have hgt2 := not_le.mp hgt
      have h1 : quadB sphere.center sr * quadB sphere.center sr <
          sqrt (quadDisc sphere.center sphere.radius sr) *
            sqrt (quadDisc sphere.center sphere.radius sr) :=
        mul_self_lt_mul_self hb.le hgt2
      rw [hsq, quadDisc] at h1
      have h2 : 0 ≤ 4 * quadA sr * quadC sphere.center sphere.radius sr :=
        mul_nonneg (mul_nonneg (by norm_num) ha.le) hc
      linarith
    have h2a : 0 < 2 * quadA sr := by linarith
    have hfar : rootFar sqrt sphere.center sphere.radius sr ≤ 0 :=
      div_nonpos_of_nonpos_of_nonneg (by linarith) h2a.le
    have hnear : rootNear sqrt sphere.center sphere.radius sr ≤ 0 :=
      div_nonpos_of_nonpos_of_nonneg (by linarith) h2a.le
    rw [if_neg (fun h => absurd (lt_of_lt_of_le hmin (le_trans h.1 hnear)) (lt_irrefl _)),
      if_neg (fun h => absurd (lt_of_lt_of_le hmin (le_trans h.1 hfar)) (lt_irrefl _))]

/-- The coefficients of the quadratic for a ray that starts at distance `eps >= 0` outside a
sphere of radius `r > 0`, above the surface point `P`, with a direction that has a positive
scalar product with the outward normal at `P`: `a` and `b` are positive, `c` is not
negative. -/
lemma quad_offset_nonneg (center P : Vec3 K) (r eps : K) (sr : Ray K) (hr : 0 < r)
    (heps : 0 ≤ eps) (hP : dot (P - center) (P - center) = r * r)
    (ho : sr.origin = P + ((P - center).divS r).scale eps)
    (hL : 0 < dot ((P - center).divS r) sr.direction) :
    0 < quadA sr ∧ 0 < quadB center sr ∧ 0 ≤ quadC center r sr := by
  have he : 0 ≤ eps / r := div_nonneg heps hr.le
  have hoc : sr.origin - center = (P - center).scale (1 + eps / r) := by
    rw [ho]
    ext <;> simp <;> field_simp <;> ring
  have hPL : dot ((P - center).divS r) sr.direction = dot (P - center) sr.direction / r := by
    simp only [dot, Vec3.divS_x, Vec3.divS_y, Vec3.divS_z]
    field_simp
  have hPL2 : 0 < dot (P - center) sr.direction := by
    rw [hPL] at hL
    exact (div_pos_iff_of_pos_right hr).mp hL
  refine ⟨?_, ?_, ?_⟩
  · apply dot_self_pos
    intro h0
    rw [h0] at hPL2
    simp [dot] at hPL2
  · have : quadB center sr = 2 * ((1 + eps / r) * dot (P - center) sr.direction) := by
      rw [quadB, hoc]
      simp only [dot, Vec3.scale_x, Vec3.scale_y, Vec3.scale_z]
      ring
    rw [this]
    positivity
  · have : quadC center r sr = (1 + eps / r) * (1 + eps / r) * (r * r) - r * r := by
      rw [quadC, hoc, dot_scale_scale, hP]
    rw [this]
    have h2 : 0 ≤ r * r := mul_self_nonneg r
    have hkk : 1 ≤ (1 + eps / r) * (1 + eps / r) := by nlinarith
    have h3 := mul_nonneg (sub_nonneg.mpr hkk) h2
    linarith

/-- Over exact numbers the size of the offset plays no part: a ray that starts at any
distance `eps >= 0` (also `eps = 0`, on the surface itself) along the normal of a hit on a
plane, or of a front-face hit on a sphere of radius `r > 0`, that has a positive `tMin` and
whose direction has a positive scalar product with the normal, is not reported as hitting
that plane or sphere.  What the offset `0.001` of the shadow ray adds to the lower bound
`tMin` concerns rounding, which these numbers do not have. -/
theorem offset_ray_misses_own_surface (sqrt : K → K) (hs : IsSqrt sqrt) (ray sr : Ray K)
    (r0 r1 : HitRecord K) (eps : K) (heps : 0 ≤ eps) (hmin : 0 < sr.tMin) :
    (∀ plane : Plane K, (hitPlane plane ray r0).1 = true →
      sr.origin = (hitPlane plane ray r0).2.point +
        (hitPlane plane ray r0).2.normal.scale eps →
      0 < dot (hitPlane plane ray r0).2.normal sr.direction →
      hitPlane plane sr r1 = (false, r1)) ∧
    (∀ sphere : Sphere K, 0 < sphere.radius → 0 < quadA ray →
      (hitSphere sqrt sphere ray r0).1 = true →
      (hitSphere sqrt sphere ray r0).2.frontFace = true →
      sr.origin = (hitSphere sqrt sphere ray r0).2.point +
        (hitSphere sqrt sphere ray r0).2.normal.scale eps →
      0 < dot (hitSphere sqrt sphere ray r0).2.normal sr.direction →
      hitSphere sqrt sphere sr r1 = (false, r1)) := by
  refine ⟨?_, ?_⟩
  · intro plane hh ho hL
    obtain ⟨hP, hN, hnn⟩ := hitPlane_geometry plane ray r0 hh
    have hle := planeT_offset_nonpos plane _ _ sr eps hP hN hnn heps ho hL
    rw [hitPlane_eq, if_neg]
    rintro ⟨_, hin, _⟩
    linarith
  · intro sphere hr ha hh hf ho hL
    obtain ⟨hN, hP⟩ := hitSphere_front_normal hs sphere ray r0 ha hh hf
    rw [hN] at hL ho
    obtain ⟨hqa, hqb, hqc⟩ := quad_offset_nonneg sphere.center _ sphere.radius eps sr hr heps
      hP ho hL
    exact hitSphere_of_nonneg_coeffs hs sphere sr r1 hqa hqb hqc hmin

/-- The inputs of the scene with a light on its plane are non-negative. -/
lemma nonNegInputs_sceneLightOnSurface : (sceneLightOnSurface : RayTracer K).NonNegInputs := by
  refine ⟨?_, ?_, ?_, ?_, ?_⟩
  · refine ⟨?_, ?_, ?_⟩ <;> simp only [sceneLightOnSurface] <;> norm_num
  · intro s hs
    simp [sceneLightOnSurface] at hs
  · intro p hp
    have hp2 : p = planeAhead := by simpa [sceneLightOnSurface] using hp
    rw [hp2]
    refine ⟨⟨?_, ?_, ?_⟩, ⟨?_, ?_⟩, ⟨?_, ?_⟩⟩ <;>
      simp only [planeAhead, RayTracingMaterial.default, Vec3.splat] <;> norm_num
  · intro sc hsc
    simp [sceneLightOnSurface] at hsc
  · intro l hl
    have hl2 : l = lightOnSurface := by simpa [sceneLightOnSurface] using hl
    rw [hl2]
    refine ⟨⟨?_, ?_, ?_⟩, ?_⟩ <;> simp only [lightOnSurface] <;> norm_num

/-- The point at which the z axis ray meets the plane `z = 5`. -/
lemma hitPlane_planeAhead_point (record : HitRecord K) :
    (hitPlane (planeAhead : Plane K) rayZ record).2.point = ⟨0, 0, 5⟩ := by
  rw [(hitPlane_true _ _ _ (hitPlane_planeAhead record)).2, hitPlaneWrite_point]
  have ht : planeT (planeAhead : Plane K) rayZ = 5 := by
    simp only [planeT, planeAhead, rayZ, dot, Vec3.sub_x, Vec3.sub_y, Vec3.sub_z]
    norm_num
  rw [ht]
  ext <;> simp [Ray.at, rayZ]

/-- C30 at a light placed on a surface: in a scene with non-negative inputs, the z axis ray
is resolved to a hit on the plane `z = 5` at the point `(0, 0, 5)` where the only light is.
For this record calculateLighting runs the body of its light loop once, which starts with
`glm::normalize(light.position - hit.point)`: the vector is the zero vector, its length is 0
and the normalization divides by it, so that `lightDir` is no number and neither is the color
that traceRay returns; its components are not `>= 0`. -/
theorem calculateLighting_light_at_hit_point :
    (sceneLightOnSurface : RayTracer ℝ).NonNegInputs ∧
    (0 : Int) < (sceneLightOnSurface : RayTracer ℝ).maxDepth ∧
    hit Real.sqrt (sceneLightOnSurface : RayTracer ℝ) rayZ HitRecord.uninit =
      (true, (hitPlane planeAhead rayZ HitRecord.uninit).2) ∧
    (hitPlane (planeAhead : Plane ℝ) rayZ HitRecord.uninit).2.point =
      (lightOnSurface : Light ℝ).position ∧
    (lightOnSurface : Light ℝ).position -
      (hitPlane (planeAhead : Plane ℝ) rayZ HitRecord.uninit).2.point = 0 ∧
    length Real.sqrt ((lightOnSurface : Light ℝ).position -
      (hitPlane (planeAhead : Plane ℝ) rayZ HitRecord.uninit).2.point) = 0 ∧
    calculateLighting Real.sqrt (sceneLightOnSurface : RayTracer ℝ)
        (hitPlane planeAhead rayZ HitRecord.uninit).2 =
      lightStep Real.sqrt sceneLightOnSurface (hitPlane planeAhead rayZ HitRecord.uninit).2
        ((hitPlane (planeAhead : Plane ℝ) rayZ HitRecord.uninit).2.color.scale (1 / 10))
        lightOnSurface := by
  have hpt := hitPlane_planeAhead_point (HitRecord.uninit : HitRecord ℝ)
  have hz : (lightOnSurface : Light ℝ).position -
      (hitPlane (planeAhead : Plane ℝ) rayZ HitRecord.uninit).2.point = 0 := by
    rw [hpt]
    ext <;> simp [lightOnSurface]
  refine ⟨nonNegInputs_sceneLightOnSurface, by simp [sceneLightOnSurface], ?_, ?_, hz, ?_, rfl⟩
  · exact hit_sceneOnePlane Real.sqrt
  · rw [hpt]; rfl
  · rw [hz, length]
    have h0 : dot (0 : Vec3 ℝ) 0 = 0 := by simp [dot]
    rw [h0, Real.sqrt_zero]

end Basic

end RT
